import Mathlib

/-!
# Console line buffer and input editing (thunderbrew, `src/console/Console.cpp`)

A shallow embedding of the console scrollback store and the input-line editor.

Conventions of the embedding

* A heap block is a `List Byte`; a `Byte` is `Option Char`, where `none` is an
  indeterminate byte (memory obtained from `SMemAlloc` with flags `0` is not
  zeroed).  Reading a C string that runs into an indeterminate byte or past the
  end of its block, and writing outside a block, are undefined behaviour: the
  operation returns `none`.
* Lengths and indices are `Nat`.  The `uint32_t`/`size_t` fields never come near
  `2^32` for the buffers handled here, so no wrap-around is modelled.
* `s_linelist` is a `List CONSOLELINE` ordered from `Head()` to `Tail()`;
  `Next()` walks toward the tail (older lines), `Prev()` toward the head.
* A `CONSOLELINE*` is the `id` given to the line when it was allocated.
* Rendering (`SetInputString`, `GenerateNodeString`, font handles), the critical
  section and heap deallocation (the `SMemFree` calls, among them the repeated
  `SMemFree(input)` of `PasteInInputLine`) are outside the embedding.
* Storm's list and string routines and the declarations of `console/Types.hpp`
  are not among the sources; they are embedded by their contract as the code
  uses them.
-/

namespace Console

/-! ## Constants (`Console.hpp`, `Console.cpp`) -/

def CONSOLE_LINES_MAX : Nat := 256

def CONSOLE_LINE_LENGTH : Nat := 1024

def CONSOLE_LINE_PREALLOC : Nat := 16

def HIGHLIGHT_COPY_SIZE : Nat := 128

/-- Storm's "no limit" size for the string routines (`0x7FFFFFFF`). -/
def STORM_MAX_STR : Nat := 2147483647

/-! ## Memory and C strings -/

/-- The string terminator `'\0'`. -/
def NUL : Char := Char.ofNat 0

/-- One byte of a heap block; `none` is an indeterminate byte. -/
abbrev Byte := Option Char

/-- Block returned by `SMemAlloc(n, ..., 0)`: `n` indeterminate bytes. -/
def SMemAlloc (n : Nat) : List Byte := List.replicate n none

/-- The C string that starts at the beginning of `mem`: the characters before the
first NUL.  `none` when no NUL is found before an indeterminate byte or the end
of the block. -/
def cstr : List Byte → Option (List Char)
  | [] => none
  | none :: _ => none
  | some c :: rest => if c = NUL then some [] else (cstr rest).map (fun s => c :: s)

/-- Bounded read used by the size-limited string routines: at most `n`
characters are looked at, reading stops at the first NUL. -/
def cstrN (n : Nat) : List Byte → Option (List Char)
  | [] => if n = 0 then some [] else none
  | b :: rest =>
    if n = 0 then some []
    else match b with
      | none => none
      | some c => if c = NUL then some [] else (cstrN (n - 1) rest).map (fun s => c :: s)

/-- A string literal or argument as it lies in memory: its characters followed
by the terminator. -/
def lit (s : List Char) : List Byte := s.map some ++ [some NUL]

/-- Storm `SStrLen`. -/
def SStrLen (mem : List Byte) : Option Nat := (cstr mem).map List.length

/-- Store the bytes `bs` at offset `off` of `mem`; writing outside the block is
undefined. -/
def poke (mem : List Byte) (off : Nat) (bs : List Byte) : Option (List Byte) :=
  if off + bs.length ≤ mem.length then
    some (mem.take off ++ bs ++ mem.drop (off + bs.length))
  else none

/-- The libc `memmove(&mem[dst], &mem[src], n)` inside one block.  `memcpy` with
the destination below the source (the only way it is used here) copies the same
bytes. -/
def memmove (mem : List Byte) (dst src n : Nat) : Option (List Byte) :=
  if n = 0 then some mem
  else if src + n ≤ mem.length then poke mem dst ((mem.drop src).take n)
  else none

/-- The characters a size-limited string routine reads from `source` when
`room` characters fit; `STORM_MAX_STR` as the size means no limit. -/
def readStr (destsize room : Nat) (source : List Byte) : Option (List Char) :=
  if destsize = STORM_MAX_STR then cstr source else cstrN room source

/-- Storm `SStrCopy(dest + off, source, destsize)`: copies at most
`destsize - 1` characters of the C string `source` and terminates the copy. -/
def SStrCopy (dest : List Byte) (off : Nat) (source : List Byte) (destsize : Nat) :
    Option (List Byte) :=
  (readStr destsize (destsize - 1) source).bind (fun s => poke dest off (lit s))

/-- Storm `SStrPack(dest, source, destsize)`: appends the C string `source` to
the C string in `dest`, the result holding at most `destsize - 1` characters. -/
def SStrPack (dest : List Byte) (source : List Byte) (destsize : Nat) : Option (List Byte) :=
  (cstr dest).bind (fun d =>
    (readStr destsize (destsize - 1 - d.length) source).bind (fun s =>
      poke dest d.length (lit s)))

/-- The characters of an argument string up to its terminator. -/
def cstring (s : List Char) : List Char := s.takeWhile (fun c => c ≠ NUL)

/-! ## Types (`console/Types.hpp`, `event/Types.hpp`) -/

/-- Colour tags, in the order of `s_colorArray`. -/
inductive COLOR_T where
  | DEFAULT_COLOR | INPUT_COLOR | ECHO_COLOR | ERROR_COLOR | WARNING_COLOR
  | GLOBAL_COLOR | ADMIN_COLOR | HIGHLIGHT_COLOR | BACKGROUND_COLOR
  deriving DecidableEq, Repr

inductive HIGHLIGHTSTATE where
  | HS_NONE | HS_HIGHLIGHTING | HS_ENDHIGHLIGHT
  deriving DecidableEq, Repr

inductive CONSOLERESIZESTATE where
  | CS_NONE | CS_STRETCH
  deriving DecidableEq, Repr

/-- The keys the console handlers distinguish; `KEY_OTHER n` is any other key. -/
inductive KEY where
  | KEY_TILDE | KEY_ESCAPE | KEY_PAGEUP | KEY_PAGEDOWN | KEY_ENTER | KEY_HOME | KEY_END
  | KEY_C | KEY_V | KEY_LEFT | KEY_UP | KEY_RIGHT | KEY_DOWN | KEY_BACKSPACE
  | KEY_TAB | KEY_LSHIFT | KEY_RSHIFT | KEY_LALT | KEY_RALT | KEY_LCONTROL | KEY_RCONTROL
  | KEY_OTHER (n : Nat)
  deriving DecidableEq, Repr

/-- A console line.  `id` stands for the address of the node; the other fields
are those the code reads and writes.  A line built by `new CONSOLELINE()` has
every numeric field zero and no buffer. -/
structure CONSOLELINE where
  id : Nat
  buffer : List Byte := []
  chars : Nat := 0
  charsalloc : Nat := 0
  inputpos : Nat := 0
  inputstart : Nat := 0
  colorType : COLOR_T := COLOR_T.DEFAULT_COLOR
  deriving DecidableEq, Repr

/-- The text of a line: its buffer read as a C string. -/
def CONSOLELINE.text (l : CONSOLELINE) : Option (List Char) := cstr l.buffer

/-! ## Line-level operations -/

/-- The loop `while (line->charsalloc <= newsize) line->charsalloc += CONSOLE_LINE_PREALLOC`,
run for at most `fuel` rounds. -/
def growAlloc : Nat → Nat → Nat → Nat
  | 0, alloc, _ => alloc
  | fuel + 1, alloc, newsize =>
    if alloc ≤ newsize then growAlloc fuel (alloc + CONSOLE_LINE_PREALLOC) newsize else alloc

/-- `ReserveInputSpace(line, len)`. -/
def ReserveInputSpace (line : CONSOLELINE) (len : Nat) : Option CONSOLELINE :=
  let newsize := line.chars + len
  if newsize ≥ line.charsalloc then
    let alloc := growAlloc (newsize + 1 - line.charsalloc) line.charsalloc newsize
    (SStrCopy (SMemAlloc alloc) 0 line.buffer alloc).map
      (fun buffer => { line with charsalloc := alloc, buffer := buffer })
  else some line

/-- `CONSOLELINE::Backspace`. -/
def CONSOLELINE.Backspace (l : CONSOLELINE) : Option CONSOLELINE :=
  if l.inputpos > l.inputstart then
    (if l.chars ≤ l.inputpos then poke l.buffer (l.inputpos - 1) [some NUL]
     else memmove l.buffer (l.inputpos - 1) l.inputpos (l.chars - l.inputpos + 1)).map
      (fun b => { l with buffer := b, inputpos := l.inputpos - 1, chars := l.chars - 1 })
  else some l

/-- The body of `PasteInInputLine` from `ReserveInputSpace(line, len)` on, for
the line `GetInputLine()` returned; `characters` is the argument up to its
terminator and is not empty. -/
def pasteLine (line0 : CONSOLELINE) (characters : List Char) : Option CONSOLELINE :=
  let len := characters.length
  (ReserveInputSpace line0 len).bind (fun line =>
    if line.inputpos < line.chars then
      if len ≤ 1 then
        (memmove line.buffer (line.inputpos + 1) line.inputpos
            (line.chars - (line.inputpos + 1))).bind (fun b1 =>
          (poke b1 line.inputpos [(lit characters).headD none]).map (fun b2 =>
            { line with buffer := b2, inputpos := line.inputpos + 1, chars := line.chars + 1 }))
      else
        (SStrCopy (SMemAlloc line.charsalloc) 0 (line.buffer.drop line.inputpos)
            STORM_MAX_STR).bind (fun input =>
        (SStrCopy (SMemAlloc line.charsalloc) 0 line.buffer STORM_MAX_STR).bind (fun buffer0 =>
        (poke buffer0 line.inputpos [some NUL]).bind (fun buffer1 =>
        (SStrPack buffer1 (lit characters) line.charsalloc).bind (fun buffer2 =>
        (SStrLen buffer2).bind (fun len2 =>
        (SStrPack buffer2 input line.charsalloc).bind (fun buffer3 =>
        (SStrCopy line.buffer 0 buffer3 STORM_MAX_STR).bind (fun lb =>
        (SStrLen lb).map (fun n =>
          { line with buffer := lb, inputpos := len2, chars := n }))))))))
    else
      (poke line.buffer line.inputpos (lit characters)).map (fun b =>
        { line with buffer := b, inputpos := line.inputpos + len,
                    chars := line.inputpos + len }))

/-- `MakeCommandCurrent(lineptr, command)`. -/
def MakeCommandCurrent (lineptr : CONSOLELINE) (command : List Char) : Option CONSOLELINE :=
  let len := lineptr.inputstart
  (poke lineptr.buffer len [some NUL]).bind (fun b =>
    let len2 := (cstring command).length
    (ReserveInputSpace { lineptr with inputpos := len, chars := len, buffer := b } len2).bind
      (fun l2 =>
        (SStrCopy l2.buffer l2.inputpos (lit command) STORM_MAX_STR).map (fun b2 =>
          { l2 with buffer := b2, inputpos := l2.inputpos + len2,
                    chars := l2.inputpos + len2 })))

/-! ## Console state -/

/-- Storm `RECTF`; a `float` is kept as a rational value. -/
structure RECTF where
  left : Rat
  bottom : Rat
  right : Rat
  top : Rat
  deriving DecidableEq, Repr

/-- The file-level state of `Console.cpp` that the store and the editor use,
with the collaborators' state the handlers read: whether `g_theGxDevicePtr` is
set, the command history kept by `console/Command.cpp`, and a log of the
commands handed to `ConsoleCommandExecute` (most recent first).  `nextId` is the
address the next allocated line gets. -/
structure State where
  g_theGxDevicePtr : Bool := false
  s_active : Bool := false
  s_consoleAccessEnabled : Bool := false
  s_consoleKey : KEY := KEY.KEY_TILDE
  s_consoleLines : Rat := 10
  s_fontHeight : Rat := { num := 1, den := 50 }
  s_consoleHeight : Rat := { num := 1, den := 5 }
  s_historyIndex : Int := 0
  s_NumLines : Nat := 0
  s_consoleResizeState : CONSOLERESIZESTATE := CONSOLERESIZESTATE.CS_NONE
  s_highlightState : HIGHLIGHTSTATE := HIGHLIGHTSTATE.HS_NONE
  s_hRect : RECTF := { left := 0, bottom := 0, right := 0, top := 0 }
  s_highlightHStart : Rat := 0
  s_highlightHEnd : Rat := 0
  s_highlightLeftCharIndex : Nat := 0
  s_highlightRightCharIndex : Nat := 0
  s_copyText : List Byte := List.replicate HIGHLIGHT_COPY_SIZE (some NUL)
  s_linelist : List CONSOLELINE := []
  s_currlineptr : Option Nat := none
  nextId : Nat := 1
  history : List (List Char) := []
  historyMax : Nat := 0
  executed : List (List Char) := []
  deriving DecidableEq, Repr

/-- The state at program start: every static at its initialiser. -/
def State.init : State := {}

/-! ## Line list (`STORM_LIST(CONSOLELINE)`) -/

/-- `s_linelist.Head()`. -/
def Head (s : State) : Option CONSOLELINE := s.s_linelist.head?

/-- `s_linelist.Tail()`. -/
def Tail (s : State) : Option CONSOLELINE := s.s_linelist.getLast?

/-- `s_linelist.LinkToHead(lineptr)`. -/
def LinkToHead (lineptr : CONSOLELINE) (list : List CONSOLELINE) : List CONSOLELINE :=
  lineptr :: list

/-- Modelled from the spec: `s_linelist.LinkNode(lineptr, 1, head->Prev())` of
`ConsoleWrite`, for a non-empty list.  Storm's list template is not among the
sources; the call site says "Attach console line between head and head-1" and
the spec "inserts it immediately preceding the current input line", the list
being ordered head = input line, tail = oldest line: the node becomes the
second element. -/
def LinkNodeBelowHead (lineptr : CONSOLELINE) : List CONSOLELINE → List CONSOLELINE
  | [] => [lineptr]
  | head :: rest => head :: lineptr :: rest

/-- Apply `f` to the line `ptr` points to; `none` when `ptr` is not a line of
the list (a dangling pointer) or `f` is undefined. -/
def updateLine (ptr : Nat) (f : CONSOLELINE → Option CONSOLELINE) :
    List CONSOLELINE → Option (List CONSOLELINE)
  | [] => none
  | l :: ls =>
    if l.id = ptr then (f l).map (fun l2 => l2 :: ls)
    else (updateLine ptr f ls).map (fun ls2 => l :: ls2)

/-- The line `ptr` points to. -/
def deref (ptr : Nat) (list : List CONSOLELINE) : Option CONSOLELINE :=
  list.find? (fun l => l.id = ptr)

/-! ## Store operations -/

/-- `EnforceMaxLines()`.  With no tail the list is empty, so the fallback
pointer `s_currlineptr`, when set, refers to no linked line and unlinking it is
undefined. -/
def EnforceMaxLines (s : State) : Option State :=
  if s.s_NumLines ≤ CONSOLE_LINES_MAX then some s
  else
    match Tail s with
    | some _ =>
      some { s with s_linelist := s.s_linelist.dropLast, s_NumLines := s.s_NumLines - 1 }
    | none =>
      match s.s_currlineptr with
      | none => some s
      | some _ => none

/-- `ConsoleWrite(str, color)`. -/
def ConsoleWrite (str : List Char) (color : COLOR_T) (s : State) : Option State :=
  if s.g_theGxDevicePtr = false ∨ (lit str).head? = some (some NUL) then some s
  else
    let len := (cstring str).length + 1
    (SStrCopy (SMemAlloc len) 0 (lit str) STORM_MAX_STR).bind (fun buffer =>
      let lineptr : CONSOLELINE :=
        { id := s.nextId, chars := len, charsalloc := len, buffer := buffer, colorType := color }
      let linked :=
        match Head s with
        | none => LinkToHead lineptr s.s_linelist
        | some head =>
          if head.inputpos = 0 then LinkToHead lineptr s.s_linelist
          else LinkNodeBelowHead lineptr s.s_linelist
      EnforceMaxLines
        { s with s_linelist := linked, s_NumLines := s.s_NumLines + 1, nextId := s.nextId + 1 })

/-- The loop of `ConsoleClear`: while there is a head, unlink and delete it. -/
def clearLoop : List CONSOLELINE → List CONSOLELINE
  | [] => []
  | _ :: rest => clearLoop rest

/-- `ConsoleClear()`. -/
def ConsoleClear (s : State) : State :=
  { s with s_NumLines := 0, s_linelist := clearLoop s.s_linelist }

/-- `ConsoleWriteA(str, color, ...)`.  `str` is `none` for the null pointer;
`formatted` is what `vsnprintf` makes of the format and its arguments, of which
the 1024-byte buffer keeps at most 1023 characters. -/
def ConsoleWriteA (str : Option (List Char)) (color : COLOR_T) (formatted : List Char)
    (s : State) : Option State :=
  match str with
  | none => some s
  | some fmt =>
    if (lit fmt).head? ≠ some (some NUL) then
      ConsoleWrite ((cstring formatted).take (CONSOLE_LINE_LENGTH - 1)) color s
    else some s

/-- The string literal `"> "`. -/
def prompt : List Char := ['>', ' ']

/-- The fresh input line branch of `GetInputLine`. -/
def newInputLine (s : State) : Option (Nat × State) :=
  (SStrCopy (SMemAlloc CONSOLE_LINE_PREALLOC) 0 (lit prompt)
      CONSOLE_LINE_PREALLOC).bind (fun buffer =>
    (SStrLen buffer).bind (fun chars =>
      let line : CONSOLELINE :=
        { id := s.nextId, buffer := buffer, charsalloc := CONSOLE_LINE_PREALLOC,
          inputstart := chars, inputpos := chars, chars := chars,
          colorType := COLOR_T.INPUT_COLOR }
      (EnforceMaxLines
        { s with s_linelist := LinkToHead line s.s_linelist, s_NumLines := s.s_NumLines + 1,
                 s_currlineptr := some line.id, nextId := s.nextId + 1 }).map
        (fun s2 => (line.id, s2))))

/-- `GetInputLine()`: the pointer returned and the state afterwards. -/
def GetInputLine (s : State) : Option (Nat × State) :=
  match Head s with
  | none => newInputLine s
  | some head => if head.inputpos = 0 then newInputLine s else some (head.id, s)

/-- `PasteInInputLine(characters)`. -/
def PasteInInputLine (characters : List Char) (s : State) : Option State :=
  let cs := cstring characters
  if cs.length = 0 then some s
  else
    (GetInputLine s).bind (fun r =>
      (updateLine r.1 (fun line => pasteLine line cs) r.2.s_linelist).map (fun ls =>
        { r.2 with s_linelist := ls }))

/-! ## Command history (`console/Command.cpp`) -/

/-- Modelled from the spec: `ConsoleCommandHistoryDepth()`, whose source is
missing; the depth of the history log. -/
def ConsoleCommandHistoryDepth (s : State) : Int := (s.history.length : Int)

/-- Modelled from the spec: `ConsoleCommandHistory(index)`, whose source is
missing; entry `index` of the history log, `0` being the most recent command,
and the null pointer (`none`) when there is no such entry. -/
def ConsoleCommandHistory (s : State) (index : Int) : Option (List Char) :=
  if index < 0 then none else s.history.get? index.toNat

/-- Modelled from the spec: `ConsoleCommandExecute(command, 1)`, whose source is
missing; the command is handed over (logged in `executed`) and recorded in the
history, the oldest entry being dropped beyond `historyMax`.  Output the command
itself prints arrives through `ConsoleWrite` and is not part of this step. -/
def ConsoleCommandExecute (command : List Char) (s : State) : State :=
  { s with executed := command :: s.executed,
           history := (command :: s.history).take s.historyMax }

/-- `CONSOLELINE::Up` on the line `this`. -/
def CONSOLELINE.Up (this : Nat) (s : State) : Option State :=
  if s.s_historyIndex ≠ ConsoleCommandHistoryDepth s - 1 then
    let index := s.s_historyIndex + 1
    match ConsoleCommandHistory s index with
    | some commandHistory =>
      (updateLine this (fun l => MakeCommandCurrent l commandHistory) s.s_linelist).map
        (fun ls => { s with s_linelist := ls, s_historyIndex := index })
    | none => some s
  else some s

/-- `CONSOLELINE::Down` on the line `this`. -/
def CONSOLELINE.Down (this : Nat) (s : State) : Option State :=
  if s.s_historyIndex ≠ -1 then
    let index := s.s_historyIndex - 1
    let commandHistory : Option (List Char) :=
      if s.s_historyIndex ≠ 0 then ConsoleCommandHistory s index else some []
    match commandHistory with
    | none => some s
    | some c =>
      (updateLine this (fun l => MakeCommandCurrent l c) s.s_linelist).map
        (fun ls => { s with s_linelist := ls, s_historyIndex := index })
  else some s

/-! ## Viewport cursor -/

/-- `lineptr->m_link.Next()` (`direction == 1`) or `lineptr->m_link.Prev()`:
`none` when `lineptr` is not a linked line, `some none` for the null pointer. -/
def neighbour (direction : Int) (list : List CONSOLELINE) (lineptr : Nat) :
    Option (Option Nat) :=
  match list.findIdx? (fun l => l.id = lineptr) with
  | none => none
  | some i =>
    if direction = 1 then some ((list.get? (i + 1)).map (fun l => l.id))
    else if i = 0 then some none
    else some ((list.get? (i - 1)).map (fun l => l.id))

/-- The loop of `MoveLinePtr` under a Control modifier, `n` rounds left. -/
def moveLoop (direction : Int) (list : List CONSOLELINE) : Nat → Option Nat → Option (Option Nat)
  | 0, lineptr => some lineptr
  | _ + 1, none => some none
  | n + 1, some p =>
    (neighbour direction list p).bind (fun next =>
      match next with
      | some q => moveLoop direction list n (some q)
      | none => moveLoop direction list n (some p))

/-- `MoveLinePtr(direction, modifier)`; `anyControl` is `modifier & anyControl`. -/
def MoveLinePtr (direction : Int) (anyControl : Bool) (s : State) : Option State :=
  let result : Option (Option Nat) :=
    if anyControl then moveLoop direction s.s_linelist 10 s.s_currlineptr
    else
      match s.s_currlineptr with
      | none => none
      | some p => neighbour direction s.s_linelist p
  result.map (fun lineptr =>
    match lineptr with
    | some q => { s with s_currlineptr := some q }
    | none => s)

/-! ## Highlight -/

/-- `ResetHighlight()`. -/
def ResetHighlight (s : State) : State :=
  { s with s_highlightState := HIGHLIGHTSTATE.HS_NONE,
           s_hRect := { left := 0, bottom := 0, right := 0, top := 0 } }

/-- The local `buffer` of `CutHighlightToClipboard` after the copy, when the
snapshot is not empty; the subtraction is the `uint32_t` one. -/
def cutBuffer (s : State) : Option (List Byte) :=
  let size := (s.s_highlightRightCharIndex + 2 ^ 32 - s.s_highlightLeftCharIndex) % 2 ^ 32
  let capsize := HIGHLIGHT_COPY_SIZE - 1
  let size2 := min size capsize
  (SStrCopy (SMemAlloc HIGHLIGHT_COPY_SIZE) 0 (s.s_copyText.drop s.s_highlightLeftCharIndex)
      size2).bind (fun buffer => poke buffer size2 [some NUL])

/-- `CutHighlightToClipboard()`. -/
def CutHighlightToClipboard (s : State) : Option State :=
  if s.s_copyText.head? ≠ some (some NUL) then (cutBuffer s).map (fun _ => ResetHighlight s)
  else some (ResetHighlight s)

/-- `PasteClipboardToHighlight()`: its body is commented out. -/
def PasteClipboardToHighlight (s : State) : State := s

/-! ## Event handlers

`hotKeyDown` is `EventIsKeyDown(ConsoleGetHotKey())`, `anyControl` is
`data->metaKeyState & anyControl`.  A handler yields its return value and the
state afterwards. -/

/-- `OnChar`. -/
def OnChar (ch : Char) (hotKeyDown : Bool) (s : State) : Option (Int × State) :=
  if s.s_consoleAccessEnabled ∧ hotKeyDown then some (0, s)
  else if s.s_active then
    (PasteInInputLine [ch, NUL] s).map (fun s2 => (0, ResetHighlight s2))
  else some (1, s)

/-- The cursor keys: `KEY_LEFT` of `OnKeyDown`. -/
def keyLeft (line : CONSOLELINE) : CONSOLELINE :=
  if line.inputstart ≤ line.inputpos ∧ line.inputpos ≠ line.inputstart then
    { line with inputpos := line.inputpos - 1 }
  else line

/-- The cursor keys: `KEY_RIGHT` of `OnKeyDown`. -/
def keyRight (line : CONSOLELINE) : CONSOLELINE :=
  if line.inputpos < line.chars then { line with inputpos := line.inputpos + 1 } else line

/-- The `KEY_ESCAPE` case of `OnKeyDown` for the input line `ptr`. -/
def keyEscape (ptr : Nat) (s : State) : Option State :=
  (deref ptr s.s_linelist).bind (fun line =>
    if line.inputpos < line.inputstart ∨ line.inputpos = line.inputstart then
      some { s with s_active := false }
    else
      (updateLine ptr (fun l =>
          (poke l.buffer l.inputstart [some NUL]).map (fun b =>
            { l with inputpos := l.inputstart, chars := l.inputstart, buffer := b }))
        s.s_linelist).map (fun ls => { s with s_linelist := ls }))

/-- The `KEY_ENTER` case of `OnKeyDown` for the input line `ptr`. -/
def keyEnter (ptr : Nat) (s : State) : Option State :=
  (deref ptr s.s_linelist).bind (fun line =>
    if line.inputstart ≤ line.inputpos ∧ line.inputpos ≠ line.inputstart then
      (updateLine ptr (fun l => some { l with inputpos := 0 }) s.s_linelist).bind (fun ls =>
        (cstr (line.buffer.drop line.inputstart)).map (fun command =>
          { ConsoleCommandExecute command { s with s_linelist := ls } with
            s_historyIndex := -1 }))
    else some s)

/-- The test that ends `OnKeyDown` and `OnKeyDownRepeat`. -/
def resetsHighlight (key : KEY) (anyControl : Bool) : Bool :=
  key ≠ KEY.KEY_TAB ∧ key ≠ KEY.KEY_LSHIFT ∧ key ≠ KEY.KEY_RSHIFT ∧ key ≠ KEY.KEY_LALT ∧
    key ≠ KEY.KEY_RALT ∧ ¬ anyControl

/-- `OnKeyDown`. -/
def OnKeyDown (key : KEY) (anyControl hotKeyDown : Bool) (s : State) : Option (Int × State) :=
  if key = s.s_consoleKey ∧ s.s_consoleAccessEnabled then
    let s1 := { s with s_active := !s.s_active }
    some (0, if !s1.s_active then ResetHighlight s1 else s1)
  else if hotKeyDown ∨ !s.s_active then some (1, s)
  else
    (GetInputLine s).bind (fun r =>
      let line := r.1
      let s1 := r.2
      let after : Option State :=
        match key with
        | KEY.KEY_ESCAPE => keyEscape line s1
        | KEY.KEY_PAGEUP => MoveLinePtr 1 anyControl s1
        | KEY.KEY_PAGEDOWN => MoveLinePtr 0 anyControl s1
        | KEY.KEY_ENTER => keyEnter line s1
        | KEY.KEY_C => if anyControl then CutHighlightToClipboard s1 else some s1
        | KEY.KEY_V => if anyControl then some (PasteClipboardToHighlight s1) else some s1
        | KEY.KEY_LEFT =>
          (updateLine line (fun l => some (keyLeft l)) s1.s_linelist).map
            (fun ls => { s1 with s_linelist := ls })
        | KEY.KEY_UP => CONSOLELINE.Up line s1
        | KEY.KEY_RIGHT =>
          (updateLine line (fun l => some (keyRight l)) s1.s_linelist).map
            (fun ls => { s1 with s_linelist := ls })
        | KEY.KEY_DOWN => CONSOLELINE.Down line s1
        | KEY.KEY_BACKSPACE =>
          (updateLine line CONSOLELINE.Backspace s1.s_linelist).map
            (fun ls => { s1 with s_linelist := ls })
        | _ => some s1
      after.map (fun s2 => (0, if resetsHighlight key anyControl then ResetHighlight s2 else s2)))

/-- `OnKeyDownRepeat`. -/
def OnKeyDownRepeat (key : KEY) (anyControl : Bool) (s : State) : Option (Int × State) :=
  if key = s.s_consoleKey ∧ s.s_consoleAccessEnabled then
    some (0, { s with s_active := !s.s_active })
  else
    (GetInputLine s).bind (fun r =>
      let line := r.1
      let s1 := r.2
      let after : Option State :=
        match key with
        | KEY.KEY_PAGEUP => MoveLinePtr 1 anyControl s1
        | KEY.KEY_PAGEDOWN => MoveLinePtr 0 anyControl s1
        | KEY.KEY_LEFT =>
          (updateLine line (fun l => some (keyLeft l)) s1.s_linelist).map
            (fun ls => { s1 with s_linelist := ls })
        | KEY.KEY_RIGHT =>
          (updateLine line (fun l => some (keyRight l)) s1.s_linelist).map
            (fun ls => { s1 with s_linelist := ls })
        | KEY.KEY_BACKSPACE =>
          (updateLine line CONSOLELINE.Backspace s1.s_linelist).map
            (fun ls => { s1 with s_linelist := ls })
        | _ => some s1
      after.map (fun s2 => (1, if resetsHighlight key anyControl then ResetHighlight s2 else s2)))

/-! ## Selection and pointer events

`GxuFontGetMaxCharsWithinWidth` belongs to the font collaborator; the handlers
take it as the parameter `measure`: for a text, a width and a number of
characters it gives the number of characters that fit and the extent they take. -/

/-- The measurement collaborator. -/
abbrev Measure := List Char → Rat → Nat → Nat × Rat

/-- `UpdateHighlight()`. -/
def UpdateHighlight (measure : Measure) (s : State) : Option State :=
  (cstr s.s_copyText).map (fun text =>
    let len := text.length
    let left := min s.s_highlightHStart s.s_highlightHEnd
    let right := max s.s_highlightHStart s.s_highlightHEnd
    let m1 := measure text left len
    let chars := m1.1
    let s1 := { s with s_highlightLeftCharIndex := chars,
                       s_hRect := { s.s_hRect with left := m1.2 } }
    let s2 := if chars ≠ 0 then { s1 with s_highlightRightCharIndex := chars - 1 } else s1
    let s3 := if s2.s_hRect.left < 15 / 1000 then
        { s2 with s_hRect := { s2.s_hRect with left := 0 } } else s2
    let m2 := measure text right len
    { s3 with s_highlightRightCharIndex := m2.1, s_hRect := { s3.s_hRect with right := m2.2 } })

/-- `SetHighlightCopyText(text)`. -/
def SetHighlightCopyText (text : List Byte) (s : State) : Option State :=
  (SStrCopy s.s_copyText 0 text HIGHLIGHT_COPY_SIZE).map (fun b => { s with s_copyText := b })

/-- `ResetHighlightCopyText()`. -/
def ResetHighlightCopyText (s : State) : Option State :=
  (poke s.s_copyText 0 [some NUL]).map (fun b => { s with s_copyText := b })

/-- The conversion of a `float` expression to `int32_t`: truncation toward zero. -/
def truncate (q : Rat) : Int := if 0 ≤ q then Int.floor q else Int.ceil q

/-- The loop of `GetLineAtMousePosition` with `n` rounds left: `none` when a
pointer that is not a linked line is followed, `some none` for the null result. -/
def walkLines (list : List CONSOLELINE) : Nat → Option Nat → Option (Option Nat)
  | 0, line => some line
  | n + 1, line =>
    let line1 : Option Nat :=
      match line with
      | none => list.head?.map (fun l => l.id)
      | some p => some p
    match line1 with
    | none => some none
    | some p => (neighbour 1 list p).bind (walkLines list n)

/-- `GetLineAtMousePosition(y)`. -/
def GetLineAtMousePosition (y : Rat) (s : State) : Option (Option Nat) :=
  let linePos : Int := truncate ((s.s_consoleHeight - (1 - y)) / s.s_fontHeight)
  if linePos = 1 then some ((Head s).map (fun l => l.id))
  else
    let linePos2 : Int :=
      if s.s_currlineptr ≠ (Head s).map (fun l => l.id) then linePos - 1 else linePos
    walkLines s.s_linelist (linePos2 - 1).toNat s.s_currlineptr

/-- `OnMouseDown`. -/
def OnMouseDown (measure : Measure) (y : Rat) (hotKeyDown : Bool) (s : State) :
    Option (Int × State) :=
  let consoleHeight := s.s_consoleHeight
  let fontHeight := s.s_fontHeight
  if hotKeyDown ∨ !s.s_active ∨ (1 - consoleHeight) > y then some (1, s)
  else
    let clickPos := 1 - y
    if clickPos < (min consoleHeight 1 - fontHeight * (3 / 4)) ∨ clickPos > consoleHeight then
      let s1 := ResetHighlight s
      (GetLineAtMousePosition y s1).bind (fun line =>
        match line with
        | some ptr =>
          (deref ptr s1.s_linelist).bind (fun l =>
            (SetHighlightCopyText l.buffer s1).bind (fun s2 =>
              let s3 := { s2 with s_highlightState := HIGHLIGHTSTATE.HS_HIGHLIGHTING }
              let v7 := 1 - (consoleHeight - fontHeight * (3 / 4) - fontHeight -
                ((consoleHeight - clickPos) / fontHeight - 1) * fontHeight)
              let s4 := { s3 with s_highlightHStart := v7, s_highlightHEnd := v7 }
              (UpdateHighlight measure s4).map (fun s5 => (0, s5))))
        | none => (ResetHighlightCopyText s1).map (fun s2 => (0, s2)))
    else
      some (1, { ResetHighlight s with s_consoleResizeState := CONSOLERESIZESTATE.CS_STRETCH })

/-- `OnMouseMove`. -/
def OnMouseMove (measure : Measure) (x y : Rat) (hotKeyDown : Bool) (s : State) :
    Option (Int × State) :=
  if hotKeyDown ∨ !s.s_active then some (1, s)
  else
    let resized : Option State :=
      if s.s_consoleResizeState = CONSOLERESIZESTATE.CS_STRETCH then
        some { s with s_consoleHeight := max (1 - y) s.s_fontHeight }
      else if (1 - s.s_consoleHeight) > y then none
      else some s
    match resized with
    | none => some (1, s)
    | some s1 =>
      let s2 := { s1 with s_highlightHEnd := x }
      if s2.s_highlightState = HIGHLIGHTSTATE.HS_HIGHLIGHTING then
        (UpdateHighlight measure s2).map (fun s3 => (1, s3))
      else some (1, s2)

/-- `OnMouseUp`. -/
def OnMouseUp (hotKeyDown : Bool) (s : State) : Option (Int × State) :=
  if hotKeyDown ∨ !s.s_active then some (1, s)
  else
    some (1, { s with s_highlightState := HIGHLIGHTSTATE.HS_ENDHIGHLIGHT,
                      s_consoleResizeState := CONSOLERESIZESTATE.CS_NONE })

/-- `OnKeyUp`. -/
def OnKeyUp (s : State) : Option (Int × State) := some (1, s)

/-! ## Definitions used to state the theorems

Runs of operations, invariants, the lines the operations build and the concrete
states of the scenarios. -/

/-- A call on the store made by a producer of console output or by the editor. -/
inductive StoreOp where
  | write (str : List Char) (color : COLOR_T)
  | getInputLine
  deriving DecidableEq, Repr

/-- The state after one store call. -/
def StoreOp.apply : StoreOp → State → Option State
  | StoreOp.write str color, s => ConsoleWrite str color s
  | StoreOp.getInputLine, s => (GetInputLine s).map (fun r => r.2)

/-- The state after a sequence of store calls, first call first. -/
def runStore : List StoreOp → State → Option State
  | [], s => some s
  | op :: ops, s => (op.apply s).bind (runStore ops)

/-- The store invariant: the counter is the length of the list and within the cap. -/
def StoreInv (s : State) : Prop :=
  s.s_NumLines = s.s_linelist.length ∧ s.s_NumLines ≤ CONSOLE_LINES_MAX

/-- The line `ConsoleWrite(str, color)` builds at address `id`. -/
def writtenLine (id : Nat) (str : List Char) (color : COLOR_T) : CONSOLELINE :=
  { id := id, chars := (cstring str).length + 1, charsalloc := (cstring str).length + 1,
    buffer := lit (cstring str), colorType := color }

/-- Where `ConsoleWrite` links its line. -/
def linkWritten (l : CONSOLELINE) (list : List CONSOLELINE) : List CONSOLELINE :=
  match list.head? with
  | none => LinkToHead l list
  | some head => if head.inputpos = 0 then LinkToHead l list else LinkNodeBelowHead l list

/-- The line `GetInputLine` builds at address `id`. -/
def freshInputLine (id : Nat) : CONSOLELINE :=
  { id := id, buffer := lit prompt ++ List.replicate 13 none, charsalloc := 16,
    inputstart := 2, inputpos := 2, chars := 2, colorType := COLOR_T.INPUT_COLOR }

/-- A console with the device present and a fresh live input line at the head. -/
def liveConsole : State :=
  { State.init with g_theGxDevicePtr := true, s_active := true, s_NumLines := 1,
                    s_linelist := [freshInputLine 1], s_currlineptr := some 1, nextId := 2,
                    s_historyIndex := -1, historyMax := 32 }

/-- The live input line at the head of the list, if there is one. -/
def liveHead : List CONSOLELINE → List CONSOLELINE
  | [] => []
  | h :: _ => if h.inputpos = 0 then [] else [h]

/-- The lines below the live input line (all lines when there is none). -/
def belowHead : List CONSOLELINE → List CONSOLELINE
  | [] => []
  | h :: t => if h.inputpos = 0 then h :: t else t

/-- The lines that a sequence of `ConsoleWrite` calls builds, first call first,
the first one at address `id`. -/
def newLines : Nat → List (List Char × COLOR_T) → List CONSOLELINE
  | _, [] => []
  | id, w :: ws => writtenLine id w.1 w.2 :: newLines (id + 1) ws

/-- The store calls of a sequence of writes. -/
def writes (ws : List (List Char × COLOR_T)) : List StoreOp :=
  ws.map (fun w => StoreOp.write w.1 w.2)

/-- A full store: a live input line above 255 written lines. -/
def fullConsole : State :=
  { liveConsole with
    s_NumLines := 256,
    s_linelist := freshInputLine 1 ::
      (List.range 255).map (fun i => writtenLine (256 - i) ['o', 'l', 'd'] COLOR_T.DEFAULT_COLOR),
    nextId := 257 }

/-- The marker text `"L<i>"`. -/
def marker (i : Nat) : List Char := 'L' :: Nat.toDigits 10 i

/-- The writes `"L0"`, ..., `"L<n-1>"`. -/
def markerWrites (n : Nat) : List (List Char × COLOR_T) :=
  (List.range n).map (fun i => (marker i, COLOR_T.DEFAULT_COLOR))

/-- A cleared store with the device present, then `GetInputLine`. -/
def clearedWithInput : Option State :=
  (GetInputLine (ConsoleClear { State.init with g_theGxDevicePtr := true })).map (fun r => r.2)

/-- The scenario: the 300 marker lines written to the cleared store that holds
a live input line. -/
def scenario300 : Option State :=
  clearedWithInput.bind (runStore (writes (markerWrites 300)))

/-- The texts of the lines of the store, head first. -/
def storeTexts (s : State) : List (Option (List Char)) :=
  s.s_linelist.map CONSOLELINE.text

/-- An editing step on the input line: `PasteInInputLine` of a string, the
Backspace key, the Left key, the Right key. -/
inductive EditOp where
  | paste (characters : List Char)
  | backspace
  | left
  | right
  deriving DecidableEq, Repr

/-- One editing step on the line `GetInputLine` returned.  A paste of a string
that is empty up to its terminator returns before touching the line. -/
def EditOp.apply : EditOp → CONSOLELINE → Option CONSOLELINE
  | EditOp.paste characters, l =>
    if (cstring characters).length = 0 then some l else pasteLine l (cstring characters)
  | EditOp.backspace, l => l.Backspace
  | EditOp.left, l => some (keyLeft l)
  | EditOp.right, l => some (keyRight l)

/-- A sequence of editing steps, first step first. -/
def runEdit : List EditOp → CONSOLELINE → Option CONSOLELINE
  | [], l => some l
  | op :: ops, l => (op.apply l).bind (runEdit ops)

/-- The cursor invariant of an input line whose prefix is the prompt. -/
def LineInv (l : CONSOLELINE) : Prop :=
  l.inputstart ≤ l.inputpos ∧ l.inputpos ≤ l.chars ∧ l.inputstart ≤ 2

/-- What the editor shows of a line: text, length (`chars`), cursor (`inputpos`). -/
def lineView (l : CONSOLELINE) : Option (List Char) × Nat × Nat :=
  (l.text, l.chars, l.inputpos)

/-- The view of the head line of a state. -/
def inputView (s : Option State) : Option (Option (List Char) × Nat × Nat) :=
  s.bind (fun st => (Head st).map lineView)

/-- The input line `"> ab"` with the cursor between `a` and `b`: `"ab"` pasted
into a fresh input line, then the Left key. -/
def midLineConsole : Option State :=
  (PasteInInputLine ['a', 'b'] liveConsole).bind (fun s =>
    (OnKeyDown KEY.KEY_LEFT false false s).map (fun r => r.2))

/-- A well-formed input line holding `text`: the buffer is the C string `text`
of `chars` characters, and the cursor lies between the prefix and the end. -/
def WellFormed (l : CONSOLELINE) (text : List Char) : Prop :=
  l.text = some text ∧ text.length = l.chars ∧ l.inputstart ≤ l.inputpos ∧ l.inputpos ≤ l.chars

/-- A key press with no modifier and the hotkey up; the state afterwards. -/
def press (key : KEY) (s : State) : Option State :=
  (OnKeyDown key false false s).map (fun r => r.2)

/-- Typing characters one by one through `OnChar`, the hotkey up. -/
def typeChars : List Char → State → Option State
  | [], s => some s
  | c :: cs, s => ((OnChar c false s).map (fun r => r.2)).bind (typeChars cs)

/-- The scenario: on a fresh input line type `"help"`, then Backspace twice. -/
def helpScenario : Option State :=
  ((typeChars ['h', 'e', 'l', 'p'] liveConsole).bind (press KEY.KEY_BACKSPACE)).bind
    (press KEY.KEY_BACKSPACE)

/-- The input line `"> help"` with the cursor between `l` and `p`. -/
def helpLine : CONSOLELINE :=
  { id := 1, buffer := lit ['>', ' ', 'h', 'e', 'l', 'p'] ++ List.replicate 9 none,
    charsalloc := 16, inputstart := 2, inputpos := 5, chars := 6,
    colorType := COLOR_T.INPUT_COLOR }

/-- The input line `"> help"` as typed, the console active. -/
def helpConsole : Option State := typeChars ['h', 'e', 'l', 'p'] liveConsole

/-- The input line `"> help"` with the cursor at its end. -/
def typedLine : CONSOLELINE := { helpLine with inputpos := 6 }

/-- An active console whose input line is `"> help"`. -/
def typedConsole : State := { liveConsole with s_linelist := [typedLine] }

/-- The buffer of the line is the block of `charsalloc` bytes. -/
def Allocated (l : CONSOLELINE) : Prop := l.buffer.length = l.charsalloc

/-- A step repeated `n` times. -/
def repeatOp (f : State → Option State) : Nat → State → Option State
  | 0, s => some s
  | n + 1, s => (f s).bind (repeatOp f n)

/-- The shape of the state while the history is browsed: the head is the input
line at address `ptr` with prefix length `start`, well-formed with text `t` in
an allocated buffer, above the lines `rest`; the history is `hist`. -/
def HistInv (ptr start : Nat) (rest : List CONSOLELINE) (hist : List (List Char))
    (s : State) (t : List Char) : Prop :=
  ∃ head, s.s_linelist = head :: rest ∧ head.id = ptr ∧ head.inputstart = start ∧
    WellFormed head t ∧ Allocated head ∧ s.history = hist

/-- A console browsing a history of three commands (`"c"` the most recent), the
index at the oldest entry; the input line is `"> help"`. -/
def historyConsole : State :=
  { typedConsole with history := [['c'], ['b'], ['a']], s_historyIndex := 2 }

/-- A measurement that fits nothing into a width of zero or less and the whole
text into any other width. -/
def allOrNothing : Measure := fun _ w len => (if w ≤ 0 then 0 else len, w)

/-- The state with anchor and cursor of the selection swapped. -/
def swapAnchor (s : State) : State :=
  { s with s_highlightHStart := s.s_highlightHEnd, s_highlightHEnd := s.s_highlightHStart }

/-- A finished selection of the whole snapshot `"hello"`: `left_index = 0`,
`right_index = 5`. -/
def helloSelection : State :=
  { liveConsole with
    s_copyText := lit ['h', 'e', 'l', 'l', 'o'] ++ List.replicate 122 (some NUL),
    s_highlightLeftCharIndex := 0, s_highlightRightCharIndex := 5,
    s_highlightState := HIGHLIGHTSTATE.HS_ENDHIGHLIGHT }

/-- An input event delivered to the console handlers. -/
inductive ConsoleEvent where
  | char (ch : Char) (hotKeyDown : Bool)
  | keyDown (key : KEY) (anyControl hotKeyDown : Bool)
  | keyRepeat (key : KEY) (anyControl : Bool)
  | keyUp
  | mouseDown (y : Rat) (hotKeyDown : Bool)
  | mouseMove (x y : Rat) (hotKeyDown : Bool)
  | mouseUp (hotKeyDown : Bool)

/-- The handler registered for an event. -/
def handle (measure : Measure) : ConsoleEvent → State → Option (Int × State)
  | ConsoleEvent.char ch hotKeyDown, s => OnChar ch hotKeyDown s
  | ConsoleEvent.keyDown key anyControl hotKeyDown, s => OnKeyDown key anyControl hotKeyDown s
  | ConsoleEvent.keyRepeat key anyControl, s => OnKeyDownRepeat key anyControl s
  | ConsoleEvent.keyUp, s => OnKeyUp s
  | ConsoleEvent.mouseDown y hotKeyDown, s => OnMouseDown measure y hotKeyDown s
  | ConsoleEvent.mouseMove x y hotKeyDown, s => OnMouseMove measure x y hotKeyDown s
  | ConsoleEvent.mouseUp hotKeyDown, s => OnMouseUp hotKeyDown s

/-- The highlight rectangle after `ResetHighlight`. -/
def zeroRect : RECTF := { left := 0, bottom := 0, right := 0, top := 0 }

/-- What a handler may do to the selection state without a pointer event: leave
it, or reset it (`ResetHighlight`: state `HS_NONE`, rectangle zero). -/
def HlStep (s s2 : State) : Prop :=
  s2.s_highlightState = s.s_highlightState ∨
    (s2.s_highlightState = HIGHLIGHTSTATE.HS_NONE ∧ s2.s_hRect = zeroRect)

/-- The address of the line at position `j` of the list, head first. -/
def idAt (list : List CONSOLELINE) (j : Nat) : Option Nat :=
  (list.get? j).map (fun l => l.id)

/-- The lines of the list have distinct addresses. -/
def DistinctIds (list : List CONSOLELINE) : Prop := (list.map (fun l => l.id)).Nodup

/-- A store of three lines (an input line above `"b"` above `"a"`) with the
viewport cursor on the middle one. -/
def threeLines : State :=
  { liveConsole with
    s_linelist := [freshInputLine 3, writtenLine 2 ['b'] COLOR_T.DEFAULT_COLOR,
      writtenLine 1 ['a'] COLOR_T.DEFAULT_COLOR],
    s_NumLines := 3, s_currlineptr := some 2, nextId := 4 }

/-- The console at program start with the graphics device present, activated. -/
def startConsole : State := { State.init with g_theGxDevicePtr := true, s_active := true }

/-- From program start: `GetInputLine()`, then `ConsoleClear()`. -/
def clearedCursor : Option State := (GetInputLine State.init).map (fun r => ConsoleClear r.2)

/-- From program start with the device present: `GetInputLine()`, one write
`"a"`, `MoveLinePtr(1, 0)` (the viewport cursor goes to the line `"a"`, the
tail), then the 255 writes `"L0"`, ..., `"L254"`. -/
def evictedCursor : Option State :=
  ((runStore [StoreOp.getInputLine, StoreOp.write ['a'] COLOR_T.DEFAULT_COLOR]
      startConsole).bind (MoveLinePtr 1 false)).bind (runStore (writes (markerWrites 255)))

/-- From program start: activate, type `"help"`, press Down. -/
def downAtStart : Option State :=
  (typeChars ['h', 'e', 'l', 'p'] startConsole).bind (press KEY.KEY_DOWN)

/-- An active console whose input line is `"> help"` with the cursor moved back
to the prefix. -/
def prefixConsole : State :=
  { liveConsole with s_linelist := [{ helpLine with inputpos := 2 }] }

/-- A step that changes the length of the input line: `PasteInInputLine` of a
string, the Backspace key, a history recall (`MakeCommandCurrent` of an entry). -/
inductive BufferOp where
  | paste (characters : List Char)
  | backspace
  | historyRecall (command : List Char)
  deriving DecidableEq, Repr

/-- One such step on the line `GetInputLine` returned.  A paste of a string that
is empty up to its terminator returns before touching the line. -/
def BufferOp.apply : BufferOp → CONSOLELINE → Option CONSOLELINE
  | BufferOp.paste characters, l =>
    if (cstring characters).length = 0 then some l else pasteLine l (cstring characters)
  | BufferOp.backspace, l => l.Backspace
  | BufferOp.historyRecall command, l => MakeCommandCurrent l command

/-- A sequence of such steps, first step first. -/
def runBuffer : List BufferOp → CONSOLELINE → Option CONSOLELINE
  | [], l => some l
  | op :: ops, l => (op.apply l).bind (runBuffer ops)

/-- The capacity invariant of an input line: the length is below the capacity,
the size of the buffer's block. -/
def CapInv (l : CONSOLELINE) : Prop := l.chars < l.charsalloc ∧ Allocated l

/-- The row index `linePos` that `GetLineAtMousePosition(y)` computes. -/
def linePosAt (y : Rat) (s : State) : Int :=
  truncate ((s.s_consoleHeight - (1 - y)) / s.s_fontHeight)

/-- The number of rounds of the loop of `GetLineAtMousePosition(y)` when the row
index is not 1: the row index, less one when the viewport cursor is not the
head, less one. -/
def walkSteps (y : Rat) (s : State) : Nat :=
  ((if s.s_currlineptr ≠ (Head s).map (fun l => l.id) then linePosAt y s - 1
    else linePosAt y s) - 1).toNat

/-- The value `v7` that `OnMouseDown` computes from the vertical coordinate `y`
of the pointer and stores as anchor and cursor of the selection. -/
def anchorAt (y : Rat) (s : State) : Rat :=
  1 - (s.s_consoleHeight - s.s_fontHeight * (3 / 4) - s.s_fontHeight -
    ((s.s_consoleHeight - (1 - y)) / s.s_fontHeight - 1) * s.s_fontHeight)

/-- An inactive console (console access enabled, hotkey `KEY_TILDE`) whose input
line is `"> help"` with the cursor at its end. -/
def inactiveTyped : State :=
  { typedConsole with s_active := false, s_consoleAccessEnabled := true }

/-! # Theorems -/

/-! ## Basic facts about C strings and blocks -/

theorem cstring_eq_self {s : List Char} (h : NUL ∉ s) : cstring s = s := by
  unfold cstring
  rw [List.takeWhile_eq_self_iff]
  intro c hc
  have : c ≠ NUL := fun e => h (e ▸ hc)
  simpa using this

theorem not_mem_cstring (s : List Char) : NUL ∉ cstring s := by
  intro h
  have := List.mem_takeWhile_imp h
  simp at this

theorem cstr_append_of_not_mem {s : List Char} (h : NUL ∉ s) (rest : List Byte) :
    cstr (s.map some ++ some NUL :: rest) = some s := by
  induction s with
  | nil => simp [cstr]
  | cons c t ih =>
    have hc : c ≠ NUL := fun e => h (by simp [e])
    have ht : NUL ∉ t := fun e => h (by simp [e])
    simp [cstr, hc, ih ht]

theorem cstr_lit_append (s : List Char) (rest : List Byte) :
    cstr (lit s ++ rest) = some (cstring s) := by
  induction s with
  | nil => simp [lit, cstr, cstring]
  | cons c t ih =>
    by_cases hc : c = NUL
    · simp [lit, cstr, cstring, hc]
    · simp only [lit, List.map_cons, List.cons_append, cstr, hc, if_false] at ih ⊢
      simp [lit, cstring, List.takeWhile_cons, hc] at ih ⊢
      simp [ih]

theorem cstr_lit (s : List Char) : cstr (lit s) = some (cstring s) := by
  simpa using cstr_lit_append s []

theorem lit_length (s : List Char) : (lit s).length = s.length + 1 := by
  simp [lit]

theorem poke_zero_alloc (bs : List Byte) :
    poke (SMemAlloc bs.length) 0 bs = some bs := by
  simp [poke, SMemAlloc]

/-! ## Facts about the store operations -/

theorem lit_head_nul_iff (str : List Char) :
    (lit str).head? = some (some NUL) ↔ cstring str = [] := by
  cases str with
  | nil => simp [lit, cstring]
  | cons c t =>
    by_cases hc : c = NUL <;> simp [lit, cstring, List.takeWhile_cons, hc]

theorem SStrCopy_fresh (str : List Char) :
    SStrCopy (SMemAlloc ((cstring str).length + 1)) 0 (lit str) STORM_MAX_STR
      = some (lit (cstring str)) := by
  have h := poke_zero_alloc (lit (cstring str))
  rw [lit_length] at h
  simp [SStrCopy, readStr, cstr_lit, h]

theorem EnforceMaxLines_of_ne_nil {s : State} (h : s.s_linelist ≠ []) :
    EnforceMaxLines s = some (if s.s_NumLines ≤ CONSOLE_LINES_MAX then s
      else { s with s_linelist := s.s_linelist.dropLast, s_NumLines := s.s_NumLines - 1 }) := by
  unfold EnforceMaxLines
  split
  · rfl
  · have : Tail s = some (s.s_linelist.getLast h) := by
      simp [Tail, List.getLast?_eq_getLast, h]
    simp [this]

theorem linkWritten_ne_nil (l : CONSOLELINE) (list : List CONSOLELINE) :
    linkWritten l list ≠ [] := by
  unfold linkWritten
  cases list with
  | nil => simp [LinkToHead]
  | cons h t => by_cases hp : h.inputpos = 0 <;> simp [LinkToHead, LinkNodeBelowHead, hp]

theorem linkWritten_length (l : CONSOLELINE) (list : List CONSOLELINE) :
    (linkWritten l list).length = list.length + 1 := by
  unfold linkWritten
  cases list with
  | nil => simp [LinkToHead]
  | cons h t => by_cases hp : h.inputpos = 0 <;> simp [LinkToHead, LinkNodeBelowHead, hp]

theorem ConsoleWrite_noop {str : List Char} {s : State}
    (h : s.g_theGxDevicePtr = false ∨ cstring str = []) (color : COLOR_T) :
    ConsoleWrite str color s = some s := by
  have hc : s.g_theGxDevicePtr = false ∨ (lit str).head? = some (some NUL) := by
    rw [lit_head_nul_iff]; exact h
  unfold ConsoleWrite
  rw [if_pos hc]

theorem ConsoleWrite_eq {str : List Char} {s : State}
    (hd : s.g_theGxDevicePtr = true) (hs : cstring str ≠ []) (color : COLOR_T) :
    ConsoleWrite str color s =
      EnforceMaxLines { s with
        s_linelist := linkWritten (writtenLine s.nextId str color) s.s_linelist,
        s_NumLines := s.s_NumLines + 1, nextId := s.nextId + 1 } := by
  have hc : ¬ (s.g_theGxDevicePtr = false ∨ (lit str).head? = some (some NUL)) := by
    rw [lit_head_nul_iff]; simp [hd, hs]
  unfold ConsoleWrite
  rw [if_neg hc]
  simp only [SStrCopy_fresh, Option.some_bind]
  rfl

theorem newInputLine_eq (s : State) :
    newInputLine s =
      (EnforceMaxLines { s with
        s_linelist := freshInputLine s.nextId :: s.s_linelist,
        s_NumLines := s.s_NumLines + 1, s_currlineptr := some s.nextId,
        nextId := s.nextId + 1 }).map (fun s2 => (s.nextId, s2)) := by
  rfl

theorem EnforceMaxLines_inv {s : State} (hne : s.s_linelist ≠ [])
    (hlen : s.s_NumLines = s.s_linelist.length) (hle : s.s_NumLines ≤ CONSOLE_LINES_MAX + 1) :
    ∃ s2, EnforceMaxLines s = some s2 ∧ StoreInv s2 := by
  rw [EnforceMaxLines_of_ne_nil hne]
  refine ⟨_, rfl, ?_⟩
  by_cases h : s.s_NumLines ≤ CONSOLE_LINES_MAX
  · rw [if_pos h]
    exact ⟨hlen, h⟩
  · rw [if_neg h]
    simp only [StoreInv, List.length_dropLast]
    omega

theorem ConsoleWrite_inv (str : List Char) (color : COLOR_T) {s : State} (h : StoreInv s) :
    ∃ s2, ConsoleWrite str color s = some s2 ∧ StoreInv s2 := by
  by_cases hc : s.g_theGxDevicePtr = false ∨ cstring str = []
  · exact ⟨s, ConsoleWrite_noop hc color, h⟩
  · have hd : s.g_theGxDevicePtr = true := by
      cases hg : s.g_theGxDevicePtr <;> simp [hg] at hc ⊢
    have hs : cstring str ≠ [] := fun e => hc (Or.inr e)
    rw [ConsoleWrite_eq hd hs]
    apply EnforceMaxLines_inv
    · exact linkWritten_ne_nil _ _
    · simp [linkWritten_length, h.1]
    · have := h.2
      simp only
      omega

theorem newInputLine_inv {s : State} (h : StoreInv s) :
    ∃ r, newInputLine s = some r ∧ StoreInv r.2 := by
  rw [newInputLine_eq]
  have := EnforceMaxLines_inv (s := { s with
        s_linelist := freshInputLine s.nextId :: s.s_linelist,
        s_NumLines := s.s_NumLines + 1, s_currlineptr := some s.nextId,
        nextId := s.nextId + 1 }) (by simp) (by simp [h.1]) (by have := h.2; simp only; omega)
  obtain ⟨s2, h2, hi⟩ := this
  exact ⟨(s.nextId, s2), by simp [h2], hi⟩

theorem GetInputLine_inv {s : State} (h : StoreInv s) :
    ∃ r, GetInputLine s = some r ∧ StoreInv r.2 := by
  unfold GetInputLine
  cases hh : Head s with
  | none => exact newInputLine_inv h
  | some head =>
    by_cases hp : head.inputpos = 0
    · simpa [hp] using newInputLine_inv h
    · exact ⟨(head.id, s), by simp [hp], h⟩

theorem storeOp_apply_inv (op : StoreOp) {s : State} (h : StoreInv s) :
    ∃ s2, op.apply s = some s2 ∧ StoreInv s2 := by
  cases op with
  | write str color => exact ConsoleWrite_inv str color h
  | getInputLine =>
    obtain ⟨r, hr, hi⟩ := GetInputLine_inv h
    exact ⟨r.2, by simp [StoreOp.apply, hr], hi⟩

theorem runStore_inv (ops : List StoreOp) {s : State} (h : StoreInv s) :
    ∃ s2, runStore ops s = some s2 ∧ StoreInv s2 := by
  induction ops generalizing s with
  | nil => exact ⟨s, rfl, h⟩
  | cons op ops ih =>
    obtain ⟨s1, h1, hi1⟩ := storeOp_apply_inv op h
    obtain ⟨s2, h2, hi2⟩ := ih hi1
    exact ⟨s2, by simp [runStore, h1, h2], hi2⟩

/-! ## C1 -/

/-- C1: starting from the empty store, every sequence of `ConsoleWrite` and
`GetInputLine` calls runs to a state in which the counter `s_NumLines` equals
the length of the line list and is at most `CONSOLE_LINES_MAX = 256`; as every
prefix of a sequence is a sequence, this holds after each call. -/
theorem C1_count_bounded (s0 : State) (hlist : s0.s_linelist = []) (hnum : s0.s_NumLines = 0)
    (ops : List StoreOp) :
    ∃ s, runStore ops s0 = some s ∧ s.s_NumLines = s.s_linelist.length ∧
      s.s_NumLines ≤ 256 := by
  have h0 : StoreInv s0 := by simp [StoreInv, hlist, hnum]
  obtain ⟨s, hs, hi⟩ := runStore_inv ops h0
  exact ⟨s, hs, hi.1, hi.2⟩

theorem C1_count_bounded_witness :
    ∃ s, runStore [StoreOp.getInputLine, StoreOp.write ['L', '0'] COLOR_T.DEFAULT_COLOR]
        { State.init with g_theGxDevicePtr := true } = some s ∧
      s.s_NumLines = s.s_linelist.length ∧ s.s_NumLines ≤ 256 :=
  C1_count_bounded { State.init with g_theGxDevicePtr := true } rfl rfl
    [StoreOp.getInputLine, StoreOp.write ['L', '0'] COLOR_T.DEFAULT_COLOR]

/-! ## C2 -/

theorem writtenLine_text {str : List Char} (h : NUL ∉ str) (id : Nat) (color : COLOR_T) :
    (writtenLine id str color).text = some str := by
  simp [writtenLine, CONSOLELINE.text, cstr_lit, cstring_eq_self h]

theorem ConsoleWrite_list {str : List Char} {s : State} (hinv : StoreInv s)
    (hd : s.g_theGxDevicePtr = true) (hs : cstring str ≠ []) (color : COLOR_T) :
    ∃ s2, ConsoleWrite str color s = some s2 ∧ StoreInv s2 ∧
      s2.s_linelist =
        (if s.s_NumLines < CONSOLE_LINES_MAX
          then linkWritten (writtenLine s.nextId str color) s.s_linelist
          else (linkWritten (writtenLine s.nextId str color) s.s_linelist).dropLast) ∧
      s2.nextId = s.nextId + 1 ∧ s2.s_currlineptr = s.s_currlineptr := by
  obtain ⟨s2, h2, hi⟩ := ConsoleWrite_inv str color hinv
  refine ⟨s2, h2, hi, ?_⟩
  rw [ConsoleWrite_eq hd hs, EnforceMaxLines_of_ne_nil (linkWritten_ne_nil _ _)] at h2
  injection h2 with h2
  subst h2
  by_cases hlt : s.s_NumLines < CONSOLE_LINES_MAX
  · have : s.s_NumLines + 1 ≤ CONSOLE_LINES_MAX := hlt
    simp [hlt, this]
  · have : ¬ s.s_NumLines + 1 ≤ CONSOLE_LINES_MAX := by omega
    simp [hlt, this]

/-- C2 as stated fails: with no graphics device (`g_theGxDevicePtr == nullptr`,
the state at program start) `ConsoleWrite("x", DEFAULT_COLOR)` returns at once
and the store stays empty. -/
theorem C2_counterexample :
    ConsoleWrite ['x'] COLOR_T.DEFAULT_COLOR State.init = some State.init ∧
      State.init.s_linelist = [] := by
  decide

/-- C2 (amended): when the graphics device exists, for every non-empty text and
every colour `ConsoleWrite` links exactly one new line, whose text is the text
given and whose colour is the colour given.  If the head is a live input line
(`inputpos ≠ 0`) the new line is the second element and the input line is still
the head; otherwise the new line is the head.  The other lines are the old
ones in their order, less the old tail when the store was full. -/
theorem C2_write_links_one_line (s : State) (str : List Char) (color : COLOR_T)
    (hinv : StoreInv s) (hdev : s.g_theGxDevicePtr = true)
    (hne : str ≠ []) (hnul : NUL ∉ str) :
    ∃ s2 new, ConsoleWrite str color s = some s2 ∧
      new.text = some str ∧ new.colorType = color ∧ new.inputpos = 0 ∧
      s2.s_NumLines = s2.s_linelist.length ∧
      (∀ head rest, s.s_linelist = head :: rest → head.inputpos ≠ 0 →
        s2.s_linelist =
          head :: new :: (if s.s_NumLines < 256 then rest else rest.dropLast)) ∧
      ((∀ head, s.s_linelist.head? = some head → head.inputpos = 0) →
        s2.s_linelist =
          new :: (if s.s_NumLines < 256 then s.s_linelist else s.s_linelist.dropLast)) := by
  have hs : cstring str ≠ [] := by rw [cstring_eq_self hnul]; exact hne
  obtain ⟨s2, h2, hi, hl, -, -⟩ := ConsoleWrite_list hinv hdev hs color
  refine ⟨s2, writtenLine s.nextId str color, h2, writtenLine_text hnul _ _, rfl, rfl, hi.1,
    ?_, ?_⟩
  · intro head rest hlist hpos
    rw [hl]
    have hlw : linkWritten (writtenLine s.nextId str color) s.s_linelist
        = head :: writtenLine s.nextId str color :: rest := by
      simp [linkWritten, hlist, hpos, LinkNodeBelowHead]
    rw [hlw]
    by_cases hlt : s.s_NumLines < 256
    · have : s.s_NumLines < CONSOLE_LINES_MAX := hlt
      simp [hlt, this]
    · have h1 : ¬ s.s_NumLines < CONSOLE_LINES_MAX := hlt
      have hrest : rest ≠ [] := by
        intro e
        have := hinv.1
        rw [hlist, e] at this
        simp at this
        omega
      simp [hlt, h1, List.dropLast_cons_of_ne_nil hrest]
  · intro hhead
    rw [hl]
    have hlw : linkWritten (writtenLine s.nextId str color) s.s_linelist
        = writtenLine s.nextId str color :: s.s_linelist := by
      unfold linkWritten
      cases hh : s.s_linelist.head? with
      | none => rfl
      | some head => simp [hhead head hh, LinkToHead]
    rw [hlw]
    by_cases hlt : s.s_NumLines < 256
    · have : s.s_NumLines < CONSOLE_LINES_MAX := hlt
      simp [hlt, this]
    · have h1 : ¬ s.s_NumLines < CONSOLE_LINES_MAX := hlt
      have hrest : s.s_linelist ≠ [] := by
        intro e
        have := hinv.1
        rw [e] at this
        simp at this
        omega
      simp [hlt, h1, List.dropLast_cons_of_ne_nil hrest]

theorem liveConsole_inv : StoreInv liveConsole := ⟨rfl, by decide⟩

theorem C2_write_links_one_line_witness :
    ∃ s2 new, ConsoleWrite ['L', '0'] COLOR_T.ERROR_COLOR liveConsole = some s2 ∧
      new.text = some ['L', '0'] ∧ new.colorType = COLOR_T.ERROR_COLOR ∧ new.inputpos = 0 ∧
      s2.s_NumLines = s2.s_linelist.length ∧
      (∀ head rest, liveConsole.s_linelist = head :: rest → head.inputpos ≠ 0 →
        s2.s_linelist =
          head :: new :: (if liveConsole.s_NumLines < 256 then rest else rest.dropLast)) ∧
      ((∀ head, liveConsole.s_linelist.head? = some head → head.inputpos = 0) →
        s2.s_linelist =
          new :: (if liveConsole.s_NumLines < 256 then liveConsole.s_linelist
                  else liveConsole.s_linelist.dropLast)) :=
  C2_write_links_one_line liveConsole ['L', '0'] COLOR_T.ERROR_COLOR liveConsole_inv rfl
    (by decide) (by decide)

/-! ## Sequences of writes -/

theorem liveHead_append_belowHead (list : List CONSOLELINE) :
    liveHead list ++ belowHead list = list := by
  cases list with
  | nil => rfl
  | cons h t => by_cases hp : h.inputpos = 0 <;> simp [liveHead, belowHead, hp]

theorem liveHead_length_le (list : List CONSOLELINE) : (liveHead list).length ≤ 1 := by
  cases list with
  | nil => simp [liveHead]
  | cons h t => by_cases hp : h.inputpos = 0 <;> simp [liveHead, hp]

theorem linkWritten_eq (new : CONSOLELINE) (list : List CONSOLELINE) :
    linkWritten new list = liveHead list ++ new :: belowHead list := by
  cases list with
  | nil => rfl
  | cons h t =>
    by_cases hp : h.inputpos = 0 <;>
      simp [linkWritten, liveHead, belowHead, hp, LinkToHead, LinkNodeBelowHead]

theorem take_append_take {α : Type} (n m : Nat) (a b : List α) (h : n ≤ a.length + m) :
    (a ++ b.take m).take n = (a ++ b).take n := by
  rw [List.take_append_eq_append_take, List.take_append_eq_append_take, List.take_take]
  congr 2
  omega

theorem liveHead_take (new : CONSOLELINE) (hn : new.inputpos = 0) (list : List CONSOLELINE) :
    liveHead ((liveHead list ++ new :: belowHead list).take CONSOLE_LINES_MAX) = liveHead list := by
  cases list with
  | nil => simp [liveHead, belowHead, CONSOLE_LINES_MAX, hn]
  | cons h t =>
    by_cases hp : h.inputpos = 0 <;>
      simp [liveHead, belowHead, hp, CONSOLE_LINES_MAX, hn]

theorem belowHead_take (new : CONSOLELINE) (hn : new.inputpos = 0) (list : List CONSOLELINE) :
    belowHead ((liveHead list ++ new :: belowHead list).take CONSOLE_LINES_MAX)
      = (new :: belowHead list).take (CONSOLE_LINES_MAX - (liveHead list).length) := by
  cases list with
  | nil => simp [liveHead, belowHead, CONSOLE_LINES_MAX, hn]
  | cons h t =>
    by_cases hp : h.inputpos = 0 <;>
      simp [liveHead, belowHead, hp, CONSOLE_LINES_MAX, hn]

theorem newLines_inputpos (id : Nat) (ws : List (List Char × COLOR_T)) :
    ∀ l ∈ newLines id ws, l.inputpos = 0 := by
  induction ws generalizing id with
  | nil => simp [newLines]
  | cons w ws ih =>
    intro l hl
    simp only [newLines, List.mem_cons] at hl
    rcases hl with rfl | hl
    · rfl
    · exact ih _ l hl

/-- One write on a store that satisfies the invariant: the new line goes right
below the live input line and the list is cut to the cap from the tail. -/
theorem ConsoleWrite_take {str : List Char} {s : State} (hinv : StoreInv s)
    (hd : s.g_theGxDevicePtr = true) (hs : cstring str ≠ []) (color : COLOR_T) :
    ∃ s2, ConsoleWrite str color s = some s2 ∧ StoreInv s2 ∧
      s2.s_linelist = (liveHead s.s_linelist ++ writtenLine s.nextId str color ::
        belowHead s.s_linelist).take CONSOLE_LINES_MAX ∧
      s2.nextId = s.nextId + 1 ∧ s2.g_theGxDevicePtr = true := by
  obtain ⟨s2, h2, hi, hl, hid, -⟩ := ConsoleWrite_list hinv hd hs color
  refine ⟨s2, h2, hi, ?_, hid, ?_⟩
  · rw [hl, ← linkWritten_eq]
    have hlen := linkWritten_length (writtenLine s.nextId str color) s.s_linelist
    by_cases hlt : s.s_NumLines < CONSOLE_LINES_MAX
    · rw [if_pos hlt, List.take_of_length_le]
      rw [hlen, ← hinv.1]; omega
    · rw [if_neg hlt, List.dropLast_eq_take]
      congr 1
      rw [hlen, ← hinv.1]
      have := hinv.2
      omega
  · rw [ConsoleWrite_eq hd hs, EnforceMaxLines_of_ne_nil (linkWritten_ne_nil _ _)] at h2
    injection h2 with h2
    subst h2
    split <;> exact hd

/-- A sequence of non-empty writes: the lines written stand below the live
input line, newest first, above the lines that were there, and the list is cut
to the cap from the tail. -/
theorem runStore_writes (ws : List (List Char × COLOR_T))
    (hws : ∀ w ∈ ws, cstring w.1 ≠ []) {s : State} (hinv : StoreInv s)
    (hd : s.g_theGxDevicePtr = true) :
    ∃ s2, runStore (writes ws) s = some s2 ∧ StoreInv s2 ∧
      s2.s_linelist = (liveHead s.s_linelist ++ (newLines s.nextId ws).reverse ++
        belowHead s.s_linelist).take CONSOLE_LINES_MAX ∧
      s2.nextId = s.nextId + ws.length ∧ s2.g_theGxDevicePtr = true := by
  induction ws generalizing s with
  | nil =>
    refine ⟨s, rfl, hinv, ?_, rfl, hd⟩
    simp only [newLines, List.reverse_nil, List.append_nil, liveHead_append_belowHead]
    rw [List.take_of_length_le]
    rw [← hinv.1]; exact hinv.2
  | cons w ws ih =>
    have hw : cstring w.1 ≠ [] := hws w (by simp)
    obtain ⟨s1, h1, hi1, hl1, hid1, hd1⟩ := ConsoleWrite_take hinv hd hw w.2
    obtain ⟨s2, h2, hi2, hl2, hid2, hd2⟩ :=
      ih (fun x hx => hws x (by simp [hx])) hi1 hd1
    refine ⟨s2, ?_, hi2, ?_, ?_, hd2⟩
    · simp [writes, runStore, StoreOp.apply, h1]
      exact h2
    · rw [hl2, hl1, liveHead_take _ rfl, belowHead_take _ rfl, hid1]
      rw [take_append_take]
      · simp [newLines, List.append_assoc]
      · have := liveHead_length_le s.s_linelist
        simp only [List.length_append]
        omega
    · rw [hid2, hid1]
      simp
      omega

/-! ## C3 -/

theorem linkWritten_getLast? (new : CONSOLELINE) (list : List CONSOLELINE)
    (h : 2 ≤ list.length) : (linkWritten new list).getLast? = list.getLast? := by
  match list, h with
  | a :: b :: r, _ =>
    by_cases hp : a.inputpos = 0 <;>
      simp [linkWritten, hp, LinkToHead, LinkNodeBelowHead, List.getLast?_cons_cons]

theorem fullConsole_inv : StoreInv fullConsole := ⟨by simp [fullConsole], by decide⟩

/-- C3: on a store holding 256 lines (so that the write pushes the count above
the cap) a `ConsoleWrite` of a non-empty text removes exactly one line: the list
right after linking is the final list followed by the removed line `t`, so `t`
was the tail and the lines kept are in their old order; the count is 256 again;
a live input line at the head is still the head.  Eviction follows the write
order: after any further non-empty writes the list is the live input line, the
lines written (newest first) and the older lines, cut to 256 from the tail. -/
theorem C3_eviction_fifo (s : State) (str : List Char) (color : COLOR_T)
    (ws : List (List Char × COLOR_T))
    (hinv : StoreInv s) (hdev : s.g_theGxDevicePtr = true) (hfull : s.s_NumLines = 256)
    (hne : str ≠ []) (hnul : NUL ∉ str) (hws : ∀ w ∈ ws, w.1 ≠ [] ∧ NUL ∉ w.1) :
    (∃ s2 t, ConsoleWrite str color s = some s2 ∧ s2.s_NumLines = 256 ∧
      s2.s_linelist.length = 256 ∧
      linkWritten (writtenLine s.nextId str color) s.s_linelist = s2.s_linelist ++ [t] ∧
      s.s_linelist.getLast? = some t ∧
      (∀ h, s.s_linelist.head? = some h → h.inputpos ≠ 0 → s2.s_linelist.head? = some h)) ∧
    (∃ s3, runStore (writes ws) s = some s3 ∧
      s3.s_linelist = (liveHead s.s_linelist ++ (newLines s.nextId ws).reverse ++
        belowHead s.s_linelist).take 256) := by
  constructor
  · have hs : cstring str ≠ [] := by rw [cstring_eq_self hnul]; exact hne
    obtain ⟨s2, h2, hi, hl, -, -⟩ := ConsoleWrite_list hinv hdev hs color
    have hlt : ¬ s.s_NumLines < CONSOLE_LINES_MAX := by rw [hfull]; decide
    rw [if_neg hlt] at hl
    have hlen := linkWritten_length (writtenLine s.nextId str color) s.s_linelist
    have hslen : s.s_linelist.length = 256 := by rw [← hinv.1, hfull]
    have hlast := linkWritten_getLast? (writtenLine s.nextId str color) s.s_linelist
      (by rw [hslen]; decide)
    obtain ⟨t, ht⟩ : ∃ t, s.s_linelist.getLast? = some t := by
      cases hlist : s.s_linelist with
      | nil => rw [hlist] at hslen; simp at hslen
      | cons a rest => exact ⟨_, List.getLast?_eq_getLast _ (by simp)⟩
    refine ⟨s2, t, h2, ?_, ?_, ?_, ht, ?_⟩
    · rw [hi.1, hl, List.length_dropLast, hlen, hslen]
    · rw [hl, List.length_dropLast, hlen, hslen]
    · rw [hl]
      exact (List.dropLast_append_getLast? t (by rw [hlast, ht]; rfl)).symm
    · intro h hh hp
      rw [hl]
      cases hlist : s.s_linelist with
      | nil => rw [hlist] at hh; simp at hh
      | cons a rest =>
        rw [hlist] at hh
        simp at hh
        subst hh
        have : linkWritten (writtenLine s.nextId str color) (a :: rest)
            = a :: writtenLine s.nextId str color :: rest := by
          simp [linkWritten, hp, LinkNodeBelowHead]
        rw [this]
        simp [List.dropLast]
  · have hws2 : ∀ w ∈ ws, cstring w.1 ≠ [] := by
      intro w hw
      rw [cstring_eq_self (hws w hw).2]
      exact (hws w hw).1
    obtain ⟨s3, h3, -, hl3, -, -⟩ := runStore_writes ws hws2 hinv hdev
    exact ⟨s3, h3, hl3⟩

theorem C3_eviction_fifo_witness :
    (∃ s2 t, ConsoleWrite ['n', 'e', 'w'] COLOR_T.DEFAULT_COLOR fullConsole = some s2 ∧
      s2.s_NumLines = 256 ∧ s2.s_linelist.length = 256 ∧
      linkWritten (writtenLine fullConsole.nextId ['n', 'e', 'w'] COLOR_T.DEFAULT_COLOR)
        fullConsole.s_linelist = s2.s_linelist ++ [t] ∧
      fullConsole.s_linelist.getLast? = some t ∧
      (∀ h, fullConsole.s_linelist.head? = some h → h.inputpos ≠ 0 →
        s2.s_linelist.head? = some h)) ∧
    (∃ s3, runStore (writes [(['a'], COLOR_T.DEFAULT_COLOR), (['b'], COLOR_T.ECHO_COLOR)])
        fullConsole = some s3 ∧
      s3.s_linelist = (liveHead fullConsole.s_linelist ++
        (newLines fullConsole.nextId
          [(['a'], COLOR_T.DEFAULT_COLOR), (['b'], COLOR_T.ECHO_COLOR)]).reverse ++
        belowHead fullConsole.s_linelist).take 256) :=
  C3_eviction_fifo fullConsole ['n', 'e', 'w'] COLOR_T.DEFAULT_COLOR
    [(['a'], COLOR_T.DEFAULT_COLOR), (['b'], COLOR_T.ECHO_COLOR)]
    fullConsole_inv rfl rfl (by decide) (by decide) (by decide)

/-! ## C4 -/

theorem marker_examples :
    marker 0 = ['L', '0'] ∧ marker 45 = ['L', '4', '5'] ∧ marker 299 = ['L', '2', '9', '9'] := by
  decide

theorem clearedWithInput_eq :
    clearedWithInput = some { State.init with
      g_theGxDevicePtr := true, s_NumLines := 1, s_linelist := [freshInputLine 1],
      s_currlineptr := some 1, nextId := 2 } := by
  decide

theorem markerWrites_ne (n : Nat) : ∀ w ∈ markerWrites n, cstring w.1 ≠ [] := by
  intro w hw
  simp only [markerWrites, List.mem_map] at hw
  obtain ⟨i, -, rfl⟩ := hw
  have : ('L' : Char) ≠ NUL := by decide
  simp [marker, cstring, List.takeWhile_cons, this]

theorem clearedWithInput_writes (ws : List (List Char × COLOR_T))
    (hws : ∀ w ∈ ws, cstring w.1 ≠ []) :
    ∃ s, clearedWithInput.bind (runStore (writes ws)) = some s ∧
      s.s_NumLines = s.s_linelist.length ∧
      s.s_linelist = (freshInputLine 1 :: (newLines 2 ws).reverse).take 256 := by
  have hinv : StoreInv { State.init with
      g_theGxDevicePtr := true, s_NumLines := 1, s_linelist := [freshInputLine 1],
      s_currlineptr := some 1, nextId := 2 } := ⟨rfl, by decide⟩
  obtain ⟨s, hs, hi, hl, -, -⟩ := runStore_writes ws hws hinv rfl
  refine ⟨s, ?_, hi.1, ?_⟩
  · rw [clearedWithInput_eq]
    exact hs
  · rw [hl]
    have h1 : liveHead [freshInputLine 1] = [freshInputLine 1] := by decide
    have h2 : belowHead [freshInputLine 1] = [] := by decide
    show (liveHead [freshInputLine 1] ++ (newLines 2 ws).reverse ++
      belowHead [freshInputLine 1]).take CONSOLE_LINES_MAX = _
    rw [h1, h2]
    simp [CONSOLE_LINES_MAX]

theorem scenario300_list :
    ∃ s, scenario300 = some s ∧ s.s_NumLines = s.s_linelist.length ∧
      s.s_linelist = (freshInputLine 1 :: (newLines 2 (markerWrites 300)).reverse).take 256 :=
  clearedWithInput_writes (markerWrites 300) (markerWrites_ne 300)

set_option maxRecDepth 100000 in
theorem scenario300_texts :
    ((freshInputLine 1 :: (newLines 2 (markerWrites 300)).reverse).take 256).map CONSOLELINE.text
      = some prompt :: ((List.range' 45 255).reverse.map (fun i => some (marker i))) := by
  decide

/-- C4 as stated fails: after the 300 writes the store does not hold the input
line together with the 256 lines `"L44"`..`"L299"` (in any order); the input
line counts toward the cap of 256. -/
theorem C4_counterexample :
    ¬ ∃ s, scenario300 = some s ∧
      List.Perm (storeTexts s)
        (some prompt :: (List.range' 44 256).map (fun i => some (marker i))) := by
  rintro ⟨s, hs, hperm⟩
  obtain ⟨s2, h2, -, hl⟩ := scenario300_list
  rw [hs] at h2
  injection h2 with h2
  subst h2
  have hlen := hperm.length_eq
  rw [storeTexts, hl, scenario300_texts] at hlen
  simp at hlen

/-- C4 (amended): with the graphics device present, starting from a cleared
store with a live input line, after `ConsoleWrite` of `"L0"`, ..., `"L299"` in
that order the store holds 256 lines: the live input line at the head and below
it `"L299"` down to `"L45"` (the oldest 45 written lines are evicted). -/
theorem C4_scenario_300_lines :
    ∃ s, scenario300 = some s ∧ s.s_NumLines = 256 ∧
      storeTexts s = some prompt :: ((List.range' 45 255).reverse.map (fun i => some (marker i))) ∧
      (∀ h, s.s_linelist.head? = some h → h.inputpos ≠ 0) := by
  obtain ⟨s, hs, hn, hl⟩ := scenario300_list
  have ht : storeTexts s
      = some prompt :: ((List.range' 45 255).reverse.map (fun i => some (marker i))) := by
    rw [storeTexts, hl, scenario300_texts]
  refine ⟨s, hs, ?_, ht, ?_⟩
  · have := congrArg List.length ht
    rw [storeTexts, List.length_map] at this
    rw [hn, this]
    simp
  · intro h hh
    rw [hl] at hh
    simp at hh
    subst hh
    decide

/-! ## More facts about C strings -/

theorem cstr_eq_some {mem : List Byte} {d : List Char} (h : cstr mem = some d) :
    NUL ∉ d ∧ ∃ rest, mem = d.map some ++ some NUL :: rest := by
  induction mem generalizing d with
  | nil => simp [cstr] at h
  | cons b m ih =>
    cases b with
    | none => simp [cstr] at h
    | some c =>
      by_cases hc : c = NUL
      · simp [cstr, hc] at h
        subst h
        exact ⟨by simp, m, by simp [hc]⟩
      · simp only [cstr, hc, if_false, Option.map_eq_some'] at h
        obtain ⟨d2, hd2, rfl⟩ := h
        obtain ⟨hn, rest, hr⟩ := ih hd2
        refine ⟨?_, rest, by simp [hr]⟩
        simp only [List.mem_cons, not_or]
        exact ⟨fun e => hc e.symm, hn⟩

theorem cstrN_not_mem {n : Nat} {mem : List Byte} {d : List Char} (h : cstrN n mem = some d) :
    NUL ∉ d := by
  induction mem generalizing n d with
  | nil =>
    by_cases hn : n = 0 <;> simp [cstrN, hn] at h
    subst h; simp
  | cons b m ih =>
    by_cases hn : n = 0
    · simp [cstrN, hn] at h
      subst h; simp
    · cases b with
      | none => simp [cstrN, hn] at h
      | some c =>
        by_cases hc : c = NUL
        · simp [cstrN, hn, hc] at h
          subst h; simp
        · simp only [cstrN, hn, hc, if_false, Option.map_eq_some'] at h
          obtain ⟨d2, hd2, rfl⟩ := h
          simp only [List.mem_cons, not_or]
          exact ⟨fun e => hc e.symm, ih hd2⟩

theorem readStr_not_mem {destsize room : Nat} {mem : List Byte} {d : List Char}
    (h : readStr destsize room mem = some d) : NUL ∉ d := by
  unfold readStr at h
  split at h
  · exact (cstr_eq_some h).1
  · exact cstrN_not_mem h

theorem cstr_map_append {d : List Char} (h : NUL ∉ d) (m : List Byte) :
    cstr (d.map some ++ m) = (cstr m).map (fun x => d ++ x) := by
  induction d with
  | nil => simp
  | cons c t ih =>
    have hc : c ≠ NUL := fun e => h (by simp [e])
    have ht : NUL ∉ t := fun e => h (by simp [e])
    have hi := ih ht
    show cstr (some c :: (t.map some ++ m)) = _
    rw [cstr, if_neg hc, hi]
    cases cstr m <;> rfl

theorem cstrN_lit {cs : List Char} (h : NUL ∉ cs) (n : Nat) (hn : cs.length ≤ n) :
    cstrN n (lit cs) = some cs := by
  induction cs generalizing n with
  | nil =>
    by_cases h0 : n = 0 <;> simp [lit, cstrN, h0]
  | cons c t ih =>
    have hc : c ≠ NUL := fun e => h (by simp [e])
    have ht : NUL ∉ t := fun e => h (by simp [e])
    have h0 : n ≠ 0 := by simp at hn; omega
    have := ih ht (n - 1) (by simp at hn; omega)
    simp only [lit] at this
    simp [lit, cstrN, h0, hc, this]

theorem readStr_lit {cs : List Char} (h : NUL ∉ cs) (destsize room : Nat)
    (hn : cs.length ≤ room) : readStr destsize room (lit cs) = some cs := by
  unfold readStr
  split
  · rw [cstr_lit, cstring_eq_self h]
  · exact cstrN_lit h room hn

theorem poke_eq_some {mem bs mem2 : List Byte} {off : Nat} (h : poke mem off bs = some mem2) :
    off + bs.length ≤ mem.length ∧
      mem2 = mem.take off ++ bs ++ mem.drop (off + bs.length) := by
  unfold poke at h
  split at h
  · injection h with h
    exact ⟨by assumption, h.symm⟩
  · simp at h

theorem poke_some {mem bs : List Byte} {off : Nat} (h : off + bs.length ≤ mem.length) :
    poke mem off bs = some (mem.take off ++ bs ++ mem.drop (off + bs.length)) := by
  unfold poke
  rw [if_pos h]

theorem poke_length {mem bs mem2 : List Byte} {off : Nat} (h : poke mem off bs = some mem2) :
    mem2.length = mem.length := by
  obtain ⟨hle, rfl⟩ := poke_eq_some h
  simp
  omega

/-- Appending at the terminator of a C string. -/
theorem cstr_poke_end {mem mem2 : List Byte} {d x : List Char} (hd : cstr mem = some d)
    (hx : NUL ∉ x) (h : poke mem d.length (lit x) = some mem2) :
    cstr mem2 = some (d ++ x) := by
  obtain ⟨hn, rest, rfl⟩ := cstr_eq_some hd
  obtain ⟨-, rfl⟩ := poke_eq_some h
  have ht : (d.map some ++ some NUL :: rest).take d.length = d.map some := by
    rw [List.take_append_of_le_length (by simp)]
    simp
  rw [ht, List.append_assoc, cstr_map_append hn, cstr_lit_append, cstring_eq_self hx]
  rfl

/-- A string stored at the start of a block. -/
theorem cstr_poke_zero {mem mem2 : List Byte} {x : List Char} (hx : NUL ∉ x)
    (h : poke mem 0 (lit x) = some mem2) : cstr mem2 = some x := by
  obtain ⟨-, rfl⟩ := poke_eq_some h
  simp only [List.take_zero, List.nil_append]
  rw [cstr_lit_append, cstring_eq_self hx]

/-- A terminator stored at offset `off` bounds the C string by `off`. -/
theorem cstr_poke_nul_le {mem mem2 : List Byte} {d : List Char} {off : Nat}
    (h : poke mem off [some NUL] = some mem2) (hd : cstr mem2 = some d) : d.length ≤ off := by
  obtain ⟨hle, rfl⟩ := poke_eq_some h
  obtain ⟨hn, rest, hr⟩ := cstr_eq_some hd
  by_contra hlt
  have hlt : off < d.length := by omega
  have h1 : (mem.take off ++ [some NUL] ++ mem.drop (off + [some NUL].length)).get? off
      = some (some NUL) := by
    have hl : (mem.take off).length = off := by
      simp at hle ⊢; omega
    rw [List.append_assoc, List.get?_eq_getElem?, List.getElem?_append_right (by omega)]
    simp [hl]
  rw [hr, List.get?_eq_getElem?, List.getElem?_append_left (by simpa using hlt)] at h1
  simp only [List.getElem?_map, Option.map_eq_some'] at h1
  obtain ⟨c, hc, hcn⟩ := h1
  injection hcn with hcn
  subst hcn
  exact hn (List.mem_iff_getElem?.mpr ⟨off, hc⟩)

/-! ## Editing the input line -/

theorem growAlloc_gt (fuel alloc newsize : Nat) (h : newsize + 1 ≤ alloc + fuel) :
    newsize < growAlloc fuel alloc newsize := by
  induction fuel generalizing alloc with
  | zero => simp [growAlloc]; omega
  | succ n ih =>
    unfold growAlloc
    split
    · apply ih
      simp [CONSOLE_LINE_PREALLOC]
      omega
    · omega

theorem ReserveInputSpace_fields {l l2 : CONSOLELINE} {len : Nat}
    (h : ReserveInputSpace l len = some l2) :
    l2.id = l.id ∧ l2.chars = l.chars ∧ l2.inputpos = l.inputpos ∧
      l2.inputstart = l.inputstart ∧ l2.colorType = l.colorType ∧
      l2.chars + len < l2.charsalloc := by
  unfold ReserveInputSpace at h
  simp only at h
  split at h
  · simp only [Option.map_eq_some'] at h
    obtain ⟨b, -, rfl⟩ := h
    refine ⟨rfl, rfl, rfl, rfl, rfl, ?_⟩
    show l.chars + len < growAlloc (l.chars + len + 1 - l.charsalloc) l.charsalloc (l.chars + len)
    apply growAlloc_gt
    omega
  · injection h with h
    subst h
    refine ⟨rfl, rfl, rfl, rfl, rfl, ?_⟩
    omega

theorem SStrPack_cstr {dest source dest2 : List Byte} {destsize : Nat}
    (h : SStrPack dest source destsize = some dest2) :
    ∃ d x, cstr dest = some d ∧ readStr destsize (destsize - 1 - d.length) source = some x ∧
      cstr dest2 = some (d ++ x) := by
  unfold SStrPack at h
  simp only [Option.bind_eq_some] at h
  obtain ⟨d, hd, x, hx, hp⟩ := h
  exact ⟨d, x, hd, hx, cstr_poke_end hd (readStr_not_mem hx) hp⟩

theorem SStrCopy_zero_cstr {dest source dest2 : List Byte} {destsize : Nat}
    (h : SStrCopy dest 0 source destsize = some dest2) :
    ∃ x, readStr destsize (destsize - 1) source = some x ∧ cstr dest2 = some x := by
  unfold SStrCopy at h
  simp only [Option.bind_eq_some] at h
  obtain ⟨x, hx, hp⟩ := h
  exact ⟨x, hx, cstr_poke_zero (readStr_not_mem hx) hp⟩

theorem pasteLine_inv {l l2 : CONSOLELINE} {cs : List Char} (hcs : NUL ∉ cs)
    (hinv : LineInv l) (h : pasteLine l cs = some l2) : LineInv l2 := by
  unfold pasteLine at h
  simp only [Option.bind_eq_some] at h
  obtain ⟨line, hres, h⟩ := h
  obtain ⟨-, hch, hpos, hst, -, hroom⟩ := ReserveInputSpace_fields hres
  obtain ⟨h1, h2, h3⟩ := hinv
  split at h
  · split at h
    · simp only [Option.bind_eq_some, Option.map_eq_some'] at h
      obtain ⟨b1, -, b2, -, rfl⟩ := h
      refine ⟨?_, ?_, ?_⟩ <;> simp only <;> omega
    · rename_i hlt hlen
      simp only [Option.bind_eq_some, Option.map_eq_some'] at h
      obtain ⟨input, -, buffer0, -, buffer1, hb1, buffer2, hb2, len2, hl2, buffer3, hb3,
        lb, hlb, n, hn, rfl⟩ := h
      obtain ⟨d, x, hd, hx, hc2⟩ := SStrPack_cstr hb2
      have hdle : d.length ≤ line.inputpos := cstr_poke_nul_le hb1 hd
      have hxe : x = cs := by
        rw [readStr_lit hcs _ _ (by omega)] at hx
        exact (Option.some.inj hx).symm
      subst hxe
      have hlen2 : len2 = d.length + x.length := by
        simp [SStrLen, hc2] at hl2
        omega
      obtain ⟨d2, x2, hd2, -, hc3⟩ := SStrPack_cstr hb3
      rw [hc2] at hd2
      injection hd2 with hd2
      subst hd2
      obtain ⟨y, hy, hclb⟩ := SStrCopy_zero_cstr hlb
      have hye : y = d ++ x ++ x2 := by
        simp [readStr, hc3] at hy
        rw [← hy, List.append_assoc]
      have hne : n = (d ++ x ++ x2).length := by
        simp [SStrLen, hclb, hye] at hn
        simp
        omega
      refine ⟨?_, ?_, ?_⟩ <;> simp only
      · omega
      · rw [hne, hlen2]; simp
      · omega
  · simp only [Option.map_eq_some'] at h
    obtain ⟨b, -, rfl⟩ := h
    refine ⟨?_, ?_, ?_⟩ <;> simp only <;> omega

theorem Backspace_inv {l l2 : CONSOLELINE} (hinv : LineInv l) (h : l.Backspace = some l2) :
    LineInv l2 := by
  unfold CONSOLELINE.Backspace at h
  obtain ⟨h1, h2, h3⟩ := hinv
  split at h
  · simp only [Option.map_eq_some'] at h
    obtain ⟨b, -, rfl⟩ := h
    refine ⟨?_, ?_, ?_⟩ <;> simp only <;> omega
  · injection h with h
    subst h
    exact ⟨h1, h2, h3⟩

theorem keyLeft_inv {l : CONSOLELINE} (hinv : LineInv l) : LineInv (keyLeft l) := by
  unfold keyLeft
  obtain ⟨h1, h2, h3⟩ := hinv
  split
  · refine ⟨?_, ?_, ?_⟩ <;> simp only <;> omega
  · exact ⟨h1, h2, h3⟩

theorem keyRight_inv {l : CONSOLELINE} (hinv : LineInv l) : LineInv (keyRight l) := by
  unfold keyRight
  obtain ⟨h1, h2, h3⟩ := hinv
  split
  · refine ⟨?_, ?_, ?_⟩ <;> simp only <;> omega
  · exact ⟨h1, h2, h3⟩

theorem editOp_apply_inv (op : EditOp) {l l2 : CONSOLELINE} (hinv : LineInv l)
    (h : op.apply l = some l2) : LineInv l2 := by
  cases op with
  | paste characters =>
    simp only [EditOp.apply] at h
    split at h
    · injection h with h
      subst h
      exact hinv
    · exact pasteLine_inv (not_mem_cstring characters) hinv h
  | backspace => exact Backspace_inv hinv h
  | left =>
    simp only [EditOp.apply, Option.some.injEq] at h
    subst h
    exact keyLeft_inv hinv
  | right =>
    simp only [EditOp.apply, Option.some.injEq] at h
    subst h
    exact keyRight_inv hinv

theorem runEdit_inv (ops : List EditOp) {l l2 : CONSOLELINE} (hinv : LineInv l)
    (h : runEdit ops l = some l2) : LineInv l2 := by
  induction ops generalizing l with
  | nil =>
    simp only [runEdit, Option.some.injEq] at h
    subst h
    exact hinv
  | cons op ops ih =>
    simp only [runEdit, Option.bind_eq_some] at h
    obtain ⟨l1, h1, h2⟩ := h
    exact ih (editOp_apply_inv op hinv h1) h2

/-! ## C7 -/

theorem freshInputLine_inv (id : Nat) : LineInv (freshInputLine id) :=
  ⟨Nat.le_refl _, Nat.le_refl _, Nat.le_refl _⟩

theorem GetInputLine_line_inv {s s1 : State} {ptr : Nat} {line : CONSOLELINE}
    (hhead : ∀ h, Head s = some h → h.inputpos ≠ 0 → LineInv h)
    (hget : GetInputLine s = some (ptr, s1))
    (hline : deref ptr s1.s_linelist = some line) : LineInv line := by
  have hnew : newInputLine s = some (ptr, s1) → LineInv line := by
    intro hn
    rw [newInputLine_eq, EnforceMaxLines_of_ne_nil (by simp)] at hn
    simp only [Option.map_some', Option.some.injEq, Prod.mk.injEq] at hn
    obtain ⟨rfl, rfl⟩ := hn
    split at hline
    · simp [deref, freshInputLine] at hline
      rw [← hline]
      exact freshInputLine_inv _
    · cases hl : s.s_linelist with
      | nil => simp [deref, hl] at hline
      | cons a rest =>
        simp [deref, hl, freshInputLine] at hline
        rw [← hline]
        exact freshInputLine_inv _
  unfold GetInputLine at hget
  cases hh : Head s with
  | none =>
    rw [hh] at hget
    exact hnew hget
  | some head =>
    rw [hh] at hget
    simp only at hget
    split at hget
    · exact hnew hget
    · rename_i hp
      simp only [Option.some.injEq, Prod.mk.injEq] at hget
      obtain ⟨rfl, rfl⟩ := hget
      cases hl : s.s_linelist with
      | nil => simp [Head, hl] at hh
      | cons a rest =>
        simp [Head, hl] at hh
        subst hh
        simp [deref, hl] at hline
        subst hline
        exact hhead a (by simp [Head, hl]) hp

/-- C7: let `line` be the line `GetInputLine` returns (a live input line that
was already at the head is assumed to satisfy the cursor invariant, as every
line built by `GetInputLine` and edited by these steps does).  After every
sequence of `PasteInInputLine`, Backspace, Left and Right steps applied to it
that the program defines, `inputstart ≤ inputpos ≤ chars`; every prefix of a
sequence being a sequence, this holds after each step. -/
theorem C7_cursor_in_range (s s1 : State) (ptr : Nat) (line line2 : CONSOLELINE)
    (ops : List EditOp)
    (hhead : ∀ h, Head s = some h → h.inputpos ≠ 0 → LineInv h)
    (hget : GetInputLine s = some (ptr, s1))
    (hline : deref ptr s1.s_linelist = some line)
    (hrun : runEdit ops line = some line2) :
    line2.inputstart ≤ line2.inputpos ∧ line2.inputpos ≤ line2.chars := by
  have h := runEdit_inv ops (GetInputLine_line_inv hhead hget hline) hrun
  exact ⟨h.1, h.2.1⟩

theorem C7_cursor_in_range_witness :
    ∃ line2,
      runEdit [EditOp.paste ['a', 'b'], EditOp.left, EditOp.paste ['X'], EditOp.right,
          EditOp.backspace, EditOp.left, EditOp.paste ['P', 'Q']] (freshInputLine 1)
        = some line2 ∧
      line2.inputstart ≤ line2.inputpos ∧ line2.inputpos ≤ line2.chars :=
  ⟨_, rfl, C7_cursor_in_range State.init _ 1 (freshInputLine 1) _
    [EditOp.paste ['a', 'b'], EditOp.left, EditOp.paste ['X'], EditOp.right,
      EditOp.backspace, EditOp.left, EditOp.paste ['P', 'Q']]
    (by intro h hh; simp [Head, State.init] at hh) rfl rfl rfl⟩

/-! ## C5 and C6 -/

/-- C5 at the failing input: on `"> ab"` with the cursor at 3 (length 4),
`PasteInInputLine("X")` takes the single-character branch, whose `memmove`
moves `chars - (inputpos + 1) = 0` bytes; the buffer then reads `"> aX"` (the
`b` is overwritten) although `chars` is 5 and the cursor 4.  A splice would
give `"> aXb"`. -/
theorem C5_single_char_mid_line :
    inputView midLineConsole = some (some ['>', ' ', 'a', 'b'], 4, 3) ∧
      inputView (midLineConsole.bind (PasteInInputLine ['X']))
        = some (some ['>', ' ', 'a', 'X'], 5, 4) := by
  decide

/-- C6 at the failing input: on `"> ab"` with the cursor at 3,
`PasteInInputLine("X")` followed by one Backspace leaves `"> a"` with
`chars = 4` and the cursor at 3; the original text `"> ab"` is not restored. -/
theorem C6_round_trip_mid_line :
    inputView midLineConsole = some (some ['>', ' ', 'a', 'b'], 4, 3) ∧
      inputView ((midLineConsole.bind (PasteInInputLine ['X'])).bind (fun s =>
          (OnKeyDown KEY.KEY_BACKSPACE false false s).map (fun r => r.2)))
        = some (some ['>', ' ', 'a'], 4, 3) := by
  decide

/-! ## C8 -/

theorem take_map_append (text : List Char) (r : List Byte) (k : Nat) (hk : k ≤ text.length) :
    (text.map some ++ r).take k = (text.take k).map some := by
  rw [List.take_append_of_le_length (by simpa using hk), List.map_take]

theorem drop_map_append (text : List Char) (r : List Byte) (k : Nat) (hk : k ≤ text.length) :
    (text.map some ++ r).drop k = (text.drop k).map some ++ r := by
  rw [List.drop_append_of_le_length (by simpa using hk), List.map_drop]

theorem not_mem_take_drop {text : List Char} (h : NUL ∉ text) (i j : Nat) :
    NUL ∉ text.take i ++ text.drop j := by
  intro hm
  rcases List.mem_append.mp hm with hm | hm
  · exact h (List.mem_of_mem_take hm)
  · exact h (List.mem_of_mem_drop hm)

/-- Backspace on a well-formed line with the cursor past the prefix. -/
theorem Backspace_wellFormed {l : CONSOLELINE} {text : List Char} (hwf : WellFormed l text)
    (hpos : l.inputstart < l.inputpos) :
    ∃ l2, l.Backspace = some l2 ∧
      WellFormed l2 (text.take (l.inputpos - 1) ++ text.drop l.inputpos) ∧
      l2.inputpos = l.inputpos - 1 ∧ l2.chars = l.chars - 1 ∧
      l2.inputstart = l.inputstart ∧ l2.charsalloc = l.charsalloc ∧ l2.id = l.id ∧
      l2.colorType = l.colorType := by
  obtain ⟨htext, hlen, h1, h2⟩ := hwf
  obtain ⟨hnul, rest, hbuf⟩ := cstr_eq_some htext
  have hp1 : l.inputpos - 1 ≤ text.length := by omega
  have hp : l.inputpos ≤ text.length := by omega
  have hnew : (text.take (l.inputpos - 1) ++ text.drop l.inputpos).length = l.chars - 1 := by
    simp
    omega
  have hbytes : ∃ b, (if l.chars ≤ l.inputpos then poke l.buffer (l.inputpos - 1) [some NUL]
      else memmove l.buffer (l.inputpos - 1) l.inputpos (l.chars - l.inputpos + 1)) = some b ∧
      b = (text.take (l.inputpos - 1) ++ text.drop l.inputpos).map some ++
        some NUL :: l.buffer.drop l.chars := by
    have hlb : l.chars + 1 ≤ l.buffer.length := by rw [hbuf]; simp; omega
    by_cases hc : l.chars ≤ l.inputpos
    · rw [if_pos hc]
      have hd : text.drop l.inputpos = [] := by
        apply List.drop_eq_nil_of_le
        omega
      have he : l.inputpos - 1 + [some NUL].length = l.chars := by simp; omega
      refine ⟨_, poke_some (by rw [he]; omega), ?_⟩
      rw [he, hd, List.append_nil]
      rw [hbuf, take_map_append _ _ _ hp1]
      simp
    · rw [if_neg hc]
      unfold memmove
      rw [if_neg (by omega), if_pos (by omega)]
      have hsrc : ((l.buffer.drop l.inputpos).take (l.chars - l.inputpos + 1))
          = (text.drop l.inputpos).map some ++ [some NUL] := by
        rw [hbuf, drop_map_append _ _ _ hp, List.take_append_eq_append_take]
        have hl : ((text.drop l.inputpos).map some).length = l.chars - l.inputpos := by
          simp
          omega
        rw [List.take_of_length_le (by rw [hl]; omega), hl]
        have : l.chars - l.inputpos + 1 - (l.chars - l.inputpos) = 1 := by omega
        rw [this]
        simp
      rw [hsrc]
      have he : l.inputpos - 1 + ((text.drop l.inputpos).map some ++ [some NUL]).length
          = l.chars := by simp; omega
      refine ⟨_, poke_some (by rw [he]; omega), ?_⟩
      rw [he]
      rw [hbuf, take_map_append _ _ _ hp1]
      simp
  obtain ⟨b, hb, hbe⟩ := hbytes
  refine ⟨{ l with buffer := b, inputpos := l.inputpos - 1, chars := l.chars - 1 }, ?_,
    ⟨?_, hnew, ?_, ?_⟩, rfl, rfl, rfl, rfl, rfl, rfl⟩
  · unfold CONSOLELINE.Backspace
    rw [if_pos hpos, hb]
    rfl
  · show cstr b = _
    rw [hbe]
    exact cstr_append_of_not_mem (not_mem_take_drop hnul _ _) _
  · show l.inputstart ≤ l.inputpos - 1
    omega
  · show l.inputpos - 1 ≤ l.chars - 1
    omega

theorem helpLine_wellFormed : WellFormed helpLine ['>', ' ', 'h', 'e', 'l', 'p'] :=
  ⟨by decide, rfl, by decide, by decide⟩

/-- C8: `CONSOLELINE::Backspace` leaves the line as it is when the cursor is at
`inputstart`.  Otherwise, on a well-formed line holding `text`, it removes the
character just before the cursor (the text becomes
`text[0, cursor-1) ++ text[cursor, length)`), and the cursor and the length go
down by one, the prefix length staying the same.  Scenario: on a fresh input
line, typing `"help"` and pressing Backspace twice leaves `"> he"` (editable
text `"he"`) with length 4 and the cursor at `inputstart + 2 = 4`. -/
theorem C8_backspace (l : CONSOLELINE) (text : List Char) (hwf : WellFormed l text) :
    (l.inputpos = l.inputstart → l.Backspace = some l) ∧
    (l.inputpos ≠ l.inputstart →
      ∃ l2, l.Backspace = some l2 ∧
        l2.text = some (text.take (l.inputpos - 1) ++ text.drop l.inputpos) ∧
        l2.inputpos = l.inputpos - 1 ∧ l2.chars = l.chars - 1 ∧
        l2.inputstart = l.inputstart) ∧
    (inputView helpScenario = some (some ['>', ' ', 'h', 'e'], 4, 4) ∧
      (helpScenario.bind Head).map (fun h => h.inputstart) = some 2) := by
  refine ⟨?_, ?_, by decide⟩
  · intro h
    unfold CONSOLELINE.Backspace
    rw [if_neg (by omega)]
  · intro h
    have hpos : l.inputstart < l.inputpos := by
      have := hwf.2.2.1
      omega
    obtain ⟨l2, h2, hw2, hp, hc, hs, -⟩ := Backspace_wellFormed hwf hpos
    exact ⟨l2, h2, hw2.1, hp, hc, hs⟩

theorem C8_backspace_witness :
    ∃ l2, helpLine.Backspace = some l2 ∧ l2.text = some ['>', ' ', 'h', 'e', 'p'] ∧
      l2.inputpos = 4 ∧ l2.chars = 5 ∧ l2.inputstart = 2 :=
  (C8_backspace helpLine ['>', ' ', 'h', 'e', 'l', 'p'] helpLine_wellFormed).2.1 (by decide)

/-! ## C9 -/

theorem GetInputLine_live {s : State} {head : CONSOLELINE} (hh : Head s = some head)
    (hp : head.inputpos ≠ 0) : GetInputLine s = some (head.id, s) := by
  unfold GetInputLine
  rw [hh]
  simp [hp]

theorem GetInputLine_fresh {s : State} (hinv : StoreInv s)
    (hh : ∀ head, Head s = some head → head.inputpos = 0) :
    ∃ s1, GetInputLine s = some (s.nextId, s1) ∧ StoreInv s1 ∧
      s1.s_linelist = freshInputLine s.nextId ::
        (if s.s_NumLines < CONSOLE_LINES_MAX then s.s_linelist else s.s_linelist.dropLast) ∧
      s1.s_NumLines = min (s.s_NumLines + 1) CONSOLE_LINES_MAX ∧
      s1.s_currlineptr = some s.nextId ∧ s1.nextId = s.nextId + 1 := by
  have hg : GetInputLine s = newInputLine s := by
    unfold GetInputLine
    cases h : Head s with
    | none => rfl
    | some head => simp [hh head h]
  rw [hg, newInputLine_eq, EnforceMaxLines_of_ne_nil (by simp)]
  by_cases hlt : s.s_NumLines < CONSOLE_LINES_MAX
  · have h1 : s.s_NumLines + 1 ≤ CONSOLE_LINES_MAX := hlt
    rw [if_pos h1, Option.map_some']
    refine ⟨_, rfl, ?_, ?_, ?_, rfl, rfl⟩
    · exact ⟨by simp [hinv.1], h1⟩
    · rw [if_pos hlt]
    · show s.s_NumLines + 1 = _
      omega
  · have h1 : ¬ s.s_NumLines + 1 ≤ CONSOLE_LINES_MAX := by omega
    have hne : s.s_linelist ≠ [] := by
      intro e
      have := hinv.1
      rw [e] at this
      simp [CONSOLE_LINES_MAX] at hlt this
      omega
    rw [if_neg h1, Option.map_some']
    refine ⟨_, rfl, ?_, ?_, ?_, rfl, rfl⟩
    · refine ⟨?_, ?_⟩
      · show s.s_NumLines + 1 - 1 = (freshInputLine s.nextId :: s.s_linelist).dropLast.length
        simp [hinv.1]
      · show s.s_NumLines + 1 - 1 ≤ CONSOLE_LINES_MAX
        have := hinv.2
        omega
    · rw [if_neg hlt]
      exact List.dropLast_cons_of_ne_nil hne
    · show s.s_NumLines + 1 - 1 = _
      have := hinv.2
      omega

/-- C9: when the head of the store is a live input line (`inputpos ≠ 0`)
`GetInputLine` returns it and changes nothing.  Otherwise (empty store, or a
head with `inputpos == 0`) it builds a line whose text is `"> "` with
`inputstart = inputpos = chars = 2`, links it at the head and counts it: the
counter goes up by one and the cap is enforced on the tail.  Hence two
consecutive calls return the same line and the second changes nothing. -/
theorem C9_get_input_line (s : State) (hinv : StoreInv s) :
    (∀ head, Head s = some head → head.inputpos ≠ 0 → GetInputLine s = some (head.id, s)) ∧
    ((∀ head, Head s = some head → head.inputpos = 0) →
      ∃ s1 line, GetInputLine s = some (line.id, s1) ∧ Head s1 = some line ∧
        line.text = some ['>', ' '] ∧ line.inputstart = 2 ∧ line.inputpos = 2 ∧
        line.chars = 2 ∧
        s1.s_linelist = line ::
          (if s.s_NumLines < 256 then s.s_linelist else s.s_linelist.dropLast) ∧
        s1.s_NumLines = min (s.s_NumLines + 1) 256 ∧
        s1.s_NumLines = s1.s_linelist.length) ∧
    (∃ ptr s1, GetInputLine s = some (ptr, s1) ∧ GetInputLine s1 = some (ptr, s1)) := by
  refine ⟨fun head hh hp => GetInputLine_live hh hp, ?_, ?_⟩
  · intro hh
    obtain ⟨s1, h1, hi1, hl, hn, -, -⟩ := GetInputLine_fresh hinv hh
    exact ⟨s1, freshInputLine s.nextId, h1, by simp [Head, hl], rfl, rfl, rfl, rfl, hl, hn, hi1.1⟩
  · by_cases hlive : ∃ head, Head s = some head ∧ head.inputpos ≠ 0
    · obtain ⟨head, hh, hp⟩ := hlive
      exact ⟨head.id, s, GetInputLine_live hh hp, GetInputLine_live hh hp⟩
    · have hh : ∀ head, Head s = some head → head.inputpos = 0 := by
        intro head h
        by_contra hp
        exact hlive ⟨head, h, hp⟩
      obtain ⟨s1, h1, -, hl, -, -, -⟩ := GetInputLine_fresh hinv hh
      refine ⟨s.nextId, s1, h1, ?_⟩
      have : Head s1 = some (freshInputLine s.nextId) := by simp [Head, hl]
      exact GetInputLine_live this (by simp [freshInputLine])

theorem C9_get_input_line_witness :
    ∃ ptr s1, GetInputLine State.init = some (ptr, s1) ∧ GetInputLine s1 = some (ptr, s1) :=
  (C9_get_input_line State.init ⟨rfl, by decide⟩).2.2

/-! ## C10 -/

theorem cstr_drop {mem : List Byte} {text : List Char} (h : cstr mem = some text) (k : Nat)
    (hk : k ≤ text.length) : cstr (mem.drop k) = some (text.drop k) := by
  obtain ⟨hn, rest, rfl⟩ := cstr_eq_some h
  rw [drop_map_append _ _ _ hk]
  exact cstr_append_of_not_mem (fun hm => hn (List.mem_of_mem_drop hm)) rest

/-- C10 as stated fails: with the console active, the input line `"> help"` and
the cursor at its end, Enter pressed while the console hotkey is held down
(`EventIsKeyDown(ConsoleGetHotKey())`) returns 1 at once: nothing is handed to
`ConsoleCommandExecute` and the line keeps its cursor. -/
theorem C10_counterexample :
    ∃ s, helpConsole = some s ∧ s.s_active = true ∧
      inputView (some s) = some (some ['>', ' ', 'h', 'e', 'l', 'p'], 6, 6) ∧
      OnKeyDown KEY.KEY_ENTER false true s = some (1, s) ∧ s.executed = [] :=
  ⟨_, rfl, rfl, by decide, by decide, rfl⟩

theorem updateLine_head (f : CONSOLELINE → Option CONSOLELINE) (head : CONSOLELINE)
    (rest : List CONSOLELINE) :
    updateLine head.id f (head :: rest) = (f head).map (fun l2 => l2 :: rest) := by
  simp [updateLine]

theorem deref_head (head : CONSOLELINE) (rest : List CONSOLELINE) :
    deref head.id (head :: rest) = some head := by
  simp [deref]

/-- C10 (amended): with the console active, the console hotkey not held down,
Enter not being the console hotkey, and the cursor of the (well-formed) input
line past the prefix, `OnKeyDown(KEY_ENTER)` hands to `ConsoleCommandExecute`
exactly the text after the first `inputstart` characters, leaves the buffer of
the line as it is, sets its cursor to 0 and sets the history index to -1; the
next `GetInputLine` builds a fresh input line `"> "` at the head, above the
submitted line. -/
theorem C10_enter_submits (s : State) (anyControl : Bool) (head : CONSOLELINE)
    (rest : List CONSOLELINE) (text : List Char)
    (hinv : StoreInv s) (hact : s.s_active = true)
    (hkey : ¬ (KEY.KEY_ENTER = s.s_consoleKey ∧ s.s_consoleAccessEnabled = true))
    (hlist : s.s_linelist = head :: rest) (hwf : WellFormed head text)
    (hpast : head.inputstart < head.inputpos) :
    ∃ s2, OnKeyDown KEY.KEY_ENTER anyControl false s = some (0, s2) ∧
      s2.executed = text.drop head.inputstart :: s.executed ∧
      s2.s_linelist = { head with inputpos := 0 } :: rest ∧
      ({ head with inputpos := 0 } : CONSOLELINE).text = some text ∧
      s2.s_historyIndex = -1 ∧
      ∃ s3 line, GetInputLine s2 = some (line.id, s3) ∧
        line.text = some ['>', ' '] ∧ line.inputpos = 2 ∧
        s3.s_linelist = line ::
          (if s.s_NumLines < 256 then { head with inputpos := 0 } :: rest
           else ({ head with inputpos := 0 } :: rest).dropLast) := by
  have hhead : Head s = some head := by simp [Head, hlist]
  have hp0 : head.inputpos ≠ 0 := by omega
  have hget : GetInputLine s = some (head.id, s) := GetInputLine_live hhead hp0
  have hcmd : cstr (head.buffer.drop head.inputstart) = some (text.drop head.inputstart) :=
    cstr_drop hwf.1 _ (by have := hwf.2.1; have := hwf.2.2.2; omega)
  have hcond : head.inputstart ≤ head.inputpos ∧ head.inputpos ≠ head.inputstart := by
    constructor <;> omega
  have henter : keyEnter head.id s =
      some { ConsoleCommandExecute (text.drop head.inputstart)
              { s with s_linelist := { head with inputpos := 0 } :: rest } with
             s_historyIndex := -1 } := by
    unfold keyEnter
    rw [hlist, deref_head, Option.some_bind, if_pos hcond, updateLine_head]
    simp only [Option.map_some', Option.some_bind, hcmd]
  have hgate : ¬ ((false : Bool) = true ∨ (!s.s_active) = true) := by simp [hact]
  have hrun : OnKeyDown KEY.KEY_ENTER anyControl false s =
      some (0, if resetsHighlight KEY.KEY_ENTER anyControl then
        ResetHighlight { ConsoleCommandExecute (text.drop head.inputstart)
              { s with s_linelist := { head with inputpos := 0 } :: rest } with
             s_historyIndex := -1 }
        else { ConsoleCommandExecute (text.drop head.inputstart)
              { s with s_linelist := { head with inputpos := 0 } :: rest } with
             s_historyIndex := -1 }) := by
    unfold OnKeyDown
    rw [if_neg hkey, if_neg hgate, hget]
    simp only [Option.some_bind, henter, Option.map_some']
  have hfrozen : ∀ h2, Head (if resetsHighlight KEY.KEY_ENTER anyControl then
        ResetHighlight { ConsoleCommandExecute (text.drop head.inputstart)
              { s with s_linelist := { head with inputpos := 0 } :: rest } with
             s_historyIndex := -1 }
        else { ConsoleCommandExecute (text.drop head.inputstart)
              { s with s_linelist := { head with inputpos := 0 } :: rest } with
             s_historyIndex := -1 }) = some h2 → h2.inputpos = 0 := by
    intro h2 hh
    split at hh <;>
      (simp [Head, ResetHighlight, ConsoleCommandExecute] at hh; rw [← hh])
  have hinv2 : StoreInv (if resetsHighlight KEY.KEY_ENTER anyControl then
        ResetHighlight { ConsoleCommandExecute (text.drop head.inputstart)
              { s with s_linelist := { head with inputpos := 0 } :: rest } with
             s_historyIndex := -1 }
        else { ConsoleCommandExecute (text.drop head.inputstart)
              { s with s_linelist := { head with inputpos := 0 } :: rest } with
             s_historyIndex := -1 }) := by
    have h1 := hinv.1
    have h2 := hinv.2
    rw [hlist] at h1
    split <;> exact ⟨by simpa [ResetHighlight, ConsoleCommandExecute] using h1, h2⟩
  obtain ⟨s3, h3, -, hl3, -, -, -⟩ := GetInputLine_fresh hinv2 hfrozen
  refine ⟨_, hrun, ?_, ?_, hwf.1, ?_, s3, freshInputLine _, h3, rfl, rfl, ?_⟩
  · split <;> rfl
  · split <;> rfl
  · split <;> rfl
  · rw [hl3]
    congr 1
    split <;> rfl

theorem typedLine_wellFormed : WellFormed typedLine ['>', ' ', 'h', 'e', 'l', 'p'] :=
  ⟨by decide, rfl, by decide, by decide⟩

theorem typedConsole_inv : StoreInv typedConsole := ⟨rfl, by decide⟩

theorem C10_enter_submits_witness :
    ∃ s2, OnKeyDown KEY.KEY_ENTER false false typedConsole = some (0, s2) ∧
      s2.executed = [['h', 'e', 'l', 'p']] ∧
      s2.s_linelist = [{ typedLine with inputpos := 0 }] ∧
      ({ typedLine with inputpos := 0 } : CONSOLELINE).text
        = some ['>', ' ', 'h', 'e', 'l', 'p'] ∧
      s2.s_historyIndex = -1 ∧
      ∃ s3 line, GetInputLine s2 = some (line.id, s3) ∧
        line.text = some ['>', ' '] ∧ line.inputpos = 2 ∧
        s3.s_linelist = line ::
          (if typedConsole.s_NumLines < 256 then [{ typedLine with inputpos := 0 }]
           else [{ typedLine with inputpos := 0 }].dropLast) :=
  C10_enter_submits typedConsole false typedLine [] ['>', ' ', 'h', 'e', 'l', 'p']
    typedConsole_inv rfl (by decide) rfl typedLine_wellFormed (by decide)

/-! ## The branches of `PasteInInputLine` that splice

The cursor-at-end branch and the multi-character branch insert the string at the
cursor; the defect shown under C5 is confined to the single-character branch
with the cursor inside the line. -/

theorem cstrN_of_cstr {mem : List Byte} {d : List Char} (h : cstr mem = some d) (n : Nat)
    (hn : d.length ≤ n) : cstrN n mem = some d := by
  induction mem generalizing d n with
  | nil => simp [cstr] at h
  | cons b m ih =>
    cases b with
    | none => simp [cstr] at h
    | some c =>
      by_cases hc : c = NUL
      · simp [cstr, hc] at h
        subst h
        by_cases h0 : n = 0 <;> simp [cstrN, h0, hc]
      · simp only [cstr, hc, if_false, Option.map_eq_some'] at h
        obtain ⟨d2, hd2, rfl⟩ := h
        have h0 : n ≠ 0 := by simp at hn; omega
        have := ih hd2 (n - 1) (by simp at hn; omega)
        simp [cstrN, h0, hc, this]

theorem readStr_of_cstr {mem : List Byte} {d : List Char} (h : cstr mem = some d)
    (destsize room : Nat) (hn : d.length ≤ room) : readStr destsize room mem = some d := by
  unfold readStr
  split
  · exact h
  · exact cstrN_of_cstr h room hn

theorem cstr_length_lt {mem : List Byte} {d : List Char} (h : cstr mem = some d) :
    d.length < mem.length := by
  obtain ⟨-, rest, rfl⟩ := cstr_eq_some h
  simp

theorem growAlloc_ge (fuel alloc newsize : Nat) : alloc ≤ growAlloc fuel alloc newsize := by
  induction fuel generalizing alloc with
  | zero => simp [growAlloc]
  | succ n ih =>
    unfold growAlloc
    split
    · exact Nat.le_trans (Nat.le_add_right _ _) (ih _)
    · exact Nat.le_refl _

theorem growAlloc_step (fuel alloc newsize : Nat) :
    ∃ k, growAlloc fuel alloc newsize = alloc + k * CONSOLE_LINE_PREALLOC := by
  induction fuel generalizing alloc with
  | zero => exact ⟨0, by simp [growAlloc]⟩
  | succ n ih =>
    unfold growAlloc
    split
    · obtain ⟨k, hk⟩ := ih (alloc + CONSOLE_LINE_PREALLOC)
      exact ⟨k + 1, by rw [hk]; ring⟩
    · exact ⟨0, by simp⟩

/-- Copying a C string into a block that has room for it. -/
theorem SStrCopy_zero_some (dest : List Byte) (destsize : Nat) {source : List Byte}
    {x : List Char}
    (hx : cstr source = some x) (hroom : destsize = STORM_MAX_STR ∨ x.length ≤ destsize - 1)
    (hfit : x.length + 1 ≤ dest.length) :
    ∃ b, SStrCopy dest 0 source destsize = some b ∧ cstr b = some x ∧
      b.length = dest.length := by
  have hp : poke dest 0 (lit x) = some (dest.take 0 ++ lit x ++ dest.drop (0 + (lit x).length)) :=
    poke_some (by rw [lit_length]; omega)
  refine ⟨_, ?_, cstr_poke_zero (cstr_eq_some hx).1 hp, poke_length hp⟩
  have hr : readStr destsize (destsize - 1) source = some x := by
    rcases hroom with hm | hr
    · unfold readStr
      rw [if_pos hm, hx]
    · exact readStr_of_cstr hx _ _ hr
  unfold SStrCopy
  rw [hr, Option.some_bind, hp]

/-- Appending a C string to a C string in a block that has room for both. -/
theorem SStrPack_some (destsize : Nat) {dest source : List Byte} {d x : List Char}
    (hd : cstr dest = some d) (hx : cstr source = some x)
    (hroom : destsize = STORM_MAX_STR ∨ d.length + x.length ≤ destsize - 1)
    (hfit : d.length + x.length + 1 ≤ dest.length) :
    ∃ b, SStrPack dest source destsize = some b ∧ cstr b = some (d ++ x) ∧
      b.length = dest.length := by
  have hp : poke dest d.length (lit x)
      = some (dest.take d.length ++ lit x ++ dest.drop (d.length + (lit x).length)) :=
    poke_some (by rw [lit_length]; omega)
  refine ⟨_, ?_, cstr_poke_end hd (cstr_eq_some hx).1 hp, poke_length hp⟩
  have hr : readStr destsize (destsize - 1 - d.length) source = some x := by
    rcases hroom with hm | hr
    · unfold readStr
      rw [if_pos hm, hx]
    · exact readStr_of_cstr hx _ _ (by omega)
  unfold SStrPack
  rw [hd, Option.some_bind, hr, Option.some_bind, hp]

/-- Cutting a C string short by a terminator at `k`. -/
theorem poke_nul_some {mem : List Byte} {text : List Char} (h : cstr mem = some text) (k : Nat)
    (hk : k ≤ text.length) :
    ∃ b, poke mem k [some NUL] = some b ∧ cstr b = some (text.take k) ∧
      b.length = mem.length := by
  have hlt := cstr_length_lt h
  have hp : poke mem k [some NUL]
      = some (mem.take k ++ [some NUL] ++ mem.drop (k + [some NUL].length)) :=
    poke_some (by simp; omega)
  refine ⟨_, hp, ?_, poke_length hp⟩
  obtain ⟨hn, rest, rfl⟩ := cstr_eq_some h
  rw [take_map_append _ _ _ hk, List.append_assoc]
  exact cstr_append_of_not_mem (fun hm => hn (List.mem_of_mem_take hm)) _

theorem ReserveInputSpace_wellFormed {l : CONSOLELINE} {text : List Char}
    (hwf : WellFormed l text) (hal : Allocated l) (len : Nat) :
    ∃ l2, ReserveInputSpace l len = some l2 ∧ WellFormed l2 text ∧ Allocated l2 ∧
      l2.chars + len < l2.charsalloc ∧ l2.inputpos = l.inputpos ∧ l2.chars = l.chars ∧
      l2.inputstart = l.inputstart ∧ l.charsalloc ≤ l2.charsalloc ∧
      (∃ k, l2.charsalloc = l.charsalloc + k * CONSOLE_LINE_PREALLOC) := by
  obtain ⟨htext, hlen, h1, h2⟩ := hwf
  by_cases hg : l.chars + len ≥ l.charsalloc
  · have hgt := growAlloc_gt (l.chars + len + 1 - l.charsalloc) l.charsalloc (l.chars + len)
      (by omega)
    have hge := growAlloc_ge (l.chars + len + 1 - l.charsalloc) l.charsalloc (l.chars + len)
    have hstep := growAlloc_step (l.chars + len + 1 - l.charsalloc) l.charsalloc (l.chars + len)
    have hres : ReserveInputSpace l len =
        (SStrCopy (SMemAlloc (growAlloc (l.chars + len + 1 - l.charsalloc) l.charsalloc
            (l.chars + len))) 0 l.buffer
          (growAlloc (l.chars + len + 1 - l.charsalloc) l.charsalloc (l.chars + len))).map
          (fun buffer => { l with
            charsalloc := growAlloc (l.chars + len + 1 - l.charsalloc) l.charsalloc
              (l.chars + len),
            buffer := buffer }) := by
      unfold ReserveInputSpace
      simp only
      rw [if_pos hg]
    generalize growAlloc (l.chars + len + 1 - l.charsalloc) l.charsalloc (l.chars + len) = A
      at hgt hge hstep hres
    obtain ⟨b, hb, hcb, hbl⟩ := SStrCopy_zero_some (SMemAlloc A) A
      htext (Or.inr (by omega)) (by simp [SMemAlloc]; omega)
    refine ⟨{ l with charsalloc := A, buffer := b }, ?_, ⟨hcb, hlen, h1, h2⟩, ?_, hgt, rfl,
      rfl, rfl, hge, hstep⟩
    · rw [hres, hb]
      rfl
    · show b.length = A
      rw [hbl]
      simp [SMemAlloc]
  · refine ⟨l, ?_, ⟨htext, hlen, h1, h2⟩, hal, by omega, rfl, rfl, rfl, Nat.le_refl _,
      ⟨0, by simp⟩⟩
    unfold ReserveInputSpace
    simp only
    rw [if_neg hg]

/-- The cursor-at-end branch of `PasteInInputLine` appends the string. -/
theorem pasteLine_end {l : CONSOLELINE} {text cs : List Char} (hwf : WellFormed l text)
    (hal : Allocated l) (hend : l.inputpos = l.chars) (hcs : NUL ∉ cs) :
    ∃ l2, pasteLine l cs = some l2 ∧ WellFormed l2 (text ++ cs) ∧ Allocated l2 ∧
      l2.inputpos = l.inputpos + cs.length ∧ l2.chars = l.chars + cs.length ∧
      l2.inputstart = l.inputstart := by
  obtain ⟨line, hres, ⟨htext, hlen, h1, h2⟩, hal2, hroom, hpos, hch, hst, -, -⟩ :=
    ReserveInputSpace_wellFormed hwf hal cs.length
  have hnlt : ¬ line.inputpos < line.chars := by omega
  have hpe : line.inputpos = text.length := by omega
  have hp : poke line.buffer line.inputpos (lit cs)
      = some (line.buffer.take line.inputpos ++ lit cs ++
          line.buffer.drop (line.inputpos + (lit cs).length)) :=
    poke_some (by rw [lit_length, hal2]; omega)
  have hc : cstr (line.buffer.take line.inputpos ++ lit cs ++
      line.buffer.drop (line.inputpos + (lit cs).length)) = some (text ++ cs) := by
    rw [hpe] at hp
    have := cstr_poke_end htext hcs hp
    rw [hpe]
    exact this
  refine ⟨{ line with
      buffer := line.buffer.take line.inputpos ++ lit cs ++
        line.buffer.drop (line.inputpos + (lit cs).length),
      inputpos := line.inputpos + cs.length, chars := line.inputpos + cs.length }, ?_,
    ⟨hc, ?_, ?_, ?_⟩, ?_, ?_, ?_, hst⟩
  · unfold pasteLine
    simp only
    rw [hres, Option.some_bind, if_neg hnlt, hp]
    rfl
  · show (text ++ cs).length = line.inputpos + cs.length
    simp; omega
  · show line.inputstart ≤ line.inputpos + cs.length
    omega
  · show line.inputpos + cs.length ≤ line.inputpos + cs.length
    omega
  · show (line.buffer.take line.inputpos ++ lit cs ++
      line.buffer.drop (line.inputpos + (lit cs).length)).length = line.charsalloc
    rw [← hal2]
    exact poke_length hp
  · show line.inputpos + cs.length = _
    omega
  · show line.inputpos + cs.length = _
    omega

/-- The multi-character branch of `PasteInInputLine` splices the string at
the cursor. -/
theorem pasteLine_multi {l : CONSOLELINE} {text cs : List Char} (hwf : WellFormed l text)
    (hal : Allocated l) (hmid : l.inputpos < l.chars) (hcs : NUL ∉ cs)
    (hlen2 : 2 ≤ cs.length) :
    ∃ l2, pasteLine l cs = some l2 ∧
      WellFormed l2 (text.take l.inputpos ++ cs ++ text.drop l.inputpos) ∧ Allocated l2 ∧
      l2.inputpos = l.inputpos + cs.length ∧ l2.chars = l.chars + cs.length ∧
      l2.inputstart = l.inputstart := by
  obtain ⟨line, hres, ⟨htext, hlen, h1, h2⟩, hal2, hroom, hpos, hch, hst, -, -⟩ :=
    ReserveInputSpace_wellFormed hwf hal cs.length
  have hlt : line.inputpos < line.chars := by omega
  have hn1 : ¬ cs.length ≤ 1 := by omega
  have hple : line.inputpos ≤ text.length := by omega
  have halloc : (SMemAlloc line.charsalloc).length = line.charsalloc := by simp [SMemAlloc]
  have htk : (text.take line.inputpos).length = line.inputpos := by simp; omega
  have hdr : (text.drop line.inputpos).length = line.chars - line.inputpos := by simp; omega
  obtain ⟨input, hin, hcin, -⟩ := SStrCopy_zero_some (SMemAlloc line.charsalloc)
    STORM_MAX_STR (cstr_drop htext line.inputpos hple) (Or.inl rfl)
    (by rw [halloc, hdr]; omega)
  obtain ⟨buffer0, hb0, hc0, hl0⟩ := SStrCopy_zero_some (SMemAlloc line.charsalloc)
    STORM_MAX_STR htext (Or.inl rfl) (by rw [halloc]; omega)
  obtain ⟨buffer1, hb1, hc1, hl1⟩ := poke_nul_some hc0 line.inputpos hple
  obtain ⟨buffer2, hb2, hc2, hl2⟩ := SStrPack_some line.charsalloc hc1
    (by rw [cstr_lit, cstring_eq_self hcs] : cstr (lit cs) = some cs)
    (Or.inr (by rw [htk]; omega)) (by rw [htk, hl1, hl0, halloc]; omega)
  have hs2 : SStrLen buffer2 = some (line.inputpos + cs.length) := by
    simp [SStrLen, hc2, htk]
  obtain ⟨buffer3, hb3, hc3, -⟩ := SStrPack_some line.charsalloc hc2 hcin
    (Or.inr (by simp only [List.length_append, htk, hdr]; omega))
    (by simp only [List.length_append, htk, hdr]; rw [hl2, hl1, hl0, halloc]; omega)
  obtain ⟨lb, hlb, hclb, hllb⟩ := SStrCopy_zero_some line.buffer
    STORM_MAX_STR hc3 (Or.inl rfl)
    (by simp only [List.length_append, htk, hdr]; rw [hal2]; omega)
  have hsl : SStrLen lb = some (line.chars + cs.length) := by
    simp [SStrLen, hclb]
    omega
  refine ⟨{ line with buffer := lb, inputpos := line.inputpos + cs.length,
                      chars := line.chars + cs.length }, ?_, ⟨?_, ?_, ?_, ?_⟩, ?_, ?_, ?_, hst⟩
  · unfold pasteLine
    simp only
    rw [hres, Option.some_bind, if_pos hlt, if_neg hn1, hin, Option.some_bind, hb0,
      Option.some_bind, hb1, Option.some_bind, hb2, Option.some_bind, hs2, Option.some_bind,
      hb3, Option.some_bind, hlb, Option.some_bind, hsl]
    rfl
  · show cstr lb = _
    rw [hclb, hpos]
  · show (text.take l.inputpos ++ cs ++ text.drop l.inputpos).length = line.chars + cs.length
    rw [← hpos]
    simp only [List.length_append, htk, hdr]
    omega
  · show line.inputstart ≤ line.inputpos + cs.length
    omega
  · show line.inputpos + cs.length ≤ line.chars + cs.length
    omega
  · show lb.length = line.charsalloc
    rw [hllb, hal2]
  · show line.inputpos + cs.length = _
    omega
  · show line.chars + cs.length = _
    omega

/-! ## C11 -/

/-- C11 as stated fails: with the console active, the input line `"> help"` and
the cursor at its end, Escape pressed while the console hotkey is held down
returns 1 at once: the line is not truncated (and the console stays active). -/
theorem C11_counterexample :
    typedConsole.s_active = true ∧
      inputView (some typedConsole) = some (some ['>', ' ', 'h', 'e', 'l', 'p'], 6, 6) ∧
      OnKeyDown KEY.KEY_ESCAPE false true typedConsole = some (1, typedConsole) := by
  decide

theorem keyEscape_past {s : State} {head : CONSOLELINE} {rest : List CONSOLELINE}
    {text : List Char} (hlist : s.s_linelist = head :: rest) (hwf : WellFormed head text)
    (hpast : head.inputstart < head.inputpos) :
    ∃ b, keyEscape head.id s = some { s with s_linelist :=
        { head with inputpos := head.inputstart, chars := head.inputstart, buffer := b } ::
          rest } ∧
      cstr b = some (text.take head.inputstart) := by
  obtain ⟨b, hb, hcb, -⟩ := poke_nul_some hwf.1 head.inputstart
    (by have := hwf.2.1; have := hwf.2.2.2; omega)
  refine ⟨b, ?_, hcb⟩
  have hcond : ¬ (head.inputpos < head.inputstart ∨ head.inputpos = head.inputstart) := by omega
  unfold keyEscape
  rw [hlist, deref_head, Option.some_bind, if_neg hcond, updateLine_head, hb]
  rfl

theorem keyEscape_at {s : State} {head : CONSOLELINE} {rest : List CONSOLELINE}
    (hlist : s.s_linelist = head :: rest) (hat : head.inputpos = head.inputstart) :
    keyEscape head.id s = some { s with s_active := false } := by
  unfold keyEscape
  rw [hlist, deref_head, Option.some_bind, if_pos (Or.inr hat)]

/-- C11 (amended): with the console active, the console hotkey not held down
and Escape not being the console hotkey, for a live well-formed input line at
the head: if the cursor is past the prefix, `OnKeyDown(KEY_ESCAPE)` truncates
the line to its prefix (text = the first `inputstart` characters,
`inputpos = chars = inputstart`) and the console stays active; if the cursor is
at the prefix, the line list is left as it is and the console is deactivated. -/
theorem C11_escape (s : State) (anyControl : Bool) (head : CONSOLELINE)
    (rest : List CONSOLELINE) (text : List Char)
    (hact : s.s_active = true)
    (hkey : ¬ (KEY.KEY_ESCAPE = s.s_consoleKey ∧ s.s_consoleAccessEnabled = true))
    (hlist : s.s_linelist = head :: rest) (hwf : WellFormed head text)
    (hlive : head.inputpos ≠ 0) :
    (head.inputstart < head.inputpos →
      ∃ s2 line, OnKeyDown KEY.KEY_ESCAPE anyControl false s = some (0, s2) ∧
        s2.s_linelist = line :: rest ∧ line.text = some (text.take head.inputstart) ∧
        line.inputpos = head.inputstart ∧ line.chars = head.inputstart ∧
        line.inputstart = head.inputstart ∧ s2.s_active = true) ∧
    (head.inputpos = head.inputstart →
      ∃ s2, OnKeyDown KEY.KEY_ESCAPE anyControl false s = some (0, s2) ∧
        s2.s_linelist = s.s_linelist ∧ s2.s_active = false) := by
  have hhead : Head s = some head := by simp [Head, hlist]
  have hget : GetInputLine s = some (head.id, s) := GetInputLine_live hhead hlive
  have hgate : ¬ ((false : Bool) = true ∨ (!s.s_active) = true) := by simp [hact]
  constructor
  · intro hpast
    obtain ⟨b, hesc, hcb⟩ := keyEscape_past hlist hwf hpast
    have hrun : OnKeyDown KEY.KEY_ESCAPE anyControl false s =
        some (0, if resetsHighlight KEY.KEY_ESCAPE anyControl then
          ResetHighlight { s with s_linelist :=
            { head with inputpos := head.inputstart, chars := head.inputstart, buffer := b } ::
              rest }
          else { s with s_linelist :=
            { head with inputpos := head.inputstart, chars := head.inputstart, buffer := b } ::
              rest }) := by
      unfold OnKeyDown
      rw [if_neg hkey, if_neg hgate, hget]
      simp only [Option.some_bind, hesc, Option.map_some']
    refine ⟨_, { head with inputpos := head.inputstart, chars := head.inputstart, buffer := b },
      hrun, ?_, hcb, rfl, rfl, rfl, ?_⟩
    · split <;> rfl
    · split <;> exact hact
  · intro hat
    have hesc := keyEscape_at hlist hat
    have hrun : OnKeyDown KEY.KEY_ESCAPE anyControl false s =
        some (0, if resetsHighlight KEY.KEY_ESCAPE anyControl then
          ResetHighlight { s with s_active := false }
          else { s with s_active := false }) := by
      unfold OnKeyDown
      rw [if_neg hkey, if_neg hgate, hget]
      simp only [Option.some_bind, hesc, Option.map_some']
    refine ⟨_, hrun, ?_, ?_⟩
    · split <;> rfl
    · split <;> rfl

theorem C11_escape_witness :
    ∃ s2 line, OnKeyDown KEY.KEY_ESCAPE false false typedConsole = some (0, s2) ∧
      s2.s_linelist = line :: [] ∧ line.text = some ['>', ' '] ∧
      line.inputpos = 2 ∧ line.chars = 2 ∧ line.inputstart = 2 ∧ s2.s_active = true :=
  (C11_escape typedConsole false typedLine [] ['>', ' ', 'h', 'e', 'l', 'p'] rfl (by decide)
    rfl typedLine_wellFormed (by decide)).1 (by decide)

/-! ## History recall -/

/-- `MakeCommandCurrent` on a well-formed line: the text after the prefix is
replaced by the command. -/
theorem MakeCommandCurrent_wellFormed {l : CONSOLELINE} {text : List Char}
    (hwf : WellFormed l text) (hal : Allocated l) (command : List Char) :
    ∃ l2, MakeCommandCurrent l command = some l2 ∧
      WellFormed l2 (text.take l.inputstart ++ cstring command) ∧ Allocated l2 ∧
      l2.inputpos = l.inputstart + (cstring command).length ∧
      l2.chars = l.inputstart + (cstring command).length ∧
      l2.inputstart = l.inputstart ∧ l2.id = l.id := by
  have hst : l.inputstart ≤ text.length := by
    have := hwf.2.1; have := hwf.2.2.1; have := hwf.2.2.2; omega
  obtain ⟨b, hb, hcb, hbl⟩ := poke_nul_some hwf.1 l.inputstart hst
  have htk : (text.take l.inputstart).length = l.inputstart := by simp; omega
  have hwf1 : WellFormed { l with inputpos := l.inputstart, chars := l.inputstart, buffer := b }
      (text.take l.inputstart) := ⟨hcb, htk, Nat.le_refl _, Nat.le_refl _⟩
  have hal1 : Allocated
      { l with inputpos := l.inputstart, chars := l.inputstart, buffer := b } := by
    show b.length = l.charsalloc
    rw [hbl]; exact hal
  obtain ⟨l2, hres, ⟨htext2, hlen2, -, -⟩, hal2, hroom, hpos2, hch2, hst2, -, -⟩ :=
    ReserveInputSpace_wellFormed hwf1 hal1 (cstring command).length
  obtain ⟨hid2, -⟩ := ReserveInputSpace_fields hres
  have hpos2b : l2.inputpos = l.inputstart := hpos2
  have hch2b : l2.chars = l.inputstart := hch2
  have hst2b : l2.inputstart = l.inputstart := hst2
  have hp : poke l2.buffer l2.inputpos (lit (cstring command))
      = some (l2.buffer.take l2.inputpos ++ lit (cstring command) ++
          l2.buffer.drop (l2.inputpos + (lit (cstring command)).length)) :=
    poke_some (by rw [lit_length, hal2]; omega)
  have hcopy : SStrCopy l2.buffer l2.inputpos (lit command) STORM_MAX_STR
      = some (l2.buffer.take l2.inputpos ++ lit (cstring command) ++
          l2.buffer.drop (l2.inputpos + (lit (cstring command)).length)) := by
    unfold SStrCopy readStr
    rw [if_pos rfl, cstr_lit, Option.some_bind, hp]
  have hc : cstr (l2.buffer.take l2.inputpos ++ lit (cstring command) ++
      l2.buffer.drop (l2.inputpos + (lit (cstring command)).length))
        = some (text.take l.inputstart ++ cstring command) := by
    have hpe : l2.inputpos = (text.take l.inputstart).length := by rw [htk]; exact hpos2b
    rw [hpe] at hp
    have := cstr_poke_end htext2 (not_mem_cstring command) hp
    rw [hpe]
    exact this
  refine ⟨{ l2 with
      buffer := l2.buffer.take l2.inputpos ++ lit (cstring command) ++
        l2.buffer.drop (l2.inputpos + (lit (cstring command)).length),
      inputpos := l2.inputpos + (cstring command).length,
      chars := l2.inputpos + (cstring command).length }, ?_, ⟨hc, ?_, ?_, ?_⟩, ?_, ?_, ?_,
    hst2b, hid2⟩
  · unfold MakeCommandCurrent
    simp only
    rw [hb, Option.some_bind, hres, Option.some_bind, hcopy]
    rfl
  · show (text.take l.inputstart ++ cstring command).length
      = l2.inputpos + (cstring command).length
    rw [List.length_append, htk, hpos2b]
  · show l2.inputstart ≤ l2.inputpos + (cstring command).length
    omega
  · show l2.inputpos + (cstring command).length ≤ l2.inputpos + (cstring command).length
    omega
  · show (l2.buffer.take l2.inputpos ++ lit (cstring command) ++
      l2.buffer.drop (l2.inputpos + (lit (cstring command)).length)).length = l2.charsalloc
    rw [← hal2]
    exact poke_length hp
  · show l2.inputpos + (cstring command).length = _
    rw [hpos2b]
  · show l2.inputpos + (cstring command).length = _
    rw [hpos2b]

/-- `CONSOLELINE::Up` when there is an older entry `e`. -/
theorem Up_recalls {s : State} {head : CONSOLELINE} {rest : List CONSOLELINE}
    {text e : List Char} (hlist : s.s_linelist = head :: rest) (hwf : WellFormed head text)
    (hal : Allocated head)
    (hne : s.s_historyIndex ≠ ConsoleCommandHistoryDepth s - 1)
    (he : ConsoleCommandHistory s (s.s_historyIndex + 1) = some e) :
    ∃ line, CONSOLELINE.Up head.id s =
        some { s with s_linelist := line :: rest, s_historyIndex := s.s_historyIndex + 1 } ∧
      WellFormed line (text.take head.inputstart ++ cstring e) ∧ Allocated line ∧
      line.inputpos = head.inputstart + (cstring e).length ∧
      line.chars = head.inputstart + (cstring e).length ∧
      line.inputstart = head.inputstart ∧ line.id = head.id := by
  obtain ⟨line, hm, hw, ha, hp, hc, hs, hi⟩ := MakeCommandCurrent_wellFormed hwf hal e
  refine ⟨line, ?_, hw, ha, hp, hc, hs, hi⟩
  unfold CONSOLELINE.Up
  rw [if_pos hne]
  simp only [he, hlist, updateLine_head, hm, Option.map_some']

/-- `CONSOLELINE::Down` when the index is not -1; `e` is the entry recalled,
the empty string when the index was 0. -/
theorem Down_recalls {s : State} {head : CONSOLELINE} {rest : List CONSOLELINE}
    {text e : List Char} (hlist : s.s_linelist = head :: rest) (hwf : WellFormed head text)
    (hal : Allocated head) (hne : s.s_historyIndex ≠ -1)
    (he : (if s.s_historyIndex ≠ 0 then ConsoleCommandHistory s (s.s_historyIndex - 1)
      else some []) = some e) :
    ∃ line, CONSOLELINE.Down head.id s =
        some { s with s_linelist := line :: rest, s_historyIndex := s.s_historyIndex - 1 } ∧
      WellFormed line (text.take head.inputstart ++ cstring e) ∧ Allocated line ∧
      line.inputpos = head.inputstart + (cstring e).length ∧
      line.chars = head.inputstart + (cstring e).length ∧
      line.inputstart = head.inputstart ∧ line.id = head.id := by
  obtain ⟨line, hm, hw, ha, hp, hc, hs, hi⟩ := MakeCommandCurrent_wellFormed hwf hal e
  refine ⟨line, ?_, hw, ha, hp, hc, hs, hi⟩
  unfold CONSOLELINE.Down
  rw [if_pos hne]
  simp only [he, hlist, updateLine_head, hm, Option.map_some']

/-! ## C13 -/

/-- C13: `CONSOLELINE::Up` with the history index at `depth - 1` and
`CONSOLELINE::Down` with the index at -1 return normally and leave the whole
state (history index, input line text, length and cursor) as it was. -/
theorem C13_out_of_range_noop (s : State) (this : Nat) :
    (s.s_historyIndex = ConsoleCommandHistoryDepth s - 1 → CONSOLELINE.Up this s = some s) ∧
    (s.s_historyIndex = -1 → CONSOLELINE.Down this s = some s) := by
  constructor
  · intro h
    unfold CONSOLELINE.Up
    rw [if_neg (by simp [h])]
  · intro h
    unfold CONSOLELINE.Down
    rw [if_neg (by simp [h])]

theorem C13_out_of_range_noop_witness :
    CONSOLELINE.Up 1 historyConsole = some historyConsole ∧
      CONSOLELINE.Down 1 liveConsole = some liveConsole :=
  ⟨(C13_out_of_range_noop historyConsole 1).1 (by decide),
    (C13_out_of_range_noop liveConsole 1).2 (by decide)⟩

/-! ## C14 -/

theorem take_prefix_append (text x : List Char) (n : Nat) (h : n ≤ text.length) :
    (text.take n ++ x).take n = text.take n := by
  rw [List.take_append_of_le_length (by simp; omega), List.take_take]
  simp

/-- C14: on a well-formed input line in an allocated buffer, when `Up` (the
index not at `depth - 1`) or `Down` (the index not at -1) recalls the entry
`e` (for `Down` at index 0 the empty string), the prefix length and the first
`inputstart` characters stay as they were, the text becomes prefix ++ `e`, the
cursor and the length become `inputstart + len(e)`, and the index moves by +1
for `Up` and by -1 for `Down`. -/
theorem C14_recall_replaces_suffix (s : State) (head : CONSOLELINE) (rest : List CONSOLELINE)
    (text e : List Char) (hlist : s.s_linelist = head :: rest) (hwf : WellFormed head text)
    (hal : Allocated head) (hnul : NUL ∉ e) :
    (s.s_historyIndex ≠ ConsoleCommandHistoryDepth s - 1 →
      ConsoleCommandHistory s (s.s_historyIndex + 1) = some e →
      ∃ s2 line, CONSOLELINE.Up head.id s = some s2 ∧ s2.s_linelist = line :: rest ∧
        line.text = some (text.take head.inputstart ++ e) ∧
        (text.take head.inputstart ++ e).take head.inputstart = text.take head.inputstart ∧
        line.inputstart = head.inputstart ∧
        line.inputpos = head.inputstart + e.length ∧ line.chars = head.inputstart + e.length ∧
        s2.s_historyIndex = s.s_historyIndex + 1) ∧
    (s.s_historyIndex ≠ -1 →
      (if s.s_historyIndex ≠ 0 then ConsoleCommandHistory s (s.s_historyIndex - 1)
        else some []) = some e →
      ∃ s2 line, CONSOLELINE.Down head.id s = some s2 ∧ s2.s_linelist = line :: rest ∧
        line.text = some (text.take head.inputstart ++ e) ∧
        (text.take head.inputstart ++ e).take head.inputstart = text.take head.inputstart ∧
        line.inputstart = head.inputstart ∧
        line.inputpos = head.inputstart + e.length ∧ line.chars = head.inputstart + e.length ∧
        s2.s_historyIndex = s.s_historyIndex - 1) := by
  have hst : head.inputstart ≤ text.length := by
    have := hwf.2.1; have := hwf.2.2.1; have := hwf.2.2.2; omega
  have hce := cstring_eq_self hnul
  constructor
  · intro hne he
    obtain ⟨line, hup, hw, -, hp, hc, hs, -⟩ := Up_recalls hlist hwf hal hne he
    rw [hce] at hw hp hc
    exact ⟨_, line, hup, rfl, hw.1, take_prefix_append _ _ _ hst, hs, hp, hc, rfl⟩
  · intro hne he
    obtain ⟨line, hdn, hw, -, hp, hc, hs, -⟩ := Down_recalls hlist hwf hal hne he
    rw [hce] at hw hp hc
    exact ⟨_, line, hdn, rfl, hw.1, take_prefix_append _ _ _ hst, hs, hp, hc, rfl⟩

theorem typedLine_allocated : Allocated typedLine := by
  unfold Allocated
  decide

theorem C14_recall_replaces_suffix_witness :
    ∃ s2 line, CONSOLELINE.Down typedLine.id historyConsole = some s2 ∧
      s2.s_linelist = line :: [] ∧
      line.text = some ['>', ' ', 'b'] ∧
      (['>', ' ', 'b'] : List Char).take 2 = ['>', ' '] ∧
      line.inputstart = 2 ∧ line.inputpos = 3 ∧ line.chars = 3 ∧
      s2.s_historyIndex = 1 :=
  (C14_recall_replaces_suffix historyConsole typedLine [] ['>', ' ', 'h', 'e', 'l', 'p'] ['b']
    rfl typedLine_wellFormed typedLine_allocated (by decide)).2 (by decide) (by decide)

/-! ## C12 -/

theorem history_entry {s : State} {i : Int} (h0 : 0 ≤ i) (hlt : i < (s.history.length : Int)) :
    ∃ e, ConsoleCommandHistory s i = some e := by
  unfold ConsoleCommandHistory
  rw [if_neg (by omega)]
  have : i.toNat < s.history.length := by omega
  exact ⟨s.history[i.toNat], by simp [List.getElem?_eq_getElem this]⟩

theorem hist_ups (ptr start : Nat) (rest : List CONSOLELINE) (hist : List (List Char))
    (k : Nat) : ∀ (s : State) (t : List Char) (i : Int),
    HistInv ptr start rest hist s t → s.s_historyIndex = i → -1 ≤ i →
    i + (k : Int) ≤ (hist.length : Int) - 1 →
    ∃ s2 t2, repeatOp (CONSOLELINE.Up ptr) k s = some s2 ∧ HistInv ptr start rest hist s2 t2 ∧
      s2.s_historyIndex = i + (k : Int) ∧ t2.take start = t.take start := by
  induction k with
  | zero =>
    intro s t i hinv hi _ _
    exact ⟨s, t, rfl, hinv, by simpa using hi, rfl⟩
  | succ k ih =>
    intro s t i hinv hi hlo hhi
    obtain ⟨head, hlist, hid, hstart, hwf, hal, hh⟩ := hinv
    have hst : head.inputstart ≤ t.length := by
      have := hwf.2.1; have := hwf.2.2.1; have := hwf.2.2.2; omega
    have hne : s.s_historyIndex ≠ ConsoleCommandHistoryDepth s - 1 := by
      unfold ConsoleCommandHistoryDepth
      rw [hh, hi]
      push_cast at hhi ⊢
      omega
    obtain ⟨e, he⟩ := history_entry (s := s) (i := s.s_historyIndex + 1)
      (by omega) (by rw [hh, hi]; push_cast at hhi ⊢; omega)
    obtain ⟨line, hup, hw, ha, -, -, hs, hlid⟩ := Up_recalls hlist hwf hal hne he
    rw [hid] at hup
    have hinv1 : HistInv ptr start rest hist
        { s with s_linelist := line :: rest, s_historyIndex := s.s_historyIndex + 1 }
        (t.take head.inputstart ++ cstring e) :=
      ⟨line, rfl, by rw [hlid, hid], by rw [hs, hstart], hw, ha, hh⟩
    obtain ⟨s2, t2, h2, hinv2, hi2, ht2⟩ := ih _ _ (i + 1) hinv1 (by simp [hi]) (by omega)
      (by push_cast at hhi ⊢; omega)
    refine ⟨s2, t2, ?_, hinv2, ?_, ?_⟩
    · simp only [repeatOp, hup, Option.some_bind]
      exact h2
    · rw [hi2]; push_cast; omega
    · rw [ht2, ← hstart]
      exact take_prefix_append _ _ _ hst

theorem hist_downs (ptr start : Nat) (rest : List CONSOLELINE) (hist : List (List Char))
    (k : Nat) : ∀ (s : State) (t : List Char) (i : Int),
    HistInv ptr start rest hist s t → s.s_historyIndex = i → (k : Int) ≤ i + 1 →
    i ≤ (hist.length : Int) - 1 →
    ∃ s2 t2, repeatOp (CONSOLELINE.Down ptr) k s = some s2 ∧
      HistInv ptr start rest hist s2 t2 ∧
      s2.s_historyIndex = i - (k : Int) ∧ t2.take start = t.take start ∧
      (1 ≤ k → i - (k : Int) = -1 → t2 = t.take start) := by
  induction k with
  | zero =>
    intro s t i hinv hi _ _
    exact ⟨s, t, rfl, hinv, by simpa using hi, rfl, fun h => absurd h (by omega)⟩
  | succ k ih =>
    intro s t i hinv hi hlo hhi
    obtain ⟨head, hlist, hid, hstart, hwf, hal, hh⟩ := hinv
    have hst : head.inputstart ≤ t.length := by
      have := hwf.2.1; have := hwf.2.2.1; have := hwf.2.2.2; omega
    have hne : s.s_historyIndex ≠ -1 := by
      rw [hi]; push_cast at hlo; omega
    obtain ⟨e, he, he0⟩ : ∃ e, (if s.s_historyIndex ≠ 0
        then ConsoleCommandHistory s (s.s_historyIndex - 1) else some []) = some e ∧
        (s.s_historyIndex = 0 → e = []) := by
      by_cases h0 : s.s_historyIndex = 0
      · exact ⟨[], by rw [if_neg (by simp [h0])], fun _ => rfl⟩
      · obtain ⟨e, he⟩ := history_entry (s := s) (i := s.s_historyIndex - 1)
          (by rw [hi] at h0 ⊢; push_cast at hlo; omega) (by rw [hh, hi]; omega)
        exact ⟨e, by rw [if_pos h0]; exact he, fun h => absurd h h0⟩
    obtain ⟨line, hdn, hw, ha, -, -, hs, hlid⟩ := Down_recalls hlist hwf hal hne he
    rw [hid] at hdn
    have hinv1 : HistInv ptr start rest hist
        { s with s_linelist := line :: rest, s_historyIndex := s.s_historyIndex - 1 }
        (t.take head.inputstart ++ cstring e) :=
      ⟨line, rfl, by rw [hlid, hid], by rw [hs, hstart], hw, ha, hh⟩
    have hpre : (t.take head.inputstart ++ cstring e).take start = t.take start := by
      rw [← hstart]
      exact take_prefix_append _ _ _ hst
    by_cases hk : k = 0
    · subst hk
      refine ⟨_, _, ?_, hinv1, ?_, hpre, ?_⟩
      · simp only [repeatOp, hdn, Option.some_bind]
      · show s.s_historyIndex - 1 = _
        rw [hi]; push_cast; omega
      · intro _ hm
        have h0 : s.s_historyIndex = 0 := by rw [hi]; push_cast at hm; omega
        rw [he0 h0, hstart]
        simp [cstring]
    · obtain ⟨s2, t2, h2, hinv2, hi2, ht2, hlast⟩ := ih _ _ (i - 1) hinv1 (by simp [hi])
        (by push_cast at hlo ⊢; omega) (by omega)
      refine ⟨s2, t2, ?_, hinv2, ?_, ?_, ?_⟩
      · simp only [repeatOp, hdn, Option.some_bind]
        exact h2
      · rw [hi2]; push_cast; omega
      · rw [ht2, hpre]
      · intro _ hm
        rw [hlast (by omega) (by push_cast at hm ⊢; omega), hpre]

/-- C12: on a well-formed input line in an allocated buffer, with a history of
depth `d ≥ 1` (entries `0..d-1`) and the history index at -1, `d` calls of
`CONSOLELINE::Up` followed by `d` calls of `CONSOLELINE::Down` are all defined
and end with the history index at -1 and the input line holding exactly its
prefix (cursor and length at `inputstart`). -/
theorem C12_history_round_trip (s : State) (head : CONSOLELINE) (rest : List CONSOLELINE)
    (text : List Char) (hlist : s.s_linelist = head :: rest) (hwf : WellFormed head text)
    (hal : Allocated head) (hidx : s.s_historyIndex = -1) (hd : 1 ≤ s.history.length) :
    ∃ s2 line,
      (repeatOp (CONSOLELINE.Up head.id) s.history.length s).bind
        (repeatOp (CONSOLELINE.Down head.id) s.history.length) = some s2 ∧
      s2.s_historyIndex = -1 ∧ s2.s_linelist = line :: rest ∧
      line.text = some (text.take head.inputstart) ∧
      line.inputstart = head.inputstart ∧ line.inputpos = head.inputstart ∧
      line.chars = head.inputstart := by
  have hst : head.inputstart ≤ text.length := by
    have := hwf.2.1; have := hwf.2.2.1; have := hwf.2.2.2; omega
  have hinv : HistInv head.id head.inputstart rest s.history s text :=
    ⟨head, hlist, rfl, rfl, hwf, hal, rfl⟩
  obtain ⟨s1, t1, h1, hinv1, hi1, ht1⟩ :=
    hist_ups head.id head.inputstart rest s.history s.history.length s text (-1) hinv hidx
      (by omega) (by omega)
  obtain ⟨s2, t2, h2, hinv2, hi2, -, hlast⟩ :=
    hist_downs head.id head.inputstart rest s.history s.history.length s1 t1
      (-1 + (s.history.length : Int)) hinv1 hi1 (by omega) (by omega)
  obtain ⟨line, hl2, -, hstart2, hw2, -, -⟩ := hinv2
  have ht2 : t2 = text.take head.inputstart := by
    rw [hlast hd (by omega), ht1]
  have hlen : t2.length = head.inputstart := by rw [ht2]; simp; omega
  refine ⟨s2, line, ?_, ?_, hl2, ?_, hstart2, ?_, ?_⟩
  · rw [h1, Option.some_bind]
    exact h2
  · rw [hi2]; omega
  · rw [hw2.1, ht2]
  · have := hw2.2.1; have := hw2.2.2.1; have := hw2.2.2.2; omega
  · have := hw2.2.1; omega

theorem C12_history_round_trip_witness :
    ∃ s2 line,
      (repeatOp (CONSOLELINE.Up typedLine.id) 3 { historyConsole with s_historyIndex := -1 }).bind
        (repeatOp (CONSOLELINE.Down typedLine.id) 3) = some s2 ∧
      s2.s_historyIndex = -1 ∧ s2.s_linelist = line :: [] ∧
      line.text = some ['>', ' '] ∧
      line.inputstart = 2 ∧ line.inputpos = 2 ∧ line.chars = 2 :=
  C12_history_round_trip { historyConsole with s_historyIndex := -1 } typedLine []
    ['>', ' ', 'h', 'e', 'l', 'p'] rfl typedLine_wellFormed typedLine_allocated rfl (by decide)

/-! ## C15 -/

theorem UpdateHighlight_indices (measure : Measure) {s : State} {text : List Char}
    (hsnap : cstr s.s_copyText = some text) :
    ∃ s2, UpdateHighlight measure s = some s2 ∧
      s2.s_highlightLeftCharIndex
        = (measure text (min s.s_highlightHStart s.s_highlightHEnd) text.length).1 ∧
      s2.s_highlightRightCharIndex
        = (measure text (max s.s_highlightHStart s.s_highlightHEnd) text.length).1 ∧
      s2.s_highlightState = s.s_highlightState := by
  unfold UpdateHighlight
  rw [hsnap, Option.map_some']
  refine ⟨_, rfl, ?_, rfl, ?_⟩
  · simp only
    split <;> split <;> rfl
  · simp only
    split <;> split <;> rfl

/-- C15: for every snapshot that is a terminated string, every anchor and
cursor value and every measurement that is monotonic in the width,
`UpdateHighlight` is defined and leaves `left_index ≤ right_index`; with anchor
and cursor swapped it yields the same two indices. -/
theorem C15_selection_normalized (measure : Measure) (s : State) (text : List Char)
    (hmono : ∀ (t : List Char) (n : Nat) (w1 w2 : Rat), w1 ≤ w2 →
      (measure t w1 n).1 ≤ (measure t w2 n).1)
    (hsnap : cstr s.s_copyText = some text) :
    ∃ s2 s3, UpdateHighlight measure s = some s2 ∧
      UpdateHighlight measure (swapAnchor s) = some s3 ∧
      s2.s_highlightLeftCharIndex ≤ s2.s_highlightRightCharIndex ∧
      s3.s_highlightLeftCharIndex = s2.s_highlightLeftCharIndex ∧
      s3.s_highlightRightCharIndex = s2.s_highlightRightCharIndex := by
  obtain ⟨s2, h2, hl2, hr2, -⟩ := UpdateHighlight_indices measure hsnap
  obtain ⟨s3, h3, hl3, hr3, -⟩ :=
    UpdateHighlight_indices measure (show cstr (swapAnchor s).s_copyText = some text from hsnap)
  refine ⟨s2, s3, h2, h3, ?_, ?_, ?_⟩
  · rw [hl2, hr2]
    exact hmono _ _ _ _ (le_trans (min_le_left _ _) (le_max_left _ _))
  · rw [hl3, hl2]
    show (measure text (min s.s_highlightHEnd s.s_highlightHStart) text.length).1 = _
    rw [min_comm]
  · rw [hr3, hr2]
    show (measure text (max s.s_highlightHEnd s.s_highlightHStart) text.length).1 = _
    rw [max_comm]

theorem allOrNothing_mono (t : List Char) (n : Nat) (w1 w2 : Rat) (h : w1 ≤ w2) :
    (allOrNothing t w1 n).1 ≤ (allOrNothing t w2 n).1 := by
  unfold allOrNothing
  by_cases h2 : w2 ≤ 0
  · have h1 : w1 ≤ 0 := le_trans h h2
    simp [h1, h2]
  · by_cases h1 : w1 ≤ 0 <;> simp [h1, h2]

theorem C15_selection_normalized_witness :
    ∃ s2 s3, UpdateHighlight allOrNothing { State.init with s_highlightHStart := 1 } = some s2 ∧
      UpdateHighlight allOrNothing (swapAnchor { State.init with s_highlightHStart := 1 })
        = some s3 ∧
      s2.s_highlightLeftCharIndex ≤ s2.s_highlightRightCharIndex ∧
      s3.s_highlightLeftCharIndex = s2.s_highlightLeftCharIndex ∧
      s3.s_highlightRightCharIndex = s2.s_highlightRightCharIndex :=
  C15_selection_normalized allOrNothing { State.init with s_highlightHStart := 1 } []
    allOrNothing_mono (by decide)

/-! ## C16 -/

set_option maxRecDepth 100000 in
/-- C16 at the failing input: with the snapshot `"hello"`, `left_index = 0` and
`right_index = 5`, `size` is 5 and `SStrCopy(buffer, &s_copyText[0], 5)` takes
5 as the size of the destination: it copies 4 characters and terminates them,
and `buffer[5] = 0` follows.  The buffer reads `"hell"`, 4 bytes and not
`min(right_index - left_index, 127) = 5`. -/
theorem C16_cut_copies_one_less :
    (helloSelection.s_copyText.length = 128 ∧ cstr helloSelection.s_copyText
        = some ['h', 'e', 'l', 'l', 'o']) ∧
      (cutBuffer helloSelection).bind cstr = some ['h', 'e', 'l', 'l'] ∧
      (cutBuffer helloSelection).map (fun b => b.get? 5) = some (some (some NUL)) := by
  decide

/-! ## The selection state under the operations of the editor -/

theorem EnforceMaxLines_hl {s s2 : State} (h : EnforceMaxLines s = some s2) :
    s2.s_highlightState = s.s_highlightState := by
  unfold EnforceMaxLines at h
  split at h
  · injection h with h; rw [← h]
  · split at h
    · injection h with h; rw [← h]
    · split at h
      · injection h with h; rw [← h]
      · simp at h

theorem newInputLine_hl {s : State} {r : Nat × State} (h : newInputLine s = some r) :
    r.2.s_highlightState = s.s_highlightState := by
  rw [newInputLine_eq] at h
  simp only [Option.map_eq_some'] at h
  obtain ⟨s1, h1, rfl⟩ := h
  have := EnforceMaxLines_hl h1
  exact this

theorem GetInputLine_hl {s : State} {r : Nat × State} (h : GetInputLine s = some r) :
    r.2.s_highlightState = s.s_highlightState := by
  unfold GetInputLine at h
  split at h
  · exact newInputLine_hl h
  · split at h
    · exact newInputLine_hl h
    · injection h with h
      rw [← h]

theorem PasteInInputLine_hl {s s2 : State} {cs : List Char}
    (h : PasteInInputLine cs s = some s2) : s2.s_highlightState = s.s_highlightState := by
  unfold PasteInInputLine at h
  simp only at h
  split at h
  · injection h with h; rw [← h]
  · simp only [Option.bind_eq_some, Option.map_eq_some'] at h
    obtain ⟨r, hr, ls, -, rfl⟩ := h
    exact GetInputLine_hl hr

theorem keyEscape_hl {s s2 : State} {ptr : Nat} (h : keyEscape ptr s = some s2) :
    s2.s_highlightState = s.s_highlightState := by
  unfold keyEscape at h
  simp only [Option.bind_eq_some] at h
  obtain ⟨line, -, h⟩ := h
  split at h
  · injection h with h; rw [← h]
  · simp only [Option.map_eq_some'] at h
    obtain ⟨ls, -, rfl⟩ := h
    rfl

theorem keyEnter_hl {s s2 : State} {ptr : Nat} (h : keyEnter ptr s = some s2) :
    s2.s_highlightState = s.s_highlightState := by
  unfold keyEnter at h
  simp only [Option.bind_eq_some] at h
  obtain ⟨line, -, h⟩ := h
  split at h
  · simp only [Option.bind_eq_some, Option.map_eq_some'] at h
    obtain ⟨ls, -, cmd, -, rfl⟩ := h
    rfl
  · injection h with h; rw [← h]

theorem MoveLinePtr_hl {s s2 : State} {direction : Int} {anyControl : Bool}
    (h : MoveLinePtr direction anyControl s = some s2) :
    s2.s_highlightState = s.s_highlightState := by
  unfold MoveLinePtr at h
  simp only [Option.map_eq_some'] at h
  obtain ⟨lineptr, -, rfl⟩ := h
  split <;> rfl

theorem Up_hl {s s2 : State} {this : Nat} (h : CONSOLELINE.Up this s = some s2) :
    s2.s_highlightState = s.s_highlightState := by
  unfold CONSOLELINE.Up at h
  split at h
  · simp only at h
    split at h
    · simp only [Option.map_eq_some'] at h
      obtain ⟨ls, -, rfl⟩ := h
      rfl
    · injection h with h; rw [← h]
  · injection h with h; rw [← h]

theorem Down_hl {s s2 : State} {this : Nat} (h : CONSOLELINE.Down this s = some s2) :
    s2.s_highlightState = s.s_highlightState := by
  unfold CONSOLELINE.Down at h
  split at h
  · simp only at h
    split at h
    · injection h with h; rw [← h]
    · simp only [Option.map_eq_some'] at h
      obtain ⟨ls, -, rfl⟩ := h
      rfl
  · injection h with h; rw [← h]

theorem UpdateHighlight_hl {measure : Measure} {s s2 : State}
    (h : UpdateHighlight measure s = some s2) :
    s2.s_highlightState = s.s_highlightState := by
  unfold UpdateHighlight at h
  simp only [Option.map_eq_some'] at h
  obtain ⟨text, -, rfl⟩ := h
  simp only
  split <;> split <;> rfl

theorem CutHighlightToClipboard_reset {s s2 : State}
    (h : CutHighlightToClipboard s = some s2) : s2 = ResetHighlight s := by
  unfold CutHighlightToClipboard at h
  split at h
  · simp only [Option.map_eq_some'] at h
    obtain ⟨b, -, rfl⟩ := h
    rfl
  · injection h with h; rw [← h]

theorem HlStep_refl (s : State) : HlStep s s := Or.inl rfl

theorem HlStep_of_eq {s s2 : State} (h : s2.s_highlightState = s.s_highlightState) :
    HlStep s s2 := Or.inl h

theorem HlStep_reset (s s2 : State) : HlStep s (ResetHighlight s2) := Or.inr ⟨rfl, rfl⟩

theorem updateHead_hl {s1 s3 : State} {ptr : Nat} {f : CONSOLELINE → Option CONSOLELINE}
    (h : (updateLine ptr f s1.s_linelist).map (fun ls => { s1 with s_linelist := ls })
      = some s3) :
    s3.s_highlightState = s1.s_highlightState := by
  simp only [Option.map_eq_some'] at h
  obtain ⟨ls, -, rfl⟩ := h
  rfl

theorem OnChar_step {ch : Char} {hotKeyDown : Bool} {s : State} {r : Int × State}
    (h : OnChar ch hotKeyDown s = some r) : HlStep s r.2 := by
  unfold OnChar at h
  split at h
  · injection h with h
    subst h
    exact HlStep_refl _
  · split at h
    · simp only [Option.map_eq_some'] at h
      obtain ⟨s2, -, rfl⟩ := h
      exact HlStep_reset _ _
    · injection h with h
      subst h
      exact HlStep_refl _

theorem OnKeyDown_step {key : KEY} {anyControl hotKeyDown : Bool} {s : State}
    {r : Int × State} (h : OnKeyDown key anyControl hotKeyDown s = some r) : HlStep s r.2 := by
  unfold OnKeyDown at h
  split at h
  · injection h with h
    subst h
    simp only
    split
    · exact HlStep_reset _ _
    · exact Or.inl rfl
  · split at h
    · injection h with h
      subst h
      exact HlStep_refl _
    · simp only [Option.bind_eq_some, Option.map_eq_some'] at h
      obtain ⟨g, hg, s3, hm, rfl⟩ := h
      have hg2 := GetInputLine_hl hg
      simp only
      split
      · exact HlStep_reset _ _
      · have h3 : s3.s_highlightState = g.2.s_highlightState ∨ s3 = ResetHighlight g.2 := by
          cases key <;> simp only at hm
          all_goals first
            | exact Or.inl (keyEscape_hl hm)
            | exact Or.inl (MoveLinePtr_hl hm)
            | exact Or.inl (keyEnter_hl hm)
            | exact Or.inl (Up_hl hm)
            | exact Or.inl (Down_hl hm)
            | exact Or.inl (updateHead_hl hm)
            | (injection hm with hm; exact Or.inl (by rw [← hm]))
            | (split at hm
               · exact Or.inr (CutHighlightToClipboard_reset hm)
               · injection hm with hm; exact Or.inl (by rw [← hm]))
            | (split at hm
               · injection hm with hm; exact Or.inl (by rw [← hm]; rfl)
               · injection hm with hm; exact Or.inl (by rw [← hm]))
        rcases h3 with h3 | h3
        · exact Or.inl (h3.trans hg2)
        · rw [h3]; exact HlStep_reset _ _

theorem OnKeyDownRepeat_step {key : KEY} {anyControl : Bool} {s : State}
    {r : Int × State} (h : OnKeyDownRepeat key anyControl s = some r) : HlStep s r.2 := by
  unfold OnKeyDownRepeat at h
  split at h
  · injection h with h
    subst h
    exact Or.inl rfl
  · simp only [Option.bind_eq_some, Option.map_eq_some'] at h
    obtain ⟨g, hg, s3, hm, rfl⟩ := h
    have hg2 := GetInputLine_hl hg
    simp only
    split
    · exact HlStep_reset _ _
    · have h3 : s3.s_highlightState = g.2.s_highlightState := by
        cases key <;> simp only at hm
        all_goals first
          | exact MoveLinePtr_hl hm
          | exact updateHead_hl hm
          | (injection hm with hm; rw [← hm])
      exact Or.inl (h3.trans hg2)

theorem OnMouseMove_step {measure : Measure} {x y : Rat} {hotKeyDown : Bool} {s : State}
    {r : Int × State} (h : OnMouseMove measure x y hotKeyDown s = some r) :
    r.2.s_highlightState = s.s_highlightState := by
  unfold OnMouseMove at h
  split at h
  · injection h with h
    subst h
    rfl
  · simp only at h
    split at h
    · injection h with h
      subst h
      rfl
    · rename_i s1 hres
      have hs1 : s1.s_highlightState = s.s_highlightState := by
        split at hres
        · injection hres with hres; rw [← hres]
        · split at hres
          · simp at hres
          · injection hres with hres; rw [← hres]
      split at h
      · simp only [Option.map_eq_some'] at h
        obtain ⟨s3, h3, rfl⟩ := h
        have := UpdateHighlight_hl h3
        exact this.trans hs1
      · injection h with h
        subst h
        exact hs1

theorem OnMouseUp_step {hotKeyDown : Bool} {s : State} {r : Int × State}
    (h : OnMouseUp hotKeyDown s = some r) :
    r.2.s_highlightState = s.s_highlightState ∨
      (r.2.s_highlightState = HIGHLIGHTSTATE.HS_ENDHIGHLIGHT ∧ hotKeyDown = false ∧
        s.s_active = true) := by
  unfold OnMouseUp at h
  split at h
  · injection h with h
    subst h
    exact Or.inl rfl
  · rename_i hg
    injection h with h
    subst h
    refine Or.inr ⟨rfl, ?_, ?_⟩
    · cases hotKeyDown <;> simp at hg ⊢
    · cases hs : s.s_active <;> simp [hs] at hg ⊢

theorem OnMouseDown_step {measure : Measure} {y : Rat} {hotKeyDown : Bool} {s : State}
    {r : Int × State} (h : OnMouseDown measure y hotKeyDown s = some r) :
    HlStep s r.2 ∨
      (r.2.s_highlightState = HIGHLIGHTSTATE.HS_HIGHLIGHTING ∧
        ∃ ptr, GetLineAtMousePosition y (ResetHighlight s) = some (some ptr)) := by
  unfold OnMouseDown at h
  simp only at h
  split at h
  · injection h with h
    subst h
    exact Or.inl (HlStep_refl _)
  · split at h
    · simp only [Option.bind_eq_some] at h
      obtain ⟨line, hline, h⟩ := h
      cases line with
      | none =>
        simp only [ResetHighlightCopyText, Option.map_eq_some'] at h
        obtain ⟨s2, ⟨b, -, rfl⟩, rfl⟩ := h
        exact Or.inl (Or.inr ⟨rfl, rfl⟩)
      | some ptr =>
        simp only [Option.bind_eq_some, Option.map_eq_some'] at h
        obtain ⟨l, -, s2, hs2, s5, h5, rfl⟩ := h
        refine Or.inr ⟨?_, ptr, hline⟩
        exact UpdateHighlight_hl h5
    · injection h with h
      subst h
      exact Or.inl (Or.inr ⟨rfl, rfl⟩)

/-! ## C17 -/

/-- C17 as stated fails: with the console active and the selection state `None`,
a pointer-up sets the state to `Ended`; `OnMouseUp` does not look at the state
it leaves. -/
theorem C17_counterexample :
    liveConsole.s_highlightState = HIGHLIGHTSTATE.HS_NONE ∧
      (OnMouseUp false liveConsole).map (fun r => r.2.s_highlightState)
        = some HIGHLIGHTSTATE.HS_ENDHIGHLIGHT := by
  decide

/-- C17 (amended): for every event handled by the console (char, key down, key
repeat, key up, pointer down, move, up), the selection state becomes `Selecting`
only by a pointer-down for which `GetLineAtMousePosition` finds a line, becomes
`Ended` only by a pointer-up handled with the console active and the hotkey up,
and becomes `None` only by a reset (the highlight rectangle is zero afterwards).
A pointer-up handled with the console active sets `Ended` whatever the state
was, `None` and `Ended` included. -/
theorem C17_selection_transitions (measure : Measure) (ev : ConsoleEvent) (s : State)
    (r : Int × State) (h : handle measure ev s = some r) :
    (r.2.s_highlightState = HIGHLIGHTSTATE.HS_HIGHLIGHTING →
      s.s_highlightState ≠ HIGHLIGHTSTATE.HS_HIGHLIGHTING →
      ∃ y hotKeyDown ptr, ev = ConsoleEvent.mouseDown y hotKeyDown ∧
        GetLineAtMousePosition y (ResetHighlight s) = some (some ptr)) ∧
    (r.2.s_highlightState = HIGHLIGHTSTATE.HS_ENDHIGHLIGHT →
      s.s_highlightState ≠ HIGHLIGHTSTATE.HS_ENDHIGHLIGHT →
      ev = ConsoleEvent.mouseUp false ∧ s.s_active = true) ∧
    (r.2.s_highlightState = HIGHLIGHTSTATE.HS_NONE →
      s.s_highlightState ≠ HIGHLIGHTSTATE.HS_NONE → r.2.s_hRect = zeroRect) ∧
    (s.s_active = true →
      (handle measure (ConsoleEvent.mouseUp false) s).map (fun q => q.2.s_highlightState)
        = some HIGHLIGHTSTATE.HS_ENDHIGHLIGHT) := by
  have key : HlStep s r.2 ∨
      (r.2.s_highlightState = HIGHLIGHTSTATE.HS_HIGHLIGHTING ∧
        ∃ y hotKeyDown ptr, ev = ConsoleEvent.mouseDown y hotKeyDown ∧
          GetLineAtMousePosition y (ResetHighlight s) = some (some ptr)) ∨
      (r.2.s_highlightState = HIGHLIGHTSTATE.HS_ENDHIGHLIGHT ∧
        ev = ConsoleEvent.mouseUp false ∧ s.s_active = true) := by
    cases ev with
    | char ch hk => exact Or.inl (OnChar_step h)
    | keyDown key ac hk => exact Or.inl (OnKeyDown_step h)
    | keyRepeat key ac => exact Or.inl (OnKeyDownRepeat_step h)
    | keyUp =>
      simp only [handle, OnKeyUp, Option.some.injEq] at h
      subst h
      exact Or.inl (HlStep_refl _)
    | mouseDown y hk =>
      rcases OnMouseDown_step h with h1 | ⟨h1, ptr, hp⟩
      · exact Or.inl h1
      · exact Or.inr (Or.inl ⟨h1, y, hk, ptr, rfl, hp⟩)
    | mouseMove x y hk => exact Or.inl (Or.inl (OnMouseMove_step h))
    | mouseUp hk =>
      rcases OnMouseUp_step h with h1 | ⟨h1, h2, h3⟩
      · exact Or.inl (Or.inl h1)
      · subst h2
        exact Or.inr (Or.inr ⟨h1, rfl, h3⟩)
  refine ⟨?_, ?_, ?_, ?_⟩
  · intro h1 h2
    rcases key with (hk | ⟨hk, -⟩) | ⟨-, hk⟩ | ⟨hk, -⟩
    · exact absurd (hk ▸ h1) h2
    · rw [hk] at h1; cases h1
    · exact hk
    · rw [hk] at h1; cases h1
  · intro h1 h2
    rcases key with (hk | ⟨hk, -⟩) | ⟨hk, -⟩ | ⟨-, hk⟩
    · exact absurd (hk ▸ h1) h2
    · rw [hk] at h1; cases h1
    · rw [hk] at h1; cases h1
    · exact hk
  · intro h1 h2
    rcases key with (hk | ⟨-, hk⟩) | ⟨hk, -⟩ | ⟨hk, -⟩
    · exact absurd (hk ▸ h1) h2
    · exact hk
    · rw [hk] at h1; cases h1
    · rw [hk] at h1; cases h1
  · intro hact
    simp [handle, OnMouseUp, hact]

theorem C17_selection_transitions_witness :
    ∃ r, handle allOrNothing (ConsoleEvent.char 'x' false) helloSelection = some r ∧
      (r.2.s_highlightState = HIGHLIGHTSTATE.HS_HIGHLIGHTING →
        helloSelection.s_highlightState ≠ HIGHLIGHTSTATE.HS_HIGHLIGHTING →
        ∃ y hotKeyDown ptr, ConsoleEvent.char 'x' false = ConsoleEvent.mouseDown y hotKeyDown ∧
          GetLineAtMousePosition y (ResetHighlight helloSelection) = some (some ptr)) ∧
      (r.2.s_highlightState = HIGHLIGHTSTATE.HS_ENDHIGHLIGHT →
        helloSelection.s_highlightState ≠ HIGHLIGHTSTATE.HS_ENDHIGHLIGHT →
        ConsoleEvent.char 'x' false = ConsoleEvent.mouseUp false ∧
          helloSelection.s_active = true) ∧
      (r.2.s_highlightState = HIGHLIGHTSTATE.HS_NONE →
        helloSelection.s_highlightState ≠ HIGHLIGHTSTATE.HS_NONE → r.2.s_hRect = zeroRect) ∧
      (helloSelection.s_active = true →
        (handle allOrNothing (ConsoleEvent.mouseUp false) helloSelection).map
          (fun q => q.2.s_highlightState) = some HIGHLIGHTSTATE.HS_ENDHIGHLIGHT) :=
  ⟨_, rfl, C17_selection_transitions allOrNothing (ConsoleEvent.char 'x' false) helloSelection _
    rfl⟩

/-! ## C18 -/

theorem idAt_lt {list : List CONSOLELINE} {j : Nat} (h : j < list.length) :
    idAt list j = some (list[j]).id := by
  simp [idAt, List.getElem?_eq_getElem h]

theorem idAt_ge {list : List CONSOLELINE} {j : Nat} (h : list.length ≤ j) :
    idAt list j = none := by
  simp [idAt, List.getElem?_eq_none h]

theorem findIdx_distinct {list : List CONSOLELINE} (hd : DistinctIds list) {i : Nat}
    (hi : i < list.length) :
    list.findIdx? (fun l => decide (l.id = (list[i]).id)) = some i := by
  rw [List.findIdx?_eq_some_iff_getElem]
  refine ⟨hi, by simp, ?_⟩
  intro j hji hp
  simp only [decide_eq_true_eq] at hp
  have hj : j < list.length := Nat.lt_trans hji hi
  have h1 : (list.map (fun l => l.id)).get ⟨j, by simpa using hj⟩
      = (list.map (fun l => l.id)).get ⟨i, by simpa using hi⟩ := by
    simpa using hp
  have h2 := (List.Nodup.get_inj_iff hd).mp h1
  have h3 : j = i := congrArg Fin.val h2
  omega

theorem neighbour_distinct {list : List CONSOLELINE} (hd : DistinctIds list) {i : Nat}
    (hi : i < list.length) (direction : Int) :
    neighbour direction list (list[i]).id =
      some (if direction = 1 then idAt list (i + 1)
        else if i = 0 then none else idAt list (i - 1)) := by
  unfold neighbour
  rw [findIdx_distinct hd hi]
  simp only [idAt]
  split
  · rfl
  · split <;> rfl

theorem moveLoop_next {list : List CONSOLELINE} (hd : DistinctIds list) (n : Nat) :
    ∀ i, i < list.length →
      moveLoop 1 list n (idAt list i) = some (idAt list (i + min n (list.length - 1 - i))) := by
  induction n with
  | zero => intro i _; simp [moveLoop]
  | succ n ih =>
    intro i hi
    rw [idAt_lt hi]
    simp only [moveLoop, neighbour_distinct hd hi, if_pos, Option.some_bind]
    by_cases h1 : i + 1 < list.length
    · rw [idAt_lt h1]
      simp only
      rw [← idAt_lt h1, ih (i + 1) h1]
      congr 2
      omega
    · rw [idAt_ge (by omega)]
      simp only
      rw [← idAt_lt hi, ih i hi]
      congr 2
      omega

theorem moveLoop_prev {list : List CONSOLELINE} (hd : DistinctIds list) {direction : Int}
    (hdir : direction ≠ 1) (n : Nat) :
    ∀ i, i < list.length →
      moveLoop direction list n (idAt list i) = some (idAt list (i - min n i)) := by
  induction n with
  | zero => intro i _; simp [moveLoop]
  | succ n ih =>
    intro i hi
    rw [idAt_lt hi]
    simp only [moveLoop, neighbour_distinct hd hi, if_neg hdir, Option.some_bind]
    by_cases h0 : i = 0
    · subst h0
      simp only [if_true]
      rw [← idAt_lt hi, ih 0 hi]
      simp
    · have h1 : i - 1 < list.length := by omega
      rw [if_neg h0, idAt_lt h1]
      simp only
      rw [← idAt_lt h1, ih (i - 1) h1]
      congr 2
      omega

/-- C18: with the viewport cursor on the line at position `i` of the store (the
lines having distinct addresses), `MoveLinePtr(direction, modifier)` is defined,
leaves the store as it is and moves the cursor by exactly `min(n, k)` lines,
toward the tail (older lines) when `direction == 1` and toward the head
otherwise, where `n` is 10 under a Control modifier and 1 without, and `k` is
the number of lines beyond the cursor in that direction; with `k = 0` the
cursor stays. -/
theorem C18_move_line_ptr (s : State) (direction : Int) (anyControl : Bool) (i : Nat)
    (hd : DistinctIds s.s_linelist) (hi : i < s.s_linelist.length)
    (hcur : s.s_currlineptr = idAt s.s_linelist i) :
    (∃ s2, MoveLinePtr direction anyControl s = some s2 ∧ s2.s_linelist = s.s_linelist ∧
      s2.s_currlineptr = idAt s.s_linelist
        (if direction = 1
          then i + min (if anyControl then 10 else 1) (s.s_linelist.length - 1 - i)
          else i - min (if anyControl then 10 else 1) i)) ∧
      (if direction = 1
          then i + min (if anyControl then 10 else 1) (s.s_linelist.length - 1 - i)
          else i - min (if anyControl then 10 else 1) i) < s.s_linelist.length := by
  have hlt : (if direction = 1
      then i + min (if anyControl then 10 else 1) (s.s_linelist.length - 1 - i)
      else i - min (if anyControl then 10 else 1) i) < s.s_linelist.length := by
    split <;> omega
  refine ⟨?_, hlt⟩
  unfold MoveLinePtr
  simp only
  cases anyControl with
  | true =>
    simp only [if_true]
    by_cases hdir : direction = 1
    · subst hdir
      have hl : i + min 10 (s.s_linelist.length - 1 - i) < s.s_linelist.length := by omega
      simp only [if_true]
      rw [hcur, moveLoop_next hd 10 i hi, Option.map_some', idAt_lt hl]
      exact ⟨_, rfl, rfl, rfl⟩
    · have hl : i - min 10 i < s.s_linelist.length := by omega
      simp only [if_neg hdir]
      rw [hcur, moveLoop_prev hd hdir 10 i hi, Option.map_some', idAt_lt hl]
      exact ⟨_, rfl, rfl, rfl⟩
  | false =>
    simp only [Bool.false_eq_true, if_false]
    rw [hcur, idAt_lt hi]
    simp only [neighbour_distinct hd hi, Option.map_some']
    by_cases hdir : direction = 1
    · simp only [if_pos hdir]
      by_cases h1 : i + 1 < s.s_linelist.length
      · have ht : i + min 1 (s.s_linelist.length - 1 - i) = i + 1 := by omega
        rw [ht, idAt_lt h1]
        exact ⟨_, rfl, rfl, rfl⟩
      · have ht : i + min 1 (s.s_linelist.length - 1 - i) = i := by omega
        rw [ht, idAt_ge (by omega)]
        exact ⟨_, rfl, rfl, hcur⟩
    · simp only [if_neg hdir]
      by_cases h0 : i = 0
      · subst h0
        simp only [if_true]
        exact ⟨_, rfl, rfl, by rw [hcur]; simp⟩
      · have ht : i - min 1 i = i - 1 := by omega
        have h1 : i - 1 < s.s_linelist.length := by omega
        rw [if_neg h0, ht, idAt_lt h1]
        exact ⟨_, rfl, rfl, rfl⟩

theorem threeLines_distinct : DistinctIds threeLines.s_linelist := by
  unfold DistinctIds
  decide

theorem C18_move_line_ptr_witness :
    ∃ s2, MoveLinePtr 1 true threeLines = some s2 ∧
      s2.s_linelist = threeLines.s_linelist ∧ s2.s_currlineptr = some 1 :=
  (C18_move_line_ptr threeLines 1 true 1 threeLines_distinct (by decide) rfl).1

/-! ## C19 -/

theorem clearLoop_nil (list : List CONSOLELINE) : clearLoop list = [] := by
  induction list with
  | nil => rfl
  | cons _ rest ih => exact ih

/-- C19: for every prior state `ConsoleClear` leaves the store without lines
and the line count at 0. -/
theorem C19_clear_empties_store (s : State) :
    (ConsoleClear s).s_linelist = [] ∧ (ConsoleClear s).s_NumLines = 0 :=
  ⟨clearLoop_nil s.s_linelist, rfl⟩

/-! ## C20 -/

/-- C20: `ConsoleWrite` with an empty string, and `ConsoleWriteA` with a null
or empty format string (whatever the arguments would format to), return the
state as it was: line list, line count and viewport cursor are unchanged. -/
theorem C20_empty_write_noop (s : State) (color : COLOR_T) (formatted : List Char) :
    ConsoleWrite [] color s = some s ∧
      ConsoleWriteA none color formatted s = some s ∧
      ConsoleWriteA (some []) color formatted s = some s := by
  have h0 : cstring ([] : List Char) = [] := rfl
  refine ⟨ConsoleWrite_noop (Or.inr h0) color, rfl, ?_⟩
  simp [ConsoleWriteA, lit]

/-! ## C21 -/

/-- C21 at the failing input: the input line `"> ab"` with the cursor between
`a` and `b`.  `PasteInInputLine("XY")` gives `"> aXYb"`, length 6, cursor 5.
`PasteInInputLine("X")` then `PasteInInputLine("Y")` gives length 6 and cursor 5
too, but the buffer holds `"> aXY"` with no terminator behind it: the `b` is
lost and the text runs into the unwritten part of the block. -/
theorem C21_paste_char_by_char_differs :
    inputView midLineConsole = some (some ['>', ' ', 'a', 'b'], 4, 3) ∧
      inputView (midLineConsole.bind (PasteInInputLine ['X', 'Y']))
        = some (some ['>', ' ', 'a', 'X', 'Y', 'b'], 6, 5) ∧
      inputView ((midLineConsole.bind (PasteInInputLine ['X'])).bind (PasteInInputLine ['Y']))
        = some (none, 6, 5) ∧
      (((midLineConsole.bind (PasteInInputLine ['X'])).bind (PasteInInputLine ['Y'])).bind
          Head).map (fun l => l.buffer.take 6)
        = some [some '>', some ' ', some 'a', some 'X', some 'Y', none] := by
  decide

/-! ## C22 -/

set_option maxRecDepth 100000 in
/-- C22 at two failing inputs.  After `GetInputLine()` and `ConsoleClear()` the
store is empty and `s_currlineptr` still holds the address of the deleted input
line.  After `GetInputLine()`, a write, `MoveLinePtr(1, 0)` and 255 more writes
the line the cursor is on has been evicted and `s_currlineptr` still holds its
address. -/
theorem C22_cursor_dangles :
    (∃ s, clearedCursor = some s ∧ s.s_linelist = [] ∧ s.s_currlineptr = some 1 ∧
      deref 1 s.s_linelist = none) ∧
    (∃ s, evictedCursor = some s ∧ s.s_linelist.length = 256 ∧ s.s_currlineptr = some 2 ∧
      deref 2 s.s_linelist = none) := by
  decide

/-! ## C24 -/

/-- C24 at the failing input, the state at program start: `s_historyIndex` is 0
(the static has no initialiser) and the history is empty, depth 0, so the index
is outside `{-1, ..., depth-1} = {-1}`.  Down then takes the index 0 for a
recalled entry: with `"help"` typed it replaces the text by the prefix. -/
theorem C24_initial_index_out_of_range :
    State.init.s_historyIndex = 0 ∧ ConsoleCommandHistoryDepth State.init = 0 ∧
      ¬ (-1 ≤ State.init.s_historyIndex ∧
        State.init.s_historyIndex ≤ ConsoleCommandHistoryDepth State.init - 1) ∧
      inputView (typeChars ['h', 'e', 'l', 'p'] startConsole)
        = some (some ['>', ' ', 'h', 'e', 'l', 'p'], 6, 6) ∧
      inputView downAtStart = some (some ['>', ' '], 2, 2) ∧
      downAtStart.map (fun s => s.s_historyIndex) = some (-1) := by
  decide

/-! ## C25 -/

/-- C25 as stated fails: a finished selection with `right_index = 5` still has
`right_index = 5` after `ResetHighlight`, which does not assign the indices. -/
theorem C25_counterexample :
    helloSelection.s_highlightRightCharIndex = 5 ∧
      (ResetHighlight helloSelection).s_highlightRightCharIndex = 5 := by
  decide

/-- C25 (amended): after `ResetHighlight` the selection state is `None` and the
highlight rectangle is all zeros; `left_index`, `right_index`, the anchor, the
cursor of the selection and the snapshot text are left as they were. -/
theorem C25_reset_highlight (s : State) :
    (ResetHighlight s).s_highlightState = HIGHLIGHTSTATE.HS_NONE ∧
      (ResetHighlight s).s_hRect = zeroRect ∧
      (ResetHighlight s).s_highlightLeftCharIndex = s.s_highlightLeftCharIndex ∧
      (ResetHighlight s).s_highlightRightCharIndex = s.s_highlightRightCharIndex ∧
      (ResetHighlight s).s_highlightHStart = s.s_highlightHStart ∧
      (ResetHighlight s).s_highlightHEnd = s.s_highlightHEnd ∧
      (ResetHighlight s).s_copyText = s.s_copyText :=
  ⟨rfl, rfl, rfl, rfl, rfl, rfl, rfl⟩

/-! ## C28 -/

/-- C28 at the failing input: an active console with the input line `"> "` and
a finished selection; Ctrl+V.  `PasteClipboardToHighlight` has an empty body,
so for any clipboard text nothing is inserted, and as Control is held the
selection is not reset: the state after the event is the state before it. -/
theorem C28_paste_does_nothing :
    (∀ s, PasteClipboardToHighlight s = s) ∧
      helloSelection.s_active = true ∧
      helloSelection.s_highlightState = HIGHLIGHTSTATE.HS_ENDHIGHLIGHT ∧
      inputView (some helloSelection) = some (some ['>', ' '], 2, 2) ∧
      OnKeyDown KEY.KEY_V true false helloSelection = some (0, helloSelection) :=
  ⟨fun _ => rfl, by decide, by decide, by decide, by decide⟩

/-! ## C27 -/

theorem EnforceMaxLines_active {s s2 : State} (h : EnforceMaxLines s = some s2) :
    s2.s_active = s.s_active := by
  unfold EnforceMaxLines at h
  split at h
  · injection h with h; rw [← h]
  · split at h
    · injection h with h; rw [← h]
    · split at h
      · injection h with h; rw [← h]
      · cases h

theorem GetInputLine_active {s : State} {r : Nat × State} (h : GetInputLine s = some r) :
    r.2.s_active = s.s_active := by
  have hnew : ∀ {q : Nat × State}, newInputLine s = some q → q.2.s_active = s.s_active := by
    intro q hq
    unfold newInputLine at hq
    simp only [Option.bind_eq_some, Option.map_eq_some'] at hq
    obtain ⟨buffer, -, chars, -, s2, h2, rfl⟩ := hq
    have := EnforceMaxLines_active h2
    exact this
  unfold GetInputLine at h
  split at h
  · exact hnew h
  · split at h
    · exact hnew h
    · injection h with h; rw [← h]

/-- C27 as stated fails: with the console active, the cursor of the input line
at the prefix and a finished selection, Escape with a Control modifier held
deactivates the console and leaves the selection state `Ended`. -/
theorem C27_counterexample :
    helloSelection.s_active = true ∧
      inputView (some helloSelection) = some (some ['>', ' '], 2, 2) ∧
      (OnKeyDown KEY.KEY_ESCAPE true false helloSelection).map
          (fun r => (r.2.s_active, r.2.s_highlightState))
        = some (false, HIGHLIGHTSTATE.HS_ENDHIGHLIGHT) := by
  decide

/-- C27 (amended): for a key-down event that finds the console active.  The
console hotkey (console access enabled) deactivates the console and the
selection state is `None` afterwards, under any modifier state.  Escape (the
hotkey up) with the cursor at the prefix deactivates the console, and the
selection state afterwards is `None` when no Control modifier is held and
unchanged when one is.  Every key-down event with no Control modifier held after
which the console is inactive leaves the selection state `None`. -/
theorem C27_deactivation_resets (s : State) (key : KEY) (anyControl hotKeyDown : Bool)
    (hact : s.s_active = true) :
    (key = s.s_consoleKey ∧ s.s_consoleAccessEnabled = true →
      ∃ s2, OnKeyDown key anyControl hotKeyDown s = some (0, s2) ∧ s2.s_active = false ∧
        s2.s_highlightState = HIGHLIGHTSTATE.HS_NONE) ∧
    (∀ head rest, ¬ (KEY.KEY_ESCAPE = s.s_consoleKey ∧ s.s_consoleAccessEnabled = true) →
      s.s_linelist = head :: rest → head.inputpos ≠ 0 → head.inputpos = head.inputstart →
      ∃ s2, OnKeyDown KEY.KEY_ESCAPE anyControl false s = some (0, s2) ∧ s2.s_active = false ∧
        s2.s_highlightState =
          if anyControl = true then s.s_highlightState else HIGHLIGHTSTATE.HS_NONE) ∧
    (∀ r, OnKeyDown key anyControl hotKeyDown s = some r → r.2.s_active = false →
      anyControl = false → r.2.s_highlightState = HIGHLIGHTSTATE.HS_NONE) := by
  refine ⟨?_, ?_, ?_⟩
  · intro hkey
    have e : OnKeyDown key anyControl hotKeyDown s
        = some (0, ResetHighlight { s with s_active := false }) := by
      unfold OnKeyDown
      rw [if_pos hkey]
      simp [hact]
    exact ⟨_, e, rfl, rfl⟩
  · intro head rest hkey hlist hlive hat
    have hh : Head s = some head := by simp [Head, hlist]
    have hget : GetInputLine s = some (head.id, s) := GetInputLine_live hh hlive
    have hesc := keyEscape_at hlist hat
    have e : OnKeyDown KEY.KEY_ESCAPE anyControl false s
        = some (0, if resetsHighlight KEY.KEY_ESCAPE anyControl = true
            then ResetHighlight { s with s_active := false }
            else { s with s_active := false }) := by
      unfold OnKeyDown
      rw [if_neg hkey, if_neg (by simp [hact]), hget]
      simp only [Option.some_bind, hesc, Option.map_some']
    rw [e]
    cases anyControl
    · exact ⟨_, rfl, by simp [resetsHighlight, ResetHighlight], by
        simp [resetsHighlight, ResetHighlight]⟩
    · exact ⟨_, rfl, by simp [resetsHighlight], by simp [resetsHighlight]⟩
  · intro r h hoff hctl
    subst hctl
    unfold OnKeyDown at h
    split at h
    · injection h with h
      rw [← h]
      simp [hact, ResetHighlight]
    · split at h
      · injection h with h
        rw [← h] at hoff
        rw [hact] at hoff
        cases hoff
      · simp only [Option.bind_eq_some, Option.map_eq_some'] at h
        obtain ⟨q, hq, s2, hs2, rfl⟩ := h
        by_cases hr : resetsHighlight key false = true
        · simp [hr, ResetHighlight]
        · have hq2 := GetInputLine_active hq
          have hk : key = KEY.KEY_TAB ∨ key = KEY.KEY_LSHIFT ∨ key = KEY.KEY_RSHIFT ∨
              key = KEY.KEY_LALT ∨ key = KEY.KEY_RALT := by
            unfold resetsHighlight at hr
            simp only [Bool.not_false, ne_eq, decide_eq_true_eq, not_and, not_not] at hr
            by_contra hcon
            simp only [not_or] at hcon
            exact absurd (hr hcon.1 hcon.2.1 hcon.2.2.1 hcon.2.2.2.1) (by
              simp [hcon.2.2.2.2])
          have hs : s2 = q.2 := by
            rcases hk with rfl | rfl | rfl | rfl | rfl <;>
              · simp only [Option.some.injEq] at hs2
                exact hs2.symm
          simp only [hr] at hoff
          simp only [Bool.false_eq_true, if_false] at hoff
          rw [hs, hq2, hact] at hoff
          cases hoff

theorem C27_deactivation_resets_witness :
    ∃ s2, OnKeyDown KEY.KEY_ESCAPE false false helloSelection = some (0, s2) ∧
      s2.s_active = false ∧
      s2.s_highlightState =
        if false = true then helloSelection.s_highlightState else HIGHLIGHTSTATE.HS_NONE :=
  (C27_deactivation_resets helloSelection KEY.KEY_ESCAPE false false (by decide)).2.1
    (freshInputLine 1) [] (by decide) rfl (by decide) (by decide)

/-! ## C30 -/

/-- C30: for an Enter key-down event that finds the console active and the
cursor of the live input line at the prefix (`inputpos == inputstart`), under
any modifier and hotkey state: the handler returns, no command is handed to
`ConsoleCommandExecute`, the line list (so the input line's text, length and
cursor, whatever text lies after the cursor) and the history and its index are
unchanged.  And whenever an Enter key-down event hands over a command, the
cursor of the input line was strictly past the prefix. -/
theorem C30_enter_without_input (s : State) (anyControl hotKeyDown : Bool) (head : CONSOLELINE)
    (rest : List CONSOLELINE) (hact : s.s_active = true) (hlist : s.s_linelist = head :: rest)
    (hlive : head.inputpos ≠ 0) :
    (head.inputpos = head.inputstart →
      ∃ r s2, OnKeyDown KEY.KEY_ENTER anyControl hotKeyDown s = some (r, s2) ∧
        s2.s_linelist = s.s_linelist ∧ s2.executed = s.executed ∧
        s2.s_historyIndex = s.s_historyIndex ∧ s2.history = s.history) ∧
    (∀ r s2, OnKeyDown KEY.KEY_ENTER anyControl hotKeyDown s = some (r, s2) →
      s2.executed ≠ s.executed → head.inputstart < head.inputpos) := by
  have hh : Head s = some head := by simp [Head, hlist]
  have hget : GetInputLine s = some (head.id, s) := GetInputLine_live hh hlive
  have hderef : deref head.id s.s_linelist = some head := by rw [hlist]; exact deref_head head rest
  have hat : ¬ head.inputstart < head.inputpos →
      ∃ r s2, OnKeyDown KEY.KEY_ENTER anyControl hotKeyDown s = some (r, s2) ∧
        s2.s_linelist = s.s_linelist ∧ s2.executed = s.executed ∧
        s2.s_historyIndex = s.s_historyIndex ∧ s2.history = s.history := by
    intro hnot
    have hcond : ¬ (head.inputstart ≤ head.inputpos ∧ head.inputpos ≠ head.inputstart) := by
      intro hc
      exact hnot (by have := hc.1; have := hc.2; omega)
    have hent : keyEnter head.id s = some s := by
      unfold keyEnter
      rw [hderef]
      simp only [Option.some_bind, if_neg hcond]
    unfold OnKeyDown
    by_cases hkey : KEY.KEY_ENTER = s.s_consoleKey ∧ s.s_consoleAccessEnabled = true
    · rw [if_pos hkey]
      refine ⟨_, _, rfl, ?_, ?_, ?_, ?_⟩ <;> simp [hact, ResetHighlight]
    · rw [if_neg hkey]
      by_cases hgate : hotKeyDown = true ∨ (!s.s_active) = true
      · rw [if_pos hgate]
        exact ⟨_, _, rfl, rfl, rfl, rfl, rfl⟩
      · rw [if_neg hgate, hget]
        simp only [Option.some_bind, hent, Option.map_some']
        refine ⟨_, _, rfl, ?_, ?_, ?_, ?_⟩ <;> cases anyControl <;>
          simp [resetsHighlight, ResetHighlight]
  refine ⟨fun h => hat (by omega), ?_⟩
  intro r s2 h hex
  by_contra hnot
  obtain ⟨r3, s3, h3, -, h5, -, -⟩ := hat hnot
  rw [h3] at h
  injection h with h
  injection h with h1 h2
  exact hex (h2 ▸ h5)

theorem C30_enter_without_input_witness :
    ∃ r s2, OnKeyDown KEY.KEY_ENTER false false prefixConsole = some (r, s2) ∧
      s2.s_linelist = prefixConsole.s_linelist ∧ s2.executed = prefixConsole.executed ∧
      s2.s_historyIndex = prefixConsole.s_historyIndex ∧
      s2.history = prefixConsole.history :=
  (C30_enter_without_input prefixConsole false false { helpLine with inputpos := 2 } [] (by decide)
    rfl (by decide)).1 (by decide)

/-! ## C29 -/

theorem ReserveInputSpace_allocated {l l2 : CONSOLELINE} {len : Nat}
    (h : ReserveInputSpace l len = some l2) (hal : Allocated l) : Allocated l2 := by
  unfold ReserveInputSpace at h
  simp only at h
  split at h
  · simp only [Option.map_eq_some'] at h
    obtain ⟨buffer, hb, rfl⟩ := h
    unfold SStrCopy at hb
    simp only [Option.bind_eq_some] at hb
    obtain ⟨x, -, hp⟩ := hb
    have := poke_length hp
    simpa [Allocated, SMemAlloc] using this
  · injection h with h
    rw [← h]
    exact hal

theorem memmove_length {mem mem2 : List Byte} {dst src n : Nat}
    (h : memmove mem dst src n = some mem2) : mem2.length = mem.length := by
  unfold memmove at h
  split at h
  · injection h with h; rw [h]
  · split at h
    · exact poke_length h
    · cases h

theorem pasteLine_cap {l l2 : CONSOLELINE} {cs : List Char} (hcs : cs ≠ [])
    (hinv : CapInv l) (h : pasteLine l cs = some l2) : CapInv l2 := by
  have hlen : 1 ≤ cs.length := by
    cases cs with
    | nil => exact absurd rfl hcs
    | cons c t => simp
  unfold pasteLine at h
  simp only [Option.bind_eq_some] at h
  obtain ⟨line, hres, h⟩ := h
  have hal := ReserveInputSpace_allocated hres hinv.2
  have hf := ReserveInputSpace_fields hres
  unfold Allocated at hal
  split at h
  · split at h
    · simp only [Option.bind_eq_some, Option.map_eq_some'] at h
      obtain ⟨b1, hb1, b2, hb2, rfl⟩ := h
      have e1 := memmove_length hb1
      have e2 := poke_length hb2
      refine ⟨?_, ?_⟩
      · show line.chars + 1 < line.charsalloc
        omega
      · show b2.length = line.charsalloc
        omega
    · simp only [Option.bind_eq_some, Option.map_eq_some'] at h
      obtain ⟨input, -, buffer0, -, buffer1, -, buffer2, -, len2, -, buffer3, -, lb, hlb, n,
        hn, rfl⟩ := h
      unfold SStrCopy at hlb
      simp only [Option.bind_eq_some] at hlb
      obtain ⟨x, -, hp⟩ := hlb
      have e1 := poke_length hp
      unfold SStrLen at hn
      simp only [Option.map_eq_some'] at hn
      obtain ⟨t, ht, rfl⟩ := hn
      have e2 := cstr_length_lt ht
      refine ⟨?_, ?_⟩
      · show t.length < line.charsalloc
        omega
      · show lb.length = line.charsalloc
        omega
  · simp only [Option.map_eq_some'] at h
    obtain ⟨b, hb, rfl⟩ := h
    have e1 := poke_length hb
    have e2 := (poke_eq_some hb).1
    rw [lit_length] at e2
    refine ⟨?_, ?_⟩
    · show line.inputpos + cs.length < line.charsalloc
      omega
    · show b.length = line.charsalloc
      omega

theorem Backspace_cap {l l2 : CONSOLELINE} (hinv : CapInv l) (h : l.Backspace = some l2) :
    CapInv l2 := by
  unfold CONSOLELINE.Backspace at h
  have hc := hinv.1
  have hal := hinv.2
  unfold Allocated at hal
  split at h
  · simp only [Option.map_eq_some'] at h
    obtain ⟨b, hb, rfl⟩ := h
    have e : b.length = l.buffer.length := by
      split at hb
      · exact poke_length hb
      · exact memmove_length hb
    refine ⟨?_, ?_⟩
    · show l.chars - 1 < l.charsalloc
      omega
    · show b.length = l.charsalloc
      omega
  · injection h with h
    rw [← h]
    exact hinv

theorem MakeCommandCurrent_cap {l l2 : CONSOLELINE} {command : List Char} (hal : Allocated l)
    (h : MakeCommandCurrent l command = some l2) : CapInv l2 := by
  unfold MakeCommandCurrent at h
  simp only [Option.bind_eq_some, Option.map_eq_some'] at h
  obtain ⟨b, hb, line, hres, b2, hb2, rfl⟩ := h
  have e0 := poke_length hb
  unfold Allocated at hal
  have hal1 : Allocated { l with inputpos := l.inputstart, chars := l.inputstart, buffer := b } := by
    show b.length = l.charsalloc
    omega
  have hal2 := ReserveInputSpace_allocated hres hal1
  have hf := ReserveInputSpace_fields hres
  unfold Allocated at hal2
  unfold SStrCopy at hb2
  simp only [Option.bind_eq_some] at hb2
  obtain ⟨x, -, hp⟩ := hb2
  have e2 := poke_length hp
  have h3 : line.inputpos = line.chars := by
    rw [hf.2.1, hf.2.2.1]
  refine ⟨?_, ?_⟩
  · show line.inputpos + (cstring command).length < line.charsalloc
    have := hf.2.2.2.2.2
    omega
  · show b2.length = line.charsalloc
    omega

theorem bufferOp_apply_cap (op : BufferOp) {l l2 : CONSOLELINE} (hinv : CapInv l)
    (h : op.apply l = some l2) : CapInv l2 := by
  cases op with
  | paste characters =>
    simp only [BufferOp.apply] at h
    split at h
    · injection h with h
      rw [← h]
      exact hinv
    · rename_i hne
      refine pasteLine_cap ?_ hinv h
      intro hnil
      rw [hnil] at hne
      exact hne rfl
  | backspace => exact Backspace_cap hinv h
  | historyRecall command => exact MakeCommandCurrent_cap hinv.2 h

theorem runBuffer_cap (ops : List BufferOp) : ∀ {l l2 : CONSOLELINE}, CapInv l →
    runBuffer ops l = some l2 → CapInv l2 := by
  induction ops with
  | nil =>
    intro l l2 hinv h
    simp only [runBuffer, Option.some.injEq] at h
    rw [← h]
    exact hinv
  | cons op ops ih =>
    intro l l2 hinv h
    simp only [runBuffer, Option.bind_eq_some] at h
    obtain ⟨l1, h1, h2⟩ := h
    exact ih (bufferOp_apply_cap op hinv h1) h2

theorem wellFormed_cap {l : CONSOLELINE} {text : List Char} (hwf : WellFormed l text)
    (hal : Allocated l) : CapInv l := by
  have h1 := cstr_length_lt hwf.1
  have h2 := hwf.2.1
  unfold Allocated at hal
  exact ⟨by omega, hal⟩

theorem pasteLine_single_mid {l : CONSOLELINE} {text cs : List Char} (hwf : WellFormed l text)
    (hal : Allocated l) (hmid : l.inputpos < l.chars) (hlen : cs.length = 1) :
    ∃ l2, pasteLine l cs = some l2 := by
  obtain ⟨line, hres, hwf2, hal2, hroom, hpos, hchars, -, -, -⟩ :=
    ReserveInputSpace_wellFormed hwf hal cs.length
  unfold Allocated at hal2
  have hmid2 : line.inputpos < line.chars := by omega
  have hb1 : ∃ b1, memmove line.buffer (line.inputpos + 1) line.inputpos
      (line.chars - (line.inputpos + 1)) = some b1 ∧ b1.length = line.buffer.length := by
    unfold memmove
    by_cases h0 : line.chars - (line.inputpos + 1) = 0
    · rw [if_pos h0]
      exact ⟨_, rfl, rfl⟩
    · rw [if_neg h0, if_pos (by omega)]
      have hp := @poke_some line.buffer
        ((line.buffer.drop line.inputpos).take (line.chars - (line.inputpos + 1)))
        (line.inputpos + 1) (by simp only [List.length_take, List.length_drop]; omega)
      exact ⟨_, hp, poke_length hp⟩
  obtain ⟨b1, hb1, hl1⟩ := hb1
  have hb2 := @poke_some b1 [(lit cs).headD none] line.inputpos
    (by simp only [List.length_singleton]; omega)
  unfold pasteLine
  simp only [hres, Option.some_bind, if_pos hmid2, if_pos (Nat.le_of_eq hlen), hb1, hb2,
    Option.map_some']
  exact ⟨_, rfl⟩

theorem bufferOp_total (op : BufferOp) {l : CONSOLELINE} {text : List Char}
    (hwf : WellFormed l text) (hal : Allocated l) : ∃ l2, op.apply l = some l2 := by
  cases op with
  | paste characters =>
    simp only [BufferOp.apply]
    by_cases h0 : (cstring characters).length = 0
    · rw [if_pos h0]
      exact ⟨_, rfl⟩
    · rw [if_neg h0]
      have hn := not_mem_cstring characters
      by_cases hend : l.inputpos = l.chars
      · obtain ⟨l2, h2, -⟩ := pasteLine_end hwf hal hend hn
        exact ⟨l2, h2⟩
      · have hmid : l.inputpos < l.chars := by
          have := hwf.2.2.2
          omega
        by_cases h2 : 2 ≤ (cstring characters).length
        · obtain ⟨l2, h3, -⟩ := pasteLine_multi hwf hal hmid hn h2
          exact ⟨l2, h3⟩
        · exact pasteLine_single_mid hwf hal hmid (by omega)
  | backspace =>
    simp only [BufferOp.apply]
    by_cases hpos : l.inputstart < l.inputpos
    · obtain ⟨l2, h2, -⟩ := Backspace_wellFormed hwf hpos
      exact ⟨l2, h2⟩
    · unfold CONSOLELINE.Backspace
      rw [if_neg (by omega)]
      exact ⟨_, rfl⟩
  | historyRecall command =>
    obtain ⟨l2, h2, -⟩ := MakeCommandCurrent_wellFormed hwf hal command
    exact ⟨l2, h2⟩

/-- C29: for an input line holding a terminated text of `chars` characters in
its block of `charsalloc` bytes (so `chars < charsalloc`) and every `len`,
`ReserveInputSpace(line, len)` returns; the capacity does not decrease and
changes by a multiple of `CONSOLE_LINE_PREALLOC = 16`, the text and the length
are unchanged, and `chars + len < charsalloc` afterwards.  Each of
`PasteInInputLine`, Backspace and a history recall returns on such a line, and
after every sequence of them the length is within (below) the capacity. -/
theorem C29_length_within_capacity (l : CONSOLELINE) (text : List Char) (len : Nat)
    (hwf : WellFormed l text) (hal : Allocated l) :
    l.chars < l.charsalloc ∧
    (∃ l2, ReserveInputSpace l len = some l2 ∧ l.charsalloc ≤ l2.charsalloc ∧
      (∃ k, l2.charsalloc = l.charsalloc + k * CONSOLE_LINE_PREALLOC) ∧
      l2.text = some text ∧ l2.chars = l.chars ∧ l2.chars + len < l2.charsalloc) ∧
    (∀ op : BufferOp, ∃ l2, op.apply l = some l2 ∧ l2.chars ≤ l2.charsalloc) ∧
    (∀ ops l2, runBuffer ops l = some l2 → l2.chars ≤ l2.charsalloc) := by
  have hinv := wellFormed_cap hwf hal
  refine ⟨hinv.1, ?_, ?_, ?_⟩
  · obtain ⟨l2, h2, hwf2, -, hroom, -, hchars, -, hge, hk⟩ :=
      ReserveInputSpace_wellFormed hwf hal len
    exact ⟨l2, h2, hge, hk, hwf2.1, hchars, hroom⟩
  · intro op
    obtain ⟨l2, h2⟩ := bufferOp_total op hwf hal
    exact ⟨l2, h2, Nat.le_of_lt (bufferOp_apply_cap op hinv h2).1⟩
  · intro ops l2 h
    exact Nat.le_of_lt (runBuffer_cap ops hinv h).1

theorem C29_length_within_capacity_witness :
    ∃ l2, ReserveInputSpace typedLine 20 = some l2 ∧ typedLine.charsalloc ≤ l2.charsalloc ∧
      (∃ k, l2.charsalloc = typedLine.charsalloc + k * CONSOLE_LINE_PREALLOC) ∧
      l2.text = some ['>', ' ', 'h', 'e', 'l', 'p'] ∧ l2.chars = typedLine.chars ∧
      l2.chars + 20 < l2.charsalloc :=
  (C29_length_within_capacity typedLine ['>', ' ', 'h', 'e', 'l', 'p'] 20 typedLine_wellFormed
    typedLine_allocated).2.1

/-! ## C23 -/

theorem GetLineAtMousePosition_eq (y : Rat) (s : State) :
    GetLineAtMousePosition y s =
      if linePosAt y s = 1 then some ((Head s).map (fun l => l.id))
      else walkLines s.s_linelist (walkSteps y s) s.s_currlineptr := rfl

theorem walkLines_within {list : List CONSOLELINE} (hd : DistinctIds list) (n : Nat) :
    ∀ i, i + n < list.length → walkLines list n (idAt list i) = some (idAt list (i + n)) := by
  induction n with
  | zero => intro i _; rfl
  | succ n ih =>
    intro i hi
    have hl : i < list.length := by omega
    rw [idAt_lt hl]
    simp only [walkLines]
    rw [neighbour_distinct hd hl 1, if_pos rfl, Option.some_bind, ih (i + 1) (by omega)]
    congr 2
    omega

theorem walkLines_nil (n : Nat) : walkLines [] n none = some none := by
  cases n <;> rfl

theorem walkLines_add (list : List CONSOLELINE) (a b : Nat) :
    ∀ p, walkLines list (a + b) p = (walkLines list a p).bind (walkLines list b) := by
  induction a with
  | zero =>
    intro p
    simp [walkLines]
  | succ a ih =>
    intro p
    have hab : a + 1 + b = (a + b) + 1 := by omega
    rw [hab]
    cases p with
    | some q =>
      simp only [walkLines]
      rw [Option.bind_assoc]
      congr 1
      funext x
      exact ih x
    | none =>
      cases list with
      | nil =>
        simp only [walkLines, List.head?_nil, Option.map_none', Option.some_bind]
        exact (walkLines_nil b).symm
      | cons h t =>
        simp only [walkLines, List.head?_cons, Option.map_some']
        rw [Option.bind_assoc]
        congr 1
        funext x
        exact ih x

theorem walkLines_off {list : List CONSOLELINE} (hd : DistinctIds list) {i : Nat}
    (hi : i < list.length) : walkLines list (list.length - i) (idAt list i) = some none := by
  have e : list.length - i = (list.length - 1 - i) + 1 := by omega
  have hl : list.length - 1 < list.length := by omega
  rw [e, walkLines_add, walkLines_within hd _ i (by omega), Option.some_bind]
  have e2 : i + (list.length - 1 - i) = list.length - 1 := by omega
  rw [e2, idAt_lt hl]
  simp only [walkLines]
  rw [neighbour_distinct hd hl 1, if_pos rfl, Option.some_bind]
  have e3 : list.length - 1 + 1 = list.length := by omega
  rw [e3, idAt_ge (Nat.le_refl _)]

theorem walkLines_head (list : List CONSOLELINE) (k : Nat) :
    walkLines list (k + 1) none = walkLines list (k + 1) (idAt list 0) := by
  cases list with
  | nil => rfl
  | cons h t => simp [walkLines, idAt]

theorem threeLines_linePos : linePosAt (91 / 100) threeLines = 5 := by
  show truncate ((({ num := 1, den := 5 } : Rat) - (1 - 91 / 100)) / { num := 1, den := 50 }) = 5
  rw [Rat.mk'_eq_divInt, Rat.mk'_eq_divInt, Rat.divInt_eq_div, Rat.divInt_eq_div]
  norm_num [truncate]

theorem threeLines_walkSteps : walkSteps (91 / 100) threeLines = 3 := by
  unfold walkSteps
  rw [threeLines_linePos]
  decide

/-- C23 as stated fails: three lines with the addresses 3, 2, 1 from the head,
the viewport cursor on the second; a pointer at `y = 0.91` gives three steps to
walk while one line lies beyond the cursor.  The walk runs off the tail at its
second step and restarts from the head at the third: the result is the second
line, not null. -/
theorem C23_counterexample :
    threeLines.s_linelist.map (fun l => l.id) = [3, 2, 1] ∧
      threeLines.s_currlineptr = some 2 ∧ walkSteps (91 / 100) threeLines = 3 ∧
      GetLineAtMousePosition (91 / 100) threeLines = some (some 2) := by
  refine ⟨by decide, by decide, threeLines_walkSteps, ?_⟩
  rw [GetLineAtMousePosition_eq, threeLines_linePos, threeLines_walkSteps]
  decide

/-- C23 (amended): when the row index is 1 `GetLineAtMousePosition` returns the
head.  Otherwise it walks the computed number of steps toward older lines.  With
the viewport cursor on the line at position `i` of a store whose lines have
distinct addresses: if the store has that many lines beyond the cursor the
result is the line reached; if the number of steps is one more than the number
of lines beyond the cursor the last step runs off the tail and the result is no
line; if more steps remain after running off the tail the walk goes on from the
head.  With the cursor unset the walk starts from the head at its first step,
and with no step to walk the result is no line. -/
theorem C23_walk_from_cursor (s : State) (y : Rat) (hd : DistinctIds s.s_linelist) :
    (linePosAt y s = 1 → GetLineAtMousePosition y s = some ((Head s).map (fun l => l.id))) ∧
    (linePosAt y s ≠ 1 →
      (∀ i, i < s.s_linelist.length → s.s_currlineptr = idAt s.s_linelist i →
        (i + walkSteps y s < s.s_linelist.length →
          GetLineAtMousePosition y s = some (idAt s.s_linelist (i + walkSteps y s))) ∧
        (i + walkSteps y s = s.s_linelist.length → GetLineAtMousePosition y s = some none) ∧
        (∀ k, i + walkSteps y s = s.s_linelist.length + (k + 1) →
          GetLineAtMousePosition y s = walkLines s.s_linelist (k + 1) (idAt s.s_linelist 0))) ∧
      (s.s_currlineptr = none →
        (walkSteps y s = 0 → GetLineAtMousePosition y s = some none) ∧
        (∀ k, walkSteps y s = k + 1 →
          GetLineAtMousePosition y s =
            walkLines s.s_linelist (k + 1) (idAt s.s_linelist 0)))) := by
  refine ⟨?_, ?_⟩
  · intro h1
    rw [GetLineAtMousePosition_eq, if_pos h1]
  · intro hpos
    rw [GetLineAtMousePosition_eq, if_neg hpos]
    refine ⟨?_, ?_⟩
    · intro i hi hcur
      rw [hcur]
      refine ⟨?_, ?_, ?_⟩
      · intro hlt
        exact walkLines_within hd _ i hlt
      · intro heq
        have e : walkSteps y s = s.s_linelist.length - i := by omega
        rw [e]
        exact walkLines_off hd hi
      · intro k hk
        have e : walkSteps y s = (s.s_linelist.length - i) + (k + 1) := by omega
        rw [e, walkLines_add, walkLines_off hd hi, Option.some_bind]
        exact walkLines_head _ k
    · intro hnone
      rw [hnone]
      refine ⟨?_, ?_⟩
      · intro h0
        rw [h0]
        rfl
      · intro k hk
        rw [hk]
        exact walkLines_head _ k

theorem C23_walk_from_cursor_witness :
    GetLineAtMousePosition (91 / 100) threeLines
      = walkLines threeLines.s_linelist (0 + 1) (idAt threeLines.s_linelist 0) :=
  (((C23_walk_from_cursor threeLines (91 / 100) threeLines_distinct).2
    (by rw [threeLines_linePos]; decide)).1 1 (by decide) rfl).2.2 0
    (by rw [threeLines_walkSteps]; decide)

/-! ## C26 -/

theorem UpdateHighlight_frame {measure : Measure} {s s2 : State}
    (h : UpdateHighlight measure s = some s2) :
    s2.s_highlightState = s.s_highlightState ∧ s2.s_copyText = s.s_copyText ∧
      s2.s_highlightHStart = s.s_highlightHStart ∧ s2.s_highlightHEnd = s.s_highlightHEnd := by
  unfold UpdateHighlight at h
  simp only [Option.map_eq_some'] at h
  obtain ⟨text, -, rfl⟩ := h
  simp only
  refine ⟨?_, ?_, ?_, ?_⟩ <;> split <;> split <;> rfl

theorem cstrN_length_le {n : Nat} {mem : List Byte} {d : List Char}
    (h : cstrN n mem = some d) : d.length ≤ n := by
  induction mem generalizing n d with
  | nil =>
    by_cases hn : n = 0 <;> simp [cstrN, hn] at h
    subst h; simp
  | cons b m ih =>
    by_cases hn : n = 0
    · simp [cstrN, hn] at h
      subst h; simp
    · cases b with
      | none => simp [cstrN, hn] at h
      | some c =>
        by_cases hc : c = NUL
        · simp [cstrN, hn, hc] at h
          subst h; simp
        · simp only [cstrN, hn, hc, if_false, Option.map_eq_some'] at h
          obtain ⟨d2, hd2, rfl⟩ := h
          have := ih hd2
          simp only [List.length_cons]
          omega

theorem SetHighlightCopyText_cstr {text : List Byte} {s s2 : State}
    (h : SetHighlightCopyText text s = some s2) :
    ∃ x, cstr s2.s_copyText = some x ∧ x.length ≤ HIGHLIGHT_COPY_SIZE - 1 := by
  unfold SetHighlightCopyText at h
  simp only [Option.map_eq_some'] at h
  obtain ⟨b, hb, rfl⟩ := h
  unfold SStrCopy at hb
  simp only [Option.bind_eq_some] at hb
  obtain ⟨x, hx, hp⟩ := hb
  have e := (poke_eq_some hp).2
  simp only [List.take_zero, List.nil_append, Nat.zero_add] at e
  have hn : NUL ∉ x ∧ x.length ≤ HIGHLIGHT_COPY_SIZE - 1 := by
    have hne : HIGHLIGHT_COPY_SIZE ≠ STORM_MAX_STR := by decide
    unfold readStr at hx
    rw [if_neg hne] at hx
    exact ⟨cstrN_not_mem hx, cstrN_length_le hx⟩
  refine ⟨x, ?_, hn.2⟩
  show cstr b = some x
  rw [e, cstr_lit_append, cstring_eq_self hn.1]

theorem OnMouseDown_hit {measure : Measure} {y : Rat} {s s2 : State} {ptr : Nat}
    {l : CONSOLELINE}
    (hgate : ¬ ((false : Bool) = true ∨ (!s.s_active) = true ∨ (1 - s.s_consoleHeight) > y))
    (hregion : 1 - y < (min s.s_consoleHeight 1 - s.s_fontHeight * (3 / 4)) ∨
      1 - y > s.s_consoleHeight)
    (hline : GetLineAtMousePosition y (ResetHighlight s) = some (some ptr))
    (hderef : deref ptr s.s_linelist = some l)
    (hcopy : SetHighlightCopyText l.buffer (ResetHighlight s) = some s2) :
    ∃ s5, OnMouseDown measure y false s = some (0, s5) ∧
      s5.s_highlightState = HIGHLIGHTSTATE.HS_HIGHLIGHTING ∧
      s5.s_copyText = s2.s_copyText ∧
      s5.s_highlightHStart = anchorAt y s ∧ s5.s_highlightHEnd = anchorAt y s := by
  obtain ⟨x, hx, -⟩ := SetHighlightCopyText_cstr hcopy
  have hsame : s2.s_consoleHeight = s.s_consoleHeight ∧ s2.s_fontHeight = s.s_fontHeight := by
    unfold SetHighlightCopyText at hcopy
    simp only [Option.map_eq_some'] at hcopy
    obtain ⟨b, -, rfl⟩ := hcopy
    exact ⟨rfl, rfl⟩
  obtain ⟨s5, h5, -⟩ := @UpdateHighlight_indices measure
    { s2 with s_highlightState := HIGHLIGHTSTATE.HS_HIGHLIGHTING,
              s_highlightHStart := anchorAt y s, s_highlightHEnd := anchorAt y s } x hx
  have hf := UpdateHighlight_frame h5
  have hderef2 : deref ptr (ResetHighlight s).s_linelist = some l := hderef
  refine ⟨s5, ?_, hf.1, hf.2.1, hf.2.2.1, hf.2.2.2⟩
  unfold OnMouseDown
  simp only
  rw [if_neg hgate, if_pos hregion, hline]
  simp only [Option.some_bind, hderef2, hcopy]
  have := h5
  unfold anchorAt at this
  rw [this]
  rfl
theorem threeLines_heights :
    threeLines.s_consoleHeight = 1 / 5 ∧ threeLines.s_fontHeight = 1 / 50 := by
  refine ⟨?_, ?_⟩
  · show ({ num := 1, den := 5 } : Rat) = 1 / 5
    rw [Rat.mk'_eq_divInt, Rat.divInt_eq_div]
    norm_num
  · show ({ num := 1, den := 50 } : Rat) = 1 / 50
    rw [Rat.mk'_eq_divInt, Rat.divInt_eq_div]
    norm_num

set_option maxRecDepth 100000 in
/-- C26 at the failing input: the active console of three lines (the input line
above `"b"` above `"a"`, the viewport cursor on `"b"`), console height 0.2, font
height 0.02; a pointer-down at `y = 0.87` with any `x`.  The event hits the line
`"a"`: the selection state becomes `Selecting` and the snapshot is `"a"`.  Anchor
and cursor are both set to `v7 = 0.885`, a value computed from `y` and the
heights; the handler does not read the pointer's `x`. -/
theorem C26_anchor_from_vertical_coordinate :
    ∃ s2, OnMouseDown allOrNothing (87 / 100) false threeLines = some (0, s2) ∧
      s2.s_highlightState = HIGHLIGHTSTATE.HS_HIGHLIGHTING ∧
      cstr s2.s_copyText = some ['a'] ∧
      s2.s_highlightHStart = 177 / 200 ∧ s2.s_highlightHEnd = 177 / 200 := by
  have hh := threeLines_heights
  have hpos : linePosAt (87 / 100) (ResetHighlight threeLines) = 3 := by
    show truncate ((threeLines.s_consoleHeight - (1 - 87 / 100)) / threeLines.s_fontHeight) = 3
    rw [hh.1, hh.2]
    norm_num [truncate]
  have hsteps : walkSteps (87 / 100) (ResetHighlight threeLines) = 1 := by
    unfold walkSteps
    rw [hpos]
    decide
  have hline : GetLineAtMousePosition (87 / 100) (ResetHighlight threeLines) = some (some 1) := by
    rw [GetLineAtMousePosition_eq, hpos, hsteps]
    decide
  have hderef : deref 1 threeLines.s_linelist
      = some (writtenLine 1 ['a'] COLOR_T.DEFAULT_COLOR) := by decide
  have hcopy : SetHighlightCopyText (writtenLine 1 ['a'] COLOR_T.DEFAULT_COLOR).buffer
      (ResetHighlight threeLines)
      = some { ResetHighlight threeLines with
          s_copyText := lit ['a'] ++ List.replicate 126 (some NUL) } := by decide
  have hgate : ¬ ((false : Bool) = true ∨ (!threeLines.s_active) = true ∨
      (1 - threeLines.s_consoleHeight) > 87 / 100) := by
    rw [hh.1]
    have : threeLines.s_active = true := by decide
    rw [this]
    norm_num
  have hregion : 1 - (87 / 100 : Rat) <
        (min threeLines.s_consoleHeight 1 - threeLines.s_fontHeight * (3 / 4)) ∨
      1 - (87 / 100 : Rat) > threeLines.s_consoleHeight := by
    rw [hh.1, hh.2]
    left
    norm_num
  obtain ⟨s5, h5, h6, h7, h8, h9⟩ := @OnMouseDown_hit allOrNothing _ _ _ _ _ hgate hregion
    hline hderef hcopy
  have hv : anchorAt (87 / 100) threeLines = 177 / 200 := by
    unfold anchorAt
    rw [hh.1, hh.2]
    norm_num
  rw [hv] at h8 h9
  refine ⟨s5, h5, h6, ?_, h8, h9⟩
  rw [h7]
  decide

/-! ## C31 -/

theorem OnChar_inactive {s : State} (hact : s.s_active = false) (ch : Char)
    (hotKeyDown : Bool) : (OnChar ch hotKeyDown s).map (fun r => r.2) = some s := by
  unfold OnChar
  split
  · rfl
  · simp [hact]

theorem OnKeyDown_inactive {s : State} (hact : s.s_active = false) {key : KEY}
    (hkey : key ≠ s.s_consoleKey) (anyControl hotKeyDown : Bool) :
    OnKeyDown key anyControl hotKeyDown s = some (1, s) := by
  unfold OnKeyDown
  rw [if_neg (fun h => hkey h.1), if_pos (Or.inr (by simp [hact]))]

/-- C31 at the failing inputs.  On the inactive console with the input line
`"> help"` every char event and the key-down of Backspace (any modifiers, hotkey
up or down) leave the state as it was, but the key-repeat of Backspace, a key
other than the hotkey, deletes the `p`: `OnKeyDownRepeat` has no test of
`ConsoleGetActive()`.  On the inactive console at program start the key-repeat
of any other key creates the input line through `GetInputLine()` and sets the
viewport cursor to it. -/
theorem C31_key_repeat_edits_inactive_console :
    inactiveTyped.s_active = false ∧
      inputView (some inactiveTyped) = some (some ['>', ' ', 'h', 'e', 'l', 'p'], 6, 6) ∧
      (∀ ch hotKeyDown,
        (OnChar ch hotKeyDown inactiveTyped).map (fun r => r.2) = some inactiveTyped) ∧
      (∀ anyControl hotKeyDown,
        OnKeyDown KEY.KEY_BACKSPACE anyControl hotKeyDown inactiveTyped
          = some (1, inactiveTyped)) ∧
      inputView ((OnKeyDownRepeat KEY.KEY_BACKSPACE false inactiveTyped).map (fun r => r.2))
        = some (some ['>', ' ', 'h', 'e', 'l'], 5, 5) ∧
      State.init.s_active = false ∧ State.init.s_linelist = [] ∧
      (OnKeyDownRepeat (KEY.KEY_OTHER 0) false State.init).map
          (fun r => (r.2.s_linelist.map (fun l => l.text), r.2.s_NumLines, r.2.s_currlineptr))
        = some ([some ['>', ' ']], 1, some 1) :=
  ⟨rfl, by decide, OnChar_inactive rfl, OnKeyDown_inactive rfl (by decide), by decide, rfl, rfl,
    by decide⟩

end Console
